import Mathlib

/-!
# reselector: a verification development of `src/utils.js`

The functions of `src/utils.js` are embedded as Lean definitions and their properties are
proved. Text is a list of characters. The built-ins and packages the source calls
(`JSON.stringify`, `JSON.parse`, `String.prototype.match`, `toLowerCase`,
`String.prototype.replace`, the POSIX flavour of `path.relative`, `string-hash`,
`@babel/types`) are modelled next to the functions that call them. Numbers are IEEE 754
doubles, written by `Number::toString` and read with correct rounding; the strings of JSON
values are sequences of UTF-16 code units; the members of an object stand in enumeration
order.

The first part holds the definitions, the second part the theorems.
-/

namespace Reselector

/-- Text: the characters of a JavaScript string. -/
abbrev Str := List Char

/-! ## JSON values and the two JSON built-ins -/

/-- A String value as a value of the language: its UTF-16 code units. -/
abbrev CodeUnits := List Nat

/-- A Number value: an IEEE 754 double. The value of `finite negative mantissa exponent`
is `mantissa * 2 ^ exponent`, with its sign. -/
inductive Number where
  | nan
  | infinity (negative : Bool)
  | finite (negative : Bool) (mantissa : Nat) (exponent : Int)
  deriving DecidableEq, Repr

/-- The doubles: the mantissa is below `2 ^ 53`, the exponent lies between -1074 and 971,
and the mantissa is at least `2 ^ 52` unless the exponent is the least one (the subnormal
numbers and the two zeros). -/
def Number.isDouble : Number → Bool
  | .finite _ m e =>
    decide (m < 2 ^ 53) && decide (-1074 ≤ e) && decide (e ≤ 971) &&
      (decide (2 ^ 52 ≤ m) || decide (e = -1074))
  | _ => true

/-- A value of the JSON data model. An object is the list of its members in enumeration
order (`wellFormed`). -/
inductive Json where
  | null
  | bool (b : Bool)
  | num (x : Number)
  | str (s : CodeUnits)
  | arr (xs : List Json)
  | obj (ms : List (CodeUnits × Json))

/-- The way `JSON.parse` fails: the text is not JSON. -/
inductive JsonError where
  | syntaxError
  deriving DecidableEq, Repr

/-! ### Numbers and decimal text -/

/-- The number of doublings of `q` that stay at or below `p`, added to `acc`: with
`q ≤ p` and enough steps allowed by the first argument, the greatest `l` with
`q * 2 ^ l ≤ p`. -/
def floorLog2 : Nat → Nat → Nat → Nat → Nat
  | 0, _, _, acc => acc
  | fuel + 1, p, q, acc => if 2 * q ≤ p then floorLog2 fuel p (2 * q) (acc + 1) else acc

/-- The double nearest to `p / q`, a tie going to the even mantissa: its mantissa and its
exponent counted from -1074. The quotient is taken in units of `2 ^ -1074`; the exponent
is chosen so that the mantissa has 53 bits, or is the least one. An exponent above 2045
stands for an overflow. -/
def roundRatio (p q : Nat) : Nat × Nat :=
  let units := p * 2 ^ 1074
  let shift := floorLog2 units units q 0 - 52
  let d := q * 2 ^ shift
  let m0 := units / d
  let r := units % d
  let m := if d < 2 * r ∨ (2 * r = d ∧ m0 % 2 = 1) then m0 + 1 else m0
  if m = 2 ^ 53 then (2 ^ 52, shift + 1) else (m, shift)

/-- The Number value of `p / q` with a sign: the nearest double, or an infinity. -/
def ratioToNumber (negative : Bool) (p q : Nat) : Number :=
  if 2045 < (roundRatio p q).2 then .infinity negative
  else .finite negative (roundRatio p q).1 (((roundRatio p q).2 : Int) - 1074)

/-- The Number value of the decimal `digits * 10 ^ exp10` with a sign. -/
def decimalToNumber (negative : Bool) (digits : Nat) (exp10 : Int) : Number :=
  if 0 ≤ exp10 then ratioToNumber negative (digits * 10 ^ exp10.toNat) 1
  else ratioToNumber negative digits (10 ^ (-exp10).toNat)

/-- The decimal expansion of `mantissa * 2 ^ exponent`: digits `N` and an exponent `t`
with `mantissa * 2 ^ exponent = N * 10 ^ t`. -/
def exactDecimal (m : Nat) (e : Int) : Nat × Int :=
  if 0 ≤ e then (m * 2 ^ e.toNat, 0) else (m * 5 ^ (-e).toNat, e)

/-- Remove the zeros at the end of the digits `s` of the decimal `s * 10 ^ t`. -/
def dropZeros : Nat → Nat → Int → Nat × Int
  | 0, s, t => (s, t)
  | fuel + 1, s, t =>
    if s ≠ 0 ∧ s % 10 = 0 then dropZeros fuel (s / 10) (t + 1) else (s, t)

/-- The digits of `Number::toString`, step 5, for the positive double `x` with decimal
expansion `N * 10 ^ t`: the shortest decimal `s * 10 ^ u` whose nearest double is `x`; of
several shortest ones the nearest to `x`, and of two equally near ones the even one. The
last argument is the number of digits of `N` left out; the two decimals with that many
digits left out that enclose `x` are tried, from one digit on. -/
def shortestDigits (x : Number) (N : Nat) (t : Int) : Nat → Nat × Int
  | 0 => (N, t)
  | j + 1 =>
    let scale := 10 ^ (j + 1)
    let lo := N / scale
    let below := N % scale
    let hi := dropZeros (lo + 1) (lo + 1) (t + (j + 1 : Nat))
    let okLo := decide (decimalToNumber false lo (t + (j + 1 : Nat)) = x)
    let okHi := decide (decimalToNumber false hi.1 hi.2 = x)
    if okLo && (!okHi || decide (2 * below < scale) || (decide (2 * below = scale) &&
        decide (lo % 2 = 0))) then (lo, t + (j + 1 : Nat))
    else if okHi then hi
    else shortestDigits x N t j

/-- The text of `Number::toString`, steps 6 and 7, for the decimal `s * 10 ^ t`: with `k`
digits and `n = t + k`, plain digits when `-6 < n ≤ 21`, exponent form otherwise. -/
def formatDecimal (s : Nat) (t : Int) : Str :=
  let digits := Nat.toDigits 10 s
  let k := digits.length
  let n : Int := t + k
  if -6 < n ∧ n ≤ 21 then
    if (k : Int) ≤ n then digits ++ List.replicate (n - k).toNat '0'
    else if 0 < n then digits.take n.toNat ++ '.' :: digits.drop n.toNat
    else '0' :: '.' :: (List.replicate (-n).toNat '0' ++ digits)
  else
    let e := n - 1
    let sign := if 0 ≤ e then '+' else '-'
    let exponent := Nat.toDigits 10 e.natAbs
    if k = 1 then digits ++ 'e' :: sign :: exponent
    else digits.take 1 ++ '.' :: (digits.drop 1 ++ 'e' :: sign :: exponent)

/-- The text of a Number value, `Number::toString` with radix 10. -/
def numberToString : Number → Str
  | .nan => ['N', 'a', 'N']
  | .infinity false => ['I', 'n', 'f', 'i', 'n', 'i', 't', 'y']
  | .infinity true => ['-', 'I', 'n', 'f', 'i', 'n', 'i', 't', 'y']
  | .finite negative m e =>
    if m = 0 then ['0']
    else
      let exact := exactDecimal m e
      let st := shortestDigits (.finite false m e) exact.1 exact.2
        ((Nat.toDigits 10 exact.1).length - 1)
      (if negative then ['-'] else []) ++ formatDecimal st.1 st.2


/-! ### Serialization -/

/-- A leading (high) surrogate. -/
def isHighSurrogate (u : Nat) : Bool := decide (0xD800 ≤ u) && decide (u ≤ 0xDBFF)

/-- A trailing (low) surrogate. -/
def isLowSurrogate (u : Nat) : Bool := decide (0xDC00 ≤ u) && decide (u ≤ 0xDFFF)

/-- The escape `\uXXXX` of a code unit, with lower-case hexadecimal digits. -/
def unicodeEscape (u : Nat) : Str :=
  ['\\', 'u', Nat.digitChar (u / 4096 % 16), Nat.digitChar (u / 256 % 16),
    Nat.digitChar (u / 16 % 16), Nat.digitChar (u % 16)]

/-- One code unit of a quoted JSON string, as `JSON.stringify` writes it: the two-character
escapes, `\u00XX` for the other control characters, `\uXXXX` for a surrogate that stands
alone, the character itself otherwise. -/
def quoteUnit (u : Nat) : Str :=
  if u = 0x22 then ['\\', '"']
  else if u = 0x5C then ['\\', '\\']
  else if u = 0x08 then ['\\', 'b']
  else if u = 0x0C then ['\\', 'f']
  else if u = 0x0A then ['\\', 'n']
  else if u = 0x0D then ['\\', 'r']
  else if u = 0x09 then ['\\', 't']
  else if u < 0x20 ∨ isHighSurrogate u ∨ isLowSurrogate u then unicodeEscape u
  else [Char.ofNat u]

/-- The characters of a string between its quotes: a leading surrogate followed by a
trailing one is one character of the text. -/
def quoteBody : CodeUnits → Str
  | [] => []
  | [u] => quoteUnit u
  | u :: v :: s =>
    if isHighSurrogate u ∧ isLowSurrogate v then
      Char.ofNat (0x10000 + (u - 0xD800) * 0x400 + (v - 0xDC00)) :: quoteBody s
    else quoteUnit u ++ quoteBody (v :: s)

/-- A quoted JSON string. -/
def quote (s : CodeUnits) : Str := '"' :: (quoteBody s ++ ['"'])

mutual
/-- The call `JSON.stringify(value)` with no indentation. A number that is not finite is
written `null`. -/
def stringify : Json → Str
  | .null => ['n', 'u', 'l', 'l']
  | .bool true => ['t', 'r', 'u', 'e']
  | .bool false => ['f', 'a', 'l', 's', 'e']
  | .num (.finite negative m e) => numberToString (.finite negative m e)
  | .num _ => ['n', 'u', 'l', 'l']
  | .str s => quote s
  | .arr xs => '[' :: (stringifyElems xs ++ [']'])
  | .obj ms => '{' :: (stringifyMembers ms ++ ['}'])
/-- The elements of an array, separated by commas. -/
def stringifyElems : List Json → Str
  | [] => []
  | [x] => stringify x
  | x :: y :: xs => stringify x ++ ',' :: stringifyElems (y :: xs)
/-- The members of an object, separated by commas. -/
def stringifyMembers : List (CodeUnits × Json) → Str
  | [] => []
  | [(k, v)] => quote k ++ ':' :: stringify v
  | (k, v) :: m :: ms => quote k ++ ':' :: (stringify v ++ ',' :: stringifyMembers (m :: ms))
end

/-! ### Parsing -/

/-- JSON white space. -/
def isWs (c : Char) : Bool := c = ' ' || c = '\t' || c = '\n' || c = '\r'

/-- Drop leading white space. -/
def skipWs : Str → Str
  | [] => []
  | c :: s => if isWs c then skipWs s else c :: s

/-- The value of a hexadecimal digit. -/
def hexVal (c : Char) : Option Nat :=
  if 48 ≤ c.toNat ∧ c.toNat ≤ 57 then some (c.toNat - 48)
  else if 97 ≤ c.toNat ∧ c.toNat ≤ 102 then some (c.toNat - 87)
  else if 65 ≤ c.toNat ∧ c.toNat ≤ 70 then some (c.toNat - 55)
  else none

/-- The code unit a one-letter escape stands for. -/
def unescape (e : Char) : Option Nat :=
  if e = '"' then some 0x22
  else if e = '\\' then some 0x5C
  else if e = '/' then some 0x2F
  else if e = 'b' then some 0x08
  else if e = 'f' then some 0x0C
  else if e = 'n' then some 0x0A
  else if e = 'r' then some 0x0D
  else if e = 't' then some 0x09
  else none

/-- The UTF-16 code units of one character. -/
def charUnits (c : Char) : CodeUnits :=
  if c.toNat < 0x10000 then [c.toNat]
  else [0xD800 + (c.toNat - 0x10000) / 0x400, 0xDC00 + (c.toNat - 0x10000) % 0x400]

/-- Put code units in front of a parsed string. -/
def consUnits (us : CodeUnits) :
    Except JsonError (CodeUnits × Str) → Except JsonError (CodeUnits × Str)
  | .ok (r, t) => .ok (us ++ r, t)
  | .error e => .error e

/-- Parse the characters of a string after its opening quote, up to and including the
closing quote; returns the string and the rest of the text. -/
def parseChars : Str → Except JsonError (CodeUnits × Str)
  | [] => .error .syntaxError
  | c :: s =>
    if c = '"' then .ok ([], s)
    else if c = '\\' then
      match s with
      | [] => .error .syntaxError
      | e :: s1 =>
        if e = 'u' then
          match s1 with
          | h1 :: h2 :: h3 :: h4 :: s2 =>
            match hexVal h1, hexVal h2, hexVal h3, hexVal h4 with
            | some a, some b, some c, some d =>
              consUnits [((a * 16 + b) * 16 + c) * 16 + d] (parseChars s2)
            | _, _, _, _ => .error .syntaxError
          | _ => .error .syntaxError
        else
          match unescape e with
          | some u => consUnits [u] (parseChars s1)
          | none => .error .syntaxError
    else if c.toNat < 32 then .error .syntaxError
    else consUnits (charUnits c) (parseChars s)

/-- The leading decimal digits of a text, and what follows them. -/
def takeDigits : Str → Str × Str
  | [] => ([], [])
  | c :: s =>
    if c.isDigit then ((takeDigits s).1.cons c, (takeDigits s).2) else ([], c :: s)

/-- The number a list of decimal digits denotes. -/
def digitsValue (ds : Str) : Nat := ds.foldl (fun a c => a * 10 + (c.toNat - 48)) 0

/-- The digits of an optional fraction: after a point at least one digit is required. -/
def parseFraction : Str → Except JsonError (Str × Str)
  | [] => .ok ([], [])
  | c :: s =>
    if c = '.' then
      match takeDigits s with
      | ([], _) => .error .syntaxError
      | (d :: ds, rest) => .ok (d :: ds, rest)
    else .ok ([], c :: s)

/-- The digits of an exponent, at least one. -/
def parseExponentDigits (s : Str) : Except JsonError (Nat × Str) :=
  match takeDigits s with
  | ([], _) => .error .syntaxError
  | (d :: ds, rest) => .ok (digitsValue (d :: ds), rest)

/-- The value of an optional exponent part: `e` or `E`, an optional sign, digits. -/
def parseExponent : Str → Except JsonError (Int × Str)
  | [] => .ok (0, [])
  | c :: s =>
    if c = 'e' ∨ c = 'E' then
      match s with
      | [] => .error .syntaxError
      | g :: s1 =>
        if g = '-' then
          match parseExponentDigits s1 with
          | .ok (x, rest) => .ok (-(x : Int), rest)
          | .error e => .error e
        else
          match parseExponentDigits (if g = '+' then s1 else g :: s1) with
          | .ok (x, rest) => .ok ((x : Int), rest)
          | .error e => .error e
    else .ok (0, c :: s)

/-- Parse a number after its optional minus sign: an integer part that is `0` or does
not start with `0`, an optional fraction, an optional exponent. The value is the Number
value of the decimal read. -/
def parseUnsigned (negative : Bool) (s : Str) : Except JsonError (Json × Str) :=
  match takeDigits s with
  | ([], _) => .error .syntaxError
  | (d :: ds, rest) =>
    if d = '0' ∧ ds ≠ [] then .error .syntaxError
    else
      match parseFraction rest with
      | .error e => .error e
      | .ok (fs, rest1) =>
        match parseExponent rest1 with
        | .error e => .error e
        | .ok (x, rest2) =>
          .ok (.num (decimalToNumber negative (digitsValue (d :: ds ++ fs)) (x - fs.length)),
            rest2)

/-- Parse a number, with its optional minus sign. -/
def parseNumber : Str → Except JsonError (Json × Str)
  | [] => .error .syntaxError
  | c :: s => if c = '-' then parseUnsigned true s else parseUnsigned false (c :: s)

/-- The array index a property name stands for: a canonical decimal numeral below
`2 ^ 32 - 1`. -/
def arrayIndex (key : CodeUnits) : Option Nat :=
  match key with
  | [] => none
  | d :: ds =>
    if (d :: ds).all (fun u => decide (48 ≤ u) && decide (u ≤ 57)) ∧
        (d ≠ 48 ∨ ds = []) ∧
        (d :: ds).foldl (fun a u => a * 10 + (u - 48)) 0 < 2 ^ 32 - 1 then
      some ((d :: ds).foldl (fun a u => a * 10 + (u - 48)) 0)
    else none

/-- Whether a new property `key` is enumerated before the property `other`: array
indices come first, in ascending order; the other names follow in order of creation. -/
def comesBefore (key other : CodeUnits) : Bool :=
  match arrayIndex key, arrayIndex other with
  | some i, some j => decide (i < j)
  | some _, none => true
  | none, _ => false

/-- Give the value `v` to the member `k` that an object already has. -/
def replaceMember : List (CodeUnits × Json) → CodeUnits → Json → List (CodeUnits × Json)
  | [], _, _ => []
  | (k1, v1) :: ms, k, v =>
    if k1 = k then (k1, v) :: ms else (k1, v1) :: replaceMember ms k v

/-- Add a member `k` that an object does not have, at its place in the enumeration. -/
def insertMember : List (CodeUnits × Json) → CodeUnits → Json → List (CodeUnits × Json)
  | [], k, v => [(k, v)]
  | (k1, v1) :: ms, k, v =>
    if comesBefore k k1 then (k, v) :: (k1, v1) :: ms else (k1, v1) :: insertMember ms k v

/-- Define member `k` of an object being built: a name already present keeps its place
and takes the new value, a new name takes its place in the enumeration. -/
def setMember (ms : List (CodeUnits × Json)) (k : CodeUnits) (v : Json) :
    List (CodeUnits × Json) :=
  if ms.any (fun m => decide (m.1 = k)) then replaceMember ms k v else insertMember ms k v

mutual
/-- Parse one JSON value in front of a text; the first argument bounds the number of
nested calls and is never the reason for a failure when it exceeds the text length. -/
def parseValue : Nat → Str → Except JsonError (Json × Str)
  | 0, _ => .error .syntaxError
  | fuel + 1, s =>
    match skipWs s with
    | [] => .error .syntaxError
    | c :: t =>
      if c = '{' then
        match skipWs t with
        | [] => .error .syntaxError
        | c1 :: t1 => if c1 = '}' then .ok (.obj [], t1) else parseMembers fuel [] (c1 :: t1)
      else if c = '[' then
        match skipWs t with
        | [] => .error .syntaxError
        | c1 :: t1 => if c1 = ']' then .ok (.arr [], t1) else parseElems fuel [] (c1 :: t1)
      else if c = '"' then
        match parseChars t with
        | .ok (x, r) => .ok (.str x, r)
        | .error e => .error e
      else if c = '-' ∨ c.isDigit then parseNumber (c :: t)
      else if ['t', 'r', 'u', 'e'].isPrefixOf (c :: t) then .ok (.bool true, t.drop 3)
      else if ['f', 'a', 'l', 's', 'e'].isPrefixOf (c :: t) then .ok (.bool false, t.drop 4)
      else if ['n', 'u', 'l', 'l'].isPrefixOf (c :: t) then .ok (.null, t.drop 3)
      else .error .syntaxError
/-- Parse the elements of an array after `[`, up to and including `]`. -/
def parseElems : Nat → List Json → Str → Except JsonError (Json × Str)
  | 0, _, _ => .error .syntaxError
  | fuel + 1, acc, s =>
    match parseValue fuel s with
    | .error e => .error e
    | .ok (v, r) =>
      match skipWs r with
      | [] => .error .syntaxError
      | c :: r1 =>
        if c = ',' then parseElems fuel (acc ++ [v]) r1
        else if c = ']' then .ok (.arr (acc ++ [v]), r1)
        else .error .syntaxError
/-- Parse the members of an object after `{`, up to and including `}`. -/
def parseMembers : Nat → List (CodeUnits × Json) → Str → Except JsonError (Json × Str)
  | 0, _, _ => .error .syntaxError
  | fuel + 1, acc, s =>
    match skipWs s with
    | [] => .error .syntaxError
    | c :: t =>
      if c = '"' then
        match parseChars t with
        | .error e => .error e
        | .ok (k, r) =>
          match skipWs r with
          | [] => .error .syntaxError
          | c1 :: r1 =>
            if c1 = ':' then
              match parseValue fuel r1 with
              | .error e => .error e
              | .ok (v, r2) =>
                match skipWs r2 with
                | [] => .error .syntaxError
                | c2 :: r3 =>
                  if c2 = ',' then parseMembers fuel (setMember acc k v) r3
                  else if c2 = '}' then .ok (.obj (setMember acc k v), r3)
                  else .error .syntaxError
            else .error .syntaxError
      else .error .syntaxError
end

/-- The call `JSON.parse(text)`: one value, with nothing but white space after it. -/
def jsonParse (text : Str) : Except JsonError Json :=
  match parseValue (2 * text.length + 2) text with
  | .error e => .error e
  | .ok (v, rest) => if skipWs rest = [] then .ok v else .error .syntaxError

/-! ## The comment codec (`src/utils.js`, lines 140-145) -/

/-- The opening sentinel. -/
def startMarker : Str := "__reselector__start__::".toList

/-- The closing sentinel. -/
def endMarker : Str := "::__reselector__end__".toList

/-- The function `buildComment`, line 140. -/
def buildComment (hashmap : Json) : Str := startMarker ++ stringify hashmap ++ endMarker

/-- A line terminator: a character the dot of a regular expression does not match. -/
def isLineTerminator (c : Char) : Bool :=
  c = '\n' || c = '\r' || c = Char.ofNat 0x2028 || c = Char.ofNat 0x2029

/-- The group `(.*?)` followed by the closing sentinel, matched at the head of a text:
the shortest run of characters other than line terminators after which the closing
sentinel stands. -/
def lazyCapture : Str → Option Str
  | [] => none
  | c :: s =>
    if endMarker.isPrefixOf (c :: s) then some []
    else if isLineTerminator c then none
    else (lazyCapture s).map (List.cons c)

/-- The whole pattern matched at the head of a text. -/
def matchHere (s : Str) : Option Str :=
  if startMarker.isPrefixOf s then lazyCapture (s.drop startMarker.length) else none

/-- The capture group of the first match of
`/__reselector__start__::(.*?)::__reselector__end__/` in a text: `content.match(...)[1]`. -/
def matchComment : Str → Option Str
  | [] => none
  | c :: s =>
    match matchHere (c :: s) with
    | some r => some r
    | none => matchComment s

/-- The empty string, which `getHashmapFromComment` returns when it has nothing to parse. -/
def emptyResult : Json := .str []

/-- The function `getHashmapFromComment`, lines 141-145. -/
def getHashmapFromComment (content : Str) : Except JsonError Json :=
  let result := (matchComment content).getD []
  if result ≠ [] then jsonParse result else .ok emptyResult

/-! ## The identifier generator (`src/utils.js`, lines 62 and 135-138) -/

/-! ### `String.prototype.toLowerCase`

The result is the lower-case form of the Unicode Default Case Conversion: the simple
mappings of the Unicode Character Database, the one unconditional special mapping
(U+0130) and the one conditional mapping that does not depend on a language (a capital
sigma at the end of a word). The tables are those of version 14.0 of the database. -/

/-- The simple lower-case mappings outside ASCII: `(first, last, step, target)` maps
`first + i * step`, up to `last`, to `target + i * step`. -/
def lowerCaseRanges : List (Nat × Nat × Nat × Nat) := [
  (0xC0, 0xD6, 1, 0xE0), (0xD8, 0xDE, 1, 0xF8), (0x100, 0x12E, 2, 0x101),
  (0x132, 0x136, 2, 0x133), (0x139, 0x147, 2, 0x13A), (0x14A, 0x176, 2, 0x14B),
  (0x178, 0x178, 1, 0xFF), (0x179, 0x17D, 2, 0x17A), (0x181, 0x181, 1, 0x253),
  (0x182, 0x184, 2, 0x183), (0x186, 0x186, 1, 0x254), (0x187, 0x187, 1, 0x188),
  (0x189, 0x18A, 1, 0x256), (0x18B, 0x18B, 1, 0x18C), (0x18E, 0x18E, 1, 0x1DD),
  (0x18F, 0x18F, 1, 0x259), (0x190, 0x190, 1, 0x25B), (0x191, 0x191, 1, 0x192),
  (0x193, 0x193, 1, 0x260), (0x194, 0x194, 1, 0x263), (0x196, 0x196, 1, 0x269),
  (0x197, 0x197, 1, 0x268), (0x198, 0x198, 1, 0x199), (0x19C, 0x19C, 1, 0x26F),
  (0x19D, 0x19D, 1, 0x272), (0x19F, 0x19F, 1, 0x275), (0x1A0, 0x1A4, 2, 0x1A1),
  (0x1A6, 0x1A6, 1, 0x280), (0x1A7, 0x1A7, 1, 0x1A8), (0x1A9, 0x1A9, 1, 0x283),
  (0x1AC, 0x1AC, 1, 0x1AD), (0x1AE, 0x1AE, 1, 0x288), (0x1AF, 0x1AF, 1, 0x1B0),
  (0x1B1, 0x1B2, 1, 0x28A), (0x1B3, 0x1B5, 2, 0x1B4), (0x1B7, 0x1B7, 1, 0x292),
  (0x1B8, 0x1B8, 1, 0x1B9), (0x1BC, 0x1BC, 1, 0x1BD), (0x1C4, 0x1C4, 1, 0x1C6),
  (0x1C5, 0x1C5, 1, 0x1C6), (0x1C7, 0x1C7, 1, 0x1C9), (0x1C8, 0x1C8, 1, 0x1C9),
  (0x1CA, 0x1CA, 1, 0x1CC), (0x1CB, 0x1DB, 2, 0x1CC), (0x1DE, 0x1EE, 2, 0x1DF),
  (0x1F1, 0x1F1, 1, 0x1F3), (0x1F2, 0x1F4, 2, 0x1F3), (0x1F6, 0x1F6, 1, 0x195),
  (0x1F7, 0x1F7, 1, 0x1BF), (0x1F8, 0x21E, 2, 0x1F9), (0x220, 0x220, 1, 0x19E),
  (0x222, 0x232, 2, 0x223), (0x23A, 0x23A, 1, 0x2C65), (0x23B, 0x23B, 1, 0x23C),
  (0x23D, 0x23D, 1, 0x19A), (0x23E, 0x23E, 1, 0x2C66), (0x241, 0x241, 1, 0x242),
  (0x243, 0x243, 1, 0x180), (0x244, 0x244, 1, 0x289), (0x245, 0x245, 1, 0x28C),
  (0x246, 0x24E, 2, 0x247), (0x370, 0x372, 2, 0x371), (0x376, 0x376, 1, 0x377),
  (0x37F, 0x37F, 1, 0x3F3), (0x386, 0x386, 1, 0x3AC), (0x388, 0x38A, 1, 0x3AD),
  (0x38C, 0x38C, 1, 0x3CC), (0x38E, 0x38F, 1, 0x3CD), (0x391, 0x3A1, 1, 0x3B1),
  (0x3A3, 0x3AB, 1, 0x3C3), (0x3CF, 0x3CF, 1, 0x3D7), (0x3D8, 0x3EE, 2, 0x3D9),
  (0x3F4, 0x3F4, 1, 0x3B8), (0x3F7, 0x3F7, 1, 0x3F8), (0x3F9, 0x3F9, 1, 0x3F2),
  (0x3FA, 0x3FA, 1, 0x3FB), (0x3FD, 0x3FF, 1, 0x37B), (0x400, 0x40F, 1, 0x450),
  (0x410, 0x42F, 1, 0x430), (0x460, 0x480, 2, 0x461), (0x48A, 0x4BE, 2, 0x48B),
  (0x4C0, 0x4C0, 1, 0x4CF), (0x4C1, 0x4CD, 2, 0x4C2), (0x4D0, 0x52E, 2, 0x4D1),
  (0x531, 0x556, 1, 0x561), (0x10A0, 0x10C5, 1, 0x2D00), (0x10C7, 0x10C7, 1, 0x2D27),
  (0x10CD, 0x10CD, 1, 0x2D2D), (0x13A0, 0x13EF, 1, 0xAB70), (0x13F0, 0x13F5, 1, 0x13F8),
  (0x1C90, 0x1CBA, 1, 0x10D0), (0x1CBD, 0x1CBF, 1, 0x10FD), (0x1E00, 0x1E94, 2, 0x1E01),
  (0x1E9E, 0x1E9E, 1, 0xDF), (0x1EA0, 0x1EFE, 2, 0x1EA1), (0x1F08, 0x1F0F, 1, 0x1F00),
  (0x1F18, 0x1F1D, 1, 0x1F10), (0x1F28, 0x1F2F, 1, 0x1F20), (0x1F38, 0x1F3F, 1, 0x1F30),
  (0x1F48, 0x1F4D, 1, 0x1F40), (0x1F59, 0x1F5F, 2, 0x1F51), (0x1F68, 0x1F6F, 1, 0x1F60),
  (0x1F88, 0x1F8F, 1, 0x1F80), (0x1F98, 0x1F9F, 1, 0x1F90), (0x1FA8, 0x1FAF, 1, 0x1FA0),
  (0x1FB8, 0x1FB9, 1, 0x1FB0), (0x1FBA, 0x1FBB, 1, 0x1F70), (0x1FBC, 0x1FBC, 1, 0x1FB3),
  (0x1FC8, 0x1FCB, 1, 0x1F72), (0x1FCC, 0x1FCC, 1, 0x1FC3), (0x1FD8, 0x1FD9, 1, 0x1FD0),
  (0x1FDA, 0x1FDB, 1, 0x1F76), (0x1FE8, 0x1FE9, 1, 0x1FE0), (0x1FEA, 0x1FEB, 1, 0x1F7A),
  (0x1FEC, 0x1FEC, 1, 0x1FE5), (0x1FF8, 0x1FF9, 1, 0x1F78), (0x1FFA, 0x1FFB, 1, 0x1F7C),
  (0x1FFC, 0x1FFC, 1, 0x1FF3), (0x2126, 0x2126, 1, 0x3C9), (0x212A, 0x212A, 1, 0x6B),
  (0x212B, 0x212B, 1, 0xE5), (0x2132, 0x2132, 1, 0x214E), (0x2160, 0x216F, 1, 0x2170),
  (0x2183, 0x2183, 1, 0x2184), (0x24B6, 0x24CF, 1, 0x24D0), (0x2C00, 0x2C2F, 1, 0x2C30),
  (0x2C60, 0x2C60, 1, 0x2C61), (0x2C62, 0x2C62, 1, 0x26B), (0x2C63, 0x2C63, 1, 0x1D7D),
  (0x2C64, 0x2C64, 1, 0x27D), (0x2C67, 0x2C6B, 2, 0x2C68), (0x2C6D, 0x2C6D, 1, 0x251),
  (0x2C6E, 0x2C6E, 1, 0x271), (0x2C6F, 0x2C6F, 1, 0x250), (0x2C70, 0x2C70, 1, 0x252),
  (0x2C72, 0x2C72, 1, 0x2C73), (0x2C75, 0x2C75, 1, 0x2C76), (0x2C7E, 0x2C7F, 1, 0x23F),
  (0x2C80, 0x2CE2, 2, 0x2C81), (0x2CEB, 0x2CED, 2, 0x2CEC), (0x2CF2, 0x2CF2, 1, 0x2CF3),
  (0xA640, 0xA66C, 2, 0xA641), (0xA680, 0xA69A, 2, 0xA681), (0xA722, 0xA72E, 2, 0xA723),
  (0xA732, 0xA76E, 2, 0xA733), (0xA779, 0xA77B, 2, 0xA77A), (0xA77D, 0xA77D, 1, 0x1D79),
  (0xA77E, 0xA786, 2, 0xA77F), (0xA78B, 0xA78B, 1, 0xA78C), (0xA78D, 0xA78D, 1, 0x265),
  (0xA790, 0xA792, 2, 0xA791), (0xA796, 0xA7A8, 2, 0xA797), (0xA7AA, 0xA7AA, 1, 0x266),
  (0xA7AB, 0xA7AB, 1, 0x25C), (0xA7AC, 0xA7AC, 1, 0x261), (0xA7AD, 0xA7AD, 1, 0x26C),
  (0xA7AE, 0xA7AE, 1, 0x26A), (0xA7B0, 0xA7B0, 1, 0x29E), (0xA7B1, 0xA7B1, 1, 0x287),
  (0xA7B2, 0xA7B2, 1, 0x29D), (0xA7B3, 0xA7B3, 1, 0xAB53), (0xA7B4, 0xA7C2, 2, 0xA7B5),
  (0xA7C4, 0xA7C4, 1, 0xA794), (0xA7C5, 0xA7C5, 1, 0x282), (0xA7C6, 0xA7C6, 1, 0x1D8E),
  (0xA7C7, 0xA7C9, 2, 0xA7C8), (0xA7D0, 0xA7D0, 1, 0xA7D1), (0xA7D6, 0xA7D8, 2, 0xA7D7),
  (0xA7F5, 0xA7F5, 1, 0xA7F6), (0xFF21, 0xFF3A, 1, 0xFF41), (0x10400, 0x10427, 1, 0x10428),
  (0x104B0, 0x104D3, 1, 0x104D8), (0x10570, 0x1057A, 1, 0x10597), (0x1057C, 0x1058A, 1, 0x105A3),
  (0x1058C, 0x10592, 1, 0x105B3), (0x10594, 0x10595, 1, 0x105BB), (0x10C80, 0x10CB2, 1, 0x10CC0),
  (0x118A0, 0x118BF, 1, 0x118C0), (0x16E40, 0x16E5F, 1, 0x16E60), (0x1E900, 0x1E921, 1, 0x1E922)]

/-- The characters with the property `Case_Ignorable`, as ranges `(first, last)`. -/
def caseIgnorableRanges : List (Nat × Nat) := [
  (0x27, 0x27), (0x2E, 0x2E), (0x3A, 0x3A), (0x5E, 0x5E), (0x60, 0x60), (0xA8, 0xA8),
  (0xAD, 0xAD), (0xAF, 0xAF), (0xB4, 0xB4), (0xB7, 0xB8), (0x2B0, 0x36F), (0x374, 0x375),
  (0x37A, 0x37A), (0x384, 0x385), (0x387, 0x387), (0x483, 0x489), (0x559, 0x559), (0x55F, 0x55F),
  (0x591, 0x5BD), (0x5BF, 0x5BF), (0x5C1, 0x5C2), (0x5C4, 0x5C5), (0x5C7, 0x5C7), (0x5F4, 0x5F4),
  (0x600, 0x605), (0x610, 0x61A), (0x61C, 0x61C), (0x640, 0x640), (0x64B, 0x65F), (0x670, 0x670),
  (0x6D6, 0x6DD), (0x6DF, 0x6E8), (0x6EA, 0x6ED), (0x70F, 0x70F), (0x711, 0x711), (0x730, 0x74A),
  (0x7A6, 0x7B0), (0x7EB, 0x7F5), (0x7FA, 0x7FA), (0x7FD, 0x7FD), (0x816, 0x82D), (0x859, 0x85B),
  (0x888, 0x888), (0x890, 0x891), (0x898, 0x89F), (0x8C9, 0x902), (0x93A, 0x93A), (0x93C, 0x93C),
  (0x941, 0x948), (0x94D, 0x94D), (0x951, 0x957), (0x962, 0x963), (0x971, 0x971), (0x981, 0x981),
  (0x9BC, 0x9BC), (0x9C1, 0x9C4), (0x9CD, 0x9CD), (0x9E2, 0x9E3), (0x9FE, 0x9FE), (0xA01, 0xA02),
  (0xA3C, 0xA3C), (0xA41, 0xA42), (0xA47, 0xA48), (0xA4B, 0xA4D), (0xA51, 0xA51), (0xA70, 0xA71),
  (0xA75, 0xA75), (0xA81, 0xA82), (0xABC, 0xABC), (0xAC1, 0xAC5), (0xAC7, 0xAC8), (0xACD, 0xACD),
  (0xAE2, 0xAE3), (0xAFA, 0xAFF), (0xB01, 0xB01), (0xB3C, 0xB3C), (0xB3F, 0xB3F), (0xB41, 0xB44),
  (0xB4D, 0xB4D), (0xB55, 0xB56), (0xB62, 0xB63), (0xB82, 0xB82), (0xBC0, 0xBC0), (0xBCD, 0xBCD),
  (0xC00, 0xC00), (0xC04, 0xC04), (0xC3C, 0xC3C), (0xC3E, 0xC40), (0xC46, 0xC48), (0xC4A, 0xC4D),
  (0xC55, 0xC56), (0xC62, 0xC63), (0xC81, 0xC81), (0xCBC, 0xCBC), (0xCBF, 0xCBF), (0xCC6, 0xCC6),
  (0xCCC, 0xCCD), (0xCE2, 0xCE3), (0xD00, 0xD01), (0xD3B, 0xD3C), (0xD41, 0xD44), (0xD4D, 0xD4D),
  (0xD62, 0xD63), (0xD81, 0xD81), (0xDCA, 0xDCA), (0xDD2, 0xDD4), (0xDD6, 0xDD6), (0xE31, 0xE31),
  (0xE34, 0xE3A), (0xE46, 0xE4E), (0xEB1, 0xEB1), (0xEB4, 0xEBC), (0xEC6, 0xEC6), (0xEC8, 0xECD),
  (0xF18, 0xF19), (0xF35, 0xF35), (0xF37, 0xF37), (0xF39, 0xF39), (0xF71, 0xF7E), (0xF80, 0xF84),
  (0xF86, 0xF87), (0xF8D, 0xF97), (0xF99, 0xFBC), (0xFC6, 0xFC6), (0x102D, 0x1030),
  (0x1032, 0x1037), (0x1039, 0x103A), (0x103D, 0x103E), (0x1058, 0x1059), (0x105E, 0x1060),
  (0x1071, 0x1074), (0x1082, 0x1082), (0x1085, 0x1086), (0x108D, 0x108D), (0x109D, 0x109D),
  (0x10FC, 0x10FC), (0x135D, 0x135F), (0x1712, 0x1714), (0x1732, 0x1733), (0x1752, 0x1753),
  (0x1772, 0x1773), (0x17B4, 0x17B5), (0x17B7, 0x17BD), (0x17C6, 0x17C6), (0x17C9, 0x17D3),
  (0x17D7, 0x17D7), (0x17DD, 0x17DD), (0x180B, 0x180F), (0x1843, 0x1843), (0x1885, 0x1886),
  (0x18A9, 0x18A9), (0x1920, 0x1922), (0x1927, 0x1928), (0x1932, 0x1932), (0x1939, 0x193B),
  (0x1A17, 0x1A18), (0x1A1B, 0x1A1B), (0x1A56, 0x1A56), (0x1A58, 0x1A5E), (0x1A60, 0x1A60),
  (0x1A62, 0x1A62), (0x1A65, 0x1A6C), (0x1A73, 0x1A7C), (0x1A7F, 0x1A7F), (0x1AA7, 0x1AA7),
  (0x1AB0, 0x1ACE), (0x1B00, 0x1B03), (0x1B34, 0x1B34), (0x1B36, 0x1B3A), (0x1B3C, 0x1B3C),
  (0x1B42, 0x1B42), (0x1B6B, 0x1B73), (0x1B80, 0x1B81), (0x1BA2, 0x1BA5), (0x1BA8, 0x1BA9),
  (0x1BAB, 0x1BAD), (0x1BE6, 0x1BE6), (0x1BE8, 0x1BE9), (0x1BED, 0x1BED), (0x1BEF, 0x1BF1),
  (0x1C2C, 0x1C33), (0x1C36, 0x1C37), (0x1C78, 0x1C7D), (0x1CD0, 0x1CD2), (0x1CD4, 0x1CE0),
  (0x1CE2, 0x1CE8), (0x1CED, 0x1CED), (0x1CF4, 0x1CF4), (0x1CF8, 0x1CF9), (0x1D2C, 0x1D6A),
  (0x1D78, 0x1D78), (0x1D9B, 0x1DFF), (0x1FBD, 0x1FBD), (0x1FBF, 0x1FC1), (0x1FCD, 0x1FCF),
  (0x1FDD, 0x1FDF), (0x1FED, 0x1FEF), (0x1FFD, 0x1FFE), (0x200B, 0x200F), (0x2018, 0x2019),
  (0x2024, 0x2024), (0x2027, 0x2027), (0x202A, 0x202E), (0x2060, 0x2064), (0x2066, 0x206F),
  (0x2071, 0x2071), (0x207F, 0x207F), (0x2090, 0x209C), (0x20D0, 0x20F0), (0x2C7C, 0x2C7D),
  (0x2CEF, 0x2CF1), (0x2D6F, 0x2D6F), (0x2D7F, 0x2D7F), (0x2DE0, 0x2DFF), (0x2E2F, 0x2E2F),
  (0x3005, 0x3005), (0x302A, 0x302D), (0x3031, 0x3035), (0x303B, 0x303B), (0x3099, 0x309E),
  (0x30FC, 0x30FE), (0xA015, 0xA015), (0xA4F8, 0xA4FD), (0xA60C, 0xA60C), (0xA66F, 0xA672),
  (0xA674, 0xA67D), (0xA67F, 0xA67F), (0xA69C, 0xA69F), (0xA6F0, 0xA6F1), (0xA700, 0xA721),
  (0xA770, 0xA770), (0xA788, 0xA78A), (0xA7F2, 0xA7F4), (0xA7F8, 0xA7F9), (0xA802, 0xA802),
  (0xA806, 0xA806), (0xA80B, 0xA80B), (0xA825, 0xA826), (0xA82C, 0xA82C), (0xA8C4, 0xA8C5),
  (0xA8E0, 0xA8F1), (0xA8FF, 0xA8FF), (0xA926, 0xA92D), (0xA947, 0xA951), (0xA980, 0xA982),
  (0xA9B3, 0xA9B3), (0xA9B6, 0xA9B9), (0xA9BC, 0xA9BD), (0xA9CF, 0xA9CF), (0xA9E5, 0xA9E6),
  (0xAA29, 0xAA2E), (0xAA31, 0xAA32), (0xAA35, 0xAA36), (0xAA43, 0xAA43), (0xAA4C, 0xAA4C),
  (0xAA70, 0xAA70), (0xAA7C, 0xAA7C), (0xAAB0, 0xAAB0), (0xAAB2, 0xAAB4), (0xAAB7, 0xAAB8),
  (0xAABE, 0xAABF), (0xAAC1, 0xAAC1), (0xAADD, 0xAADD), (0xAAEC, 0xAAED), (0xAAF3, 0xAAF4),
  (0xAAF6, 0xAAF6), (0xAB5B, 0xAB5F), (0xAB69, 0xAB6B), (0xABE5, 0xABE5), (0xABE8, 0xABE8),
  (0xABED, 0xABED), (0xFB1E, 0xFB1E), (0xFBB2, 0xFBC2), (0xFE00, 0xFE0F), (0xFE13, 0xFE13),
  (0xFE20, 0xFE2F), (0xFE52, 0xFE52), (0xFE55, 0xFE55), (0xFEFF, 0xFEFF), (0xFF07, 0xFF07),
  (0xFF0E, 0xFF0E), (0xFF1A, 0xFF1A), (0xFF3E, 0xFF3E), (0xFF40, 0xFF40), (0xFF70, 0xFF70),
  (0xFF9E, 0xFF9F), (0xFFE3, 0xFFE3), (0xFFF9, 0xFFFB), (0x101FD, 0x101FD), (0x102E0, 0x102E0),
  (0x10376, 0x1037A), (0x10780, 0x10785), (0x10787, 0x107B0), (0x107B2, 0x107BA),
  (0x10A01, 0x10A03), (0x10A05, 0x10A06), (0x10A0C, 0x10A0F), (0x10A38, 0x10A3A),
  (0x10A3F, 0x10A3F), (0x10AE5, 0x10AE6), (0x10D24, 0x10D27), (0x10EAB, 0x10EAC),
  (0x10F46, 0x10F50), (0x10F82, 0x10F85), (0x11001, 0x11001), (0x11038, 0x11046),
  (0x11070, 0x11070), (0x11073, 0x11074), (0x1107F, 0x11081), (0x110B3, 0x110B6),
  (0x110B9, 0x110BA), (0x110BD, 0x110BD), (0x110C2, 0x110C2), (0x110CD, 0x110CD),
  (0x11100, 0x11102), (0x11127, 0x1112B), (0x1112D, 0x11134), (0x11173, 0x11173),
  (0x11180, 0x11181), (0x111B6, 0x111BE), (0x111C9, 0x111CC), (0x111CF, 0x111CF),
  (0x1122F, 0x11231), (0x11234, 0x11234), (0x11236, 0x11237), (0x1123E, 0x1123E),
  (0x112DF, 0x112DF), (0x112E3, 0x112EA), (0x11300, 0x11301), (0x1133B, 0x1133C),
  (0x11340, 0x11340), (0x11366, 0x1136C), (0x11370, 0x11374), (0x11438, 0x1143F),
  (0x11442, 0x11444), (0x11446, 0x11446), (0x1145E, 0x1145E), (0x114B3, 0x114B8),
  (0x114BA, 0x114BA), (0x114BF, 0x114C0), (0x114C2, 0x114C3), (0x115B2, 0x115B5),
  (0x115BC, 0x115BD), (0x115BF, 0x115C0), (0x115DC, 0x115DD), (0x11633, 0x1163A),
  (0x1163D, 0x1163D), (0x1163F, 0x11640), (0x116AB, 0x116AB), (0x116AD, 0x116AD),
  (0x116B0, 0x116B5), (0x116B7, 0x116B7), (0x1171D, 0x1171F), (0x11722, 0x11725),
  (0x11727, 0x1172B), (0x1182F, 0x11837), (0x11839, 0x1183A), (0x1193B, 0x1193C),
  (0x1193E, 0x1193E), (0x11943, 0x11943), (0x119D4, 0x119D7), (0x119DA, 0x119DB),
  (0x119E0, 0x119E0), (0x11A01, 0x11A0A), (0x11A33, 0x11A38), (0x11A3B, 0x11A3E),
  (0x11A47, 0x11A47), (0x11A51, 0x11A56), (0x11A59, 0x11A5B), (0x11A8A, 0x11A96),
  (0x11A98, 0x11A99), (0x11C30, 0x11C36), (0x11C38, 0x11C3D), (0x11C3F, 0x11C3F),
  (0x11C92, 0x11CA7), (0x11CAA, 0x11CB0), (0x11CB2, 0x11CB3), (0x11CB5, 0x11CB6),
  (0x11D31, 0x11D36), (0x11D3A, 0x11D3A), (0x11D3C, 0x11D3D), (0x11D3F, 0x11D45),
  (0x11D47, 0x11D47), (0x11D90, 0x11D91), (0x11D95, 0x11D95), (0x11D97, 0x11D97),
  (0x11EF3, 0x11EF4), (0x13430, 0x13438), (0x16AF0, 0x16AF4), (0x16B30, 0x16B36),
  (0x16B40, 0x16B43), (0x16F4F, 0x16F4F), (0x16F8F, 0x16F9F), (0x16FE0, 0x16FE1),
  (0x16FE3, 0x16FE4), (0x1AFF0, 0x1AFF3), (0x1AFF5, 0x1AFFB), (0x1AFFD, 0x1AFFE),
  (0x1BC9D, 0x1BC9E), (0x1BCA0, 0x1BCA3), (0x1CF00, 0x1CF2D), (0x1CF30, 0x1CF46),
  (0x1D167, 0x1D169), (0x1D173, 0x1D182), (0x1D185, 0x1D18B), (0x1D1AA, 0x1D1AD),
  (0x1D242, 0x1D244), (0x1DA00, 0x1DA36), (0x1DA3B, 0x1DA6C), (0x1DA75, 0x1DA75),
  (0x1DA84, 0x1DA84), (0x1DA9B, 0x1DA9F), (0x1DAA1, 0x1DAAF), (0x1E000, 0x1E006),
  (0x1E008, 0x1E018), (0x1E01B, 0x1E021), (0x1E023, 0x1E024), (0x1E026, 0x1E02A),
  (0x1E130, 0x1E13D), (0x1E2AE, 0x1E2AE), (0x1E2EC, 0x1E2EF), (0x1E8D0, 0x1E8D6),
  (0x1E944, 0x1E94B), (0x1F3FB, 0x1F3FF), (0xE0001, 0xE0001), (0xE0020, 0xE007F),
  (0xE0100, 0xE01EF)]

/-- The characters with the property `Cased` that are not `Case_Ignorable`, as ranges
`(first, last)`. -/
def casedRanges : List (Nat × Nat) := [
  (0x41, 0x5A), (0x61, 0x7A), (0xAA, 0xAA), (0xB5, 0xB5), (0xBA, 0xBA), (0xC0, 0xD6),
  (0xD8, 0xF6), (0xF8, 0x1BA), (0x1BC, 0x1BF), (0x1C4, 0x293), (0x295, 0x2AF), (0x370, 0x373),
  (0x376, 0x377), (0x37B, 0x37D), (0x37F, 0x37F), (0x386, 0x386), (0x388, 0x38A), (0x38C, 0x38C),
  (0x38E, 0x3A1), (0x3A3, 0x3F5), (0x3F7, 0x481), (0x48A, 0x52F), (0x531, 0x556), (0x560, 0x588),
  (0x10A0, 0x10C5), (0x10C7, 0x10C7), (0x10CD, 0x10CD), (0x10D0, 0x10FA), (0x10FD, 0x10FF),
  (0x13A0, 0x13F5), (0x13F8, 0x13FD), (0x1C80, 0x1C88), (0x1C90, 0x1CBA), (0x1CBD, 0x1CBF),
  (0x1D00, 0x1D2B), (0x1D6B, 0x1D77), (0x1D79, 0x1D9A), (0x1E00, 0x1F15), (0x1F18, 0x1F1D),
  (0x1F20, 0x1F45), (0x1F48, 0x1F4D), (0x1F50, 0x1F57), (0x1F59, 0x1F59), (0x1F5B, 0x1F5B),
  (0x1F5D, 0x1F5D), (0x1F5F, 0x1F7D), (0x1F80, 0x1FB4), (0x1FB6, 0x1FBC), (0x1FBE, 0x1FBE),
  (0x1FC2, 0x1FC4), (0x1FC6, 0x1FCC), (0x1FD0, 0x1FD3), (0x1FD6, 0x1FDB), (0x1FE0, 0x1FEC),
  (0x1FF2, 0x1FF4), (0x1FF6, 0x1FFC), (0x2102, 0x2102), (0x2107, 0x2107), (0x210A, 0x2113),
  (0x2115, 0x2115), (0x2119, 0x211D), (0x2124, 0x2124), (0x2126, 0x2126), (0x2128, 0x2128),
  (0x212A, 0x212D), (0x212F, 0x2134), (0x2139, 0x2139), (0x213C, 0x213F), (0x2145, 0x2149),
  (0x214E, 0x214E), (0x2160, 0x217F), (0x2183, 0x2184), (0x24B6, 0x24E9), (0x2C00, 0x2C7B),
  (0x2C7E, 0x2CE4), (0x2CEB, 0x2CEE), (0x2CF2, 0x2CF3), (0x2D00, 0x2D25), (0x2D27, 0x2D27),
  (0x2D2D, 0x2D2D), (0xA640, 0xA66D), (0xA680, 0xA69B), (0xA722, 0xA76F), (0xA771, 0xA787),
  (0xA78B, 0xA78E), (0xA790, 0xA7CA), (0xA7D0, 0xA7D1), (0xA7D3, 0xA7D3), (0xA7D5, 0xA7D9),
  (0xA7F5, 0xA7F6), (0xA7FA, 0xA7FA), (0xAB30, 0xAB5A), (0xAB60, 0xAB68), (0xAB70, 0xABBF),
  (0xFB00, 0xFB06), (0xFB13, 0xFB17), (0xFF21, 0xFF3A), (0xFF41, 0xFF5A), (0x10400, 0x1044F),
  (0x104B0, 0x104D3), (0x104D8, 0x104FB), (0x10570, 0x1057A), (0x1057C, 0x1058A),
  (0x1058C, 0x10592), (0x10594, 0x10595), (0x10597, 0x105A1), (0x105A3, 0x105B1),
  (0x105B3, 0x105B9), (0x105BB, 0x105BC), (0x10C80, 0x10CB2), (0x10CC0, 0x10CF2),
  (0x118A0, 0x118DF), (0x16E40, 0x16E7F), (0x1D400, 0x1D454), (0x1D456, 0x1D49C),
  (0x1D49E, 0x1D49F), (0x1D4A2, 0x1D4A2), (0x1D4A5, 0x1D4A6), (0x1D4A9, 0x1D4AC),
  (0x1D4AE, 0x1D4B9), (0x1D4BB, 0x1D4BB), (0x1D4BD, 0x1D4C3), (0x1D4C5, 0x1D505),
  (0x1D507, 0x1D50A), (0x1D50D, 0x1D514), (0x1D516, 0x1D51C), (0x1D51E, 0x1D539),
  (0x1D53B, 0x1D53E), (0x1D540, 0x1D544), (0x1D546, 0x1D546), (0x1D54A, 0x1D550),
  (0x1D552, 0x1D6A5), (0x1D6A8, 0x1D6C0), (0x1D6C2, 0x1D6DA), (0x1D6DC, 0x1D6FA),
  (0x1D6FC, 0x1D714), (0x1D716, 0x1D734), (0x1D736, 0x1D74E), (0x1D750, 0x1D76E),
  (0x1D770, 0x1D788), (0x1D78A, 0x1D7A8), (0x1D7AA, 0x1D7C2), (0x1D7C4, 0x1D7CB),
  (0x1DF00, 0x1DF09), (0x1DF0B, 0x1DF1E), (0x1E900, 0x1E943), (0x1F130, 0x1F149),
  (0x1F150, 0x1F169), (0x1F170, 0x1F189)]

/-- Whether a number lies in one of the ranges. -/
def inRanges (ranges : List (Nat × Nat)) (n : Nat) : Bool :=
  ranges.any (fun r => decide (r.1 ≤ n) && decide (n ≤ r.2))

/-- The property `Case_Ignorable`. -/
def isCaseIgnorable (c : Char) : Bool := inRanges caseIgnorableRanges c.toNat

/-- The property `Cased`, for a character that is not `Case_Ignorable`. -/
def isCased (c : Char) : Bool := inRanges casedRanges c.toNat

/-- The simple lower-case mapping of a code point. -/
def lowerCode (n : Nat) : Nat :=
  if n < 128 then (if 65 ≤ n ∧ n ≤ 90 then n + 32 else n)
  else
    match lowerCaseRanges.find?
      (fun r => decide (r.1 ≤ n) && decide (n ≤ r.2.1) && decide ((n - r.1) % r.2.2.1 = 0)) with
    | some r => r.2.2.2 + (n - r.1)
    | none => n

/-- The lower-case form of one character out of context: U+0130 becomes `i` followed by
U+0307, every other character takes its simple mapping. -/
def lowerChar (c : Char) : Str :=
  if c.toNat = 0x130 then ['i', Char.ofNat 0x307] else [Char.ofNat (lowerCode c.toNat)]

/-- Whether the nearest character that is not `Case_Ignorable` is `Cased`; the text is
read from its head, which is the nearest character. -/
def nearestIsCased : Str → Bool
  | [] => false
  | c :: s => if isCaseIgnorable c then nearestIsCased s else isCased c

/-- The lower-case form of a character in its context: a capital sigma (U+03A3) that
follows a cased letter and is not followed by one becomes the final sigma (U+03C2).
`before` holds the characters before it, nearest first; `after` those after it. -/
def lowerCharAt (before after : Str) (c : Char) : Str :=
  if c.toNat = 0x3A3 then
    if nearestIsCased before && !nearestIsCased after then [Char.ofNat 0x3C2]
    else [Char.ofNat 0x3C3]
  else lowerChar c

/-- The lower-case form of a text that stands after the characters `before` (nearest
first). -/
def toLowerCaseFrom (before : Str) : Str → Str
  | [] => []
  | c :: s => lowerCharAt before s c ++ toLowerCaseFrom (c :: before) s

/-- The call `text.toLowerCase()`. -/
def toLowerCase (s : Str) : Str := toLowerCaseFrom [] s

/-- One character of the pattern `platform.desktop|platform.touch` against one character
of the text, under the flag `i`: the dot matches any character but a line terminator, a
letter matches itself in either case. Without the flag `u` a character outside ASCII
never matches an ASCII letter. -/
def matchPatternChar (p c : Char) : Bool :=
  if p = '.' then !isLineTerminator c else c.toLower = p

/-- A sequence of pattern characters matched at the head of a text. -/
def matchPattern : Str → Str → Bool
  | [], _ => true
  | _ :: _, [] => false
  | p :: ps, c :: s => matchPatternChar p c && matchPattern ps s

/-- The first alternative of the pattern. -/
def platformDesktop : Str :=
  ['p', 'l', 'a', 't', 'f', 'o', 'r', 'm', '.', 'd', 'e', 's', 'k', 't', 'o', 'p']

/-- The second alternative of the pattern. -/
def platformTouch : Str :=
  ['p', 'l', 'a', 't', 'f', 'o', 'r', 'm', '.', 't', 'o', 'u', 'c', 'h']

/-- The scan of `replace(/platform.desktop|platform.touch/gi, '')`: the first argument
counts the characters of the current match still to be dropped. -/
def removePlatformFrom : Nat → Str → Str
  | _, [] => []
  | k + 1, _ :: s => removePlatformFrom k s
  | 0, c :: s =>
    if matchPattern platformDesktop (c :: s) then removePlatformFrom 15 s
    else if matchPattern platformTouch (c :: s) then removePlatformFrom 13 s
    else c :: removePlatformFrom 0 s

/-- The call `text.replace(/platform.desktop|platform.touch/gi, '')`. -/
def removePlatform (text : Str) : Str := removePlatformFrom 0 text

/-- The call `text.split(sep)` for a separator of one character. -/
def splitSep (sep : Char) : Str → List Str
  | [] => [[]]
  | c :: s =>
    if c = sep then [] :: splitSep sep s
    else
      match splitSep sep s with
      | [] => [[c]]
      | w :: ws => (c :: w) :: ws

/-- The call `parts.join('/')`. -/
def joinSlash : List Str → Str
  | [] => []
  | [w] => w
  | w :: v :: ws => w ++ '/' :: joinSlash (v :: ws)

/-- The segments of a path after normalization: empty segments and `.` are dropped, `..`
removes the segment before it; above the start `..` is kept only when it is allowed.
The second argument is the stack of segments kept so far, last one first. -/
def normalizeSegments (allowAboveRoot : Bool) : List Str → List Str → List Str
  | [], acc => acc.reverse
  | seg :: rest, acc =>
    if seg = [] ∨ seg = ['.'] then normalizeSegments allowAboveRoot rest acc
    else if seg = ['.', '.'] then
      match acc with
      | [] =>
        if allowAboveRoot then normalizeSegments allowAboveRoot rest [seg]
        else normalizeSegments allowAboveRoot rest []
      | top :: below =>
        if top = ['.', '.'] then
          if allowAboveRoot then normalizeSegments allowAboveRoot rest (seg :: top :: below)
          else normalizeSegments allowAboveRoot rest (top :: below)
        else normalizeSegments allowAboveRoot rest below
    else normalizeSegments allowAboveRoot rest (seg :: acc)

/-- Whether a path starts at the root. -/
def isAbsolute (p : Str) : Bool := p.head? = some '/'

/-- The value of `path.resolve(p)` of the POSIX flavour of Node's `path` module: a path
that is not absolute is taken from the working directory. -/
def posixResolve (cwd p : Str) : Str :=
  let full :=
    if p = [] then cwd
    else if isAbsolute p then p
    else if cwd = [] then p
    else cwd ++ '/' :: p
  let segs := normalizeSegments (!isAbsolute full) (splitSep '/' full) []
  if isAbsolute full then '/' :: joinSlash segs
  else if segs = [] then ['.'] else joinSlash segs

/-- The number of leading segments two paths share. -/
def commonSegments : List Str → List Str → Nat
  | a :: as, b :: bs => if a = b then commonSegments as bs + 1 else 0
  | _, _ => 0

/-- The value of `path.relative(from, to)` of the POSIX flavour of Node's `path` module,
for an absolute working directory: both paths are resolved, then one `..` is written for
each segment of `from` below the shared directory, followed by the rest of `to`. -/
def posixRelative (cwd pathFrom pathTo : Str) : Str :=
  if pathFrom = pathTo then []
  else
    let f := posixResolve cwd pathFrom
    let t := posixResolve cwd pathTo
    if f = t then []
    else
      let fs := (splitSep '/' f).filter (fun seg => seg ≠ [])
      let ts := (splitSep '/' t).filter (fun seg => seg ≠ [])
      let k := commonSegments fs ts
      joinSlash (List.replicate (fs.length - k) ['.', '.'] ++ ts.drop k)

/-- The UTF-16 code units of a text, which `charCodeAt` reads. -/
def charCodes : Str → List Nat
  | [] => []
  | c :: s =>
    if c.toNat < 0x10000 then c.toNat :: charCodes s
    else
      (0xD800 + (c.toNat - 0x10000) / 0x400) :: (0xDC00 + (c.toNat - 0x10000) % 0x400)
        :: charCodes s

/-- One step of the loop of `string-hash`: `hash = (hash * 33) ^ str.charCodeAt(--i)`,
on 32-bit integers. -/
def hashStep (code h : Nat) : Nat := ((h * 33) % 2 ^ 32) ^^^ code

/-- The function of the package `string-hash`: the loop runs from the last code unit to
the first, starting at 5381, and the result is read as an unsigned 32-bit integer. -/
def hash (str : Str) : Nat := ((charCodes str).foldr hashStep 5381) % 2 ^ 32

/-- The call `n.toString(16)` for a natural number. -/
def toString16 (n : Nat) : Str := Nat.toDigits 16 n

/-- The function `projectPath`, line 62: `process.cwd().toLowerCase()`. -/
def projectPath (cwd : Str) : Str := toLowerCase cwd

/-- The function `getId`, lines 135-138, with the working directory of the process as
first argument. -/
def getId (cwd filename name : Str) : Str :=
  let mainRootPath := removePlatform (projectPath cwd)
  toString16 (hash (joinSlash (splitSep '/'
    (posixRelative cwd mainRootPath (toLowerCase filename) ++ ':' :: name))))

/-! ## Syntax nodes and cursors (`@babel/types`, `@babel/traverse`) -/

/-- A node of the syntax tree, with the fields the source reads; `other` stands for
every kind the source never names. -/
inductive Node where
  | Identifier (name : String)
  | JSXElement (children : List Node)
  | JSXFragment (children : List Node)
  | CallExpression (callee : Node) (arguments : List Node)
  | NewExpression (callee : Node) (arguments : List Node)
  | OptionalCallExpression (callee : Node) (arguments : List Node)
  | MemberExpression (object property : Node)
  | ConditionalExpression (test consequent alternate : Node)
  | SequenceExpression (expressions : List Node)
  | LogicalExpression (left right : Node)
  | ReturnStatement (argument : Option Node)
  | ArrowFunctionExpression (params : List Node) (body : Node)
  | FunctionExpression (id : Option Node) (params : List Node) (body : Node)
  | ClassMethod (key : Node) (params : List Node) (body : Node)
  | ObjectMethod (key : Node) (params : List Node) (body : Node)
  | FunctionDeclaration (id : Option Node) (params : List Node) (body : Node)
  | VariableDeclaration (declarations : List Node)
  | VariableDeclarator (id : Node) (init : Option Node)
  | ClassDeclaration (id : Option Node) (body : Node)
  | ExportDefaultDeclaration (declaration : Node)
  | ExportNamedDeclaration (declaration : Option Node)
  | other (kind : String) (children : List Node)

/-- A cursor (a Babel path): a node together with the cursor of its parent, if it has one. -/
inductive Cursor where
  | root (node : Node)
  | child (node : Node) (parentPath : Cursor)

/-- The value of `path.node`. -/
def Cursor.node : Cursor → Node
  | .root n => n
  | .child n _ => n

/-- The value of `path.parentPath`, `none` for `null`. -/
def Cursor.parentPath? : Cursor → Option Cursor
  | .root _ => none
  | .child _ pp => some pp

/-- The value of `path.parent`: the node of the parent cursor. -/
def Cursor.parent : Cursor → Option Node
  | .root _ => none
  | .child _ pp => some pp.node

/-- The cursors above a cursor, nearest first. -/
def Cursor.ancestors : Cursor → List Cursor
  | .root _ => []
  | .child _ pp => pp :: pp.ancestors

/-- The value of `node.name`, where the node has one. -/
def Node.name : Node → Option String
  | .Identifier n => some n
  | _ => none

/-- The value of `node.arguments || []`. -/
def Node.arguments : Node → List Node
  | .CallExpression _ args => args
  | .NewExpression _ args => args
  | .OptionalCallExpression _ args => args
  | _ => []

/-- The value of `node.callee`, where the node has one. -/
def Node.callee : Node → Option Node
  | .CallExpression c _ => some c
  | .NewExpression c _ => some c
  | .OptionalCallExpression c _ => some c
  | _ => none

/-- The test `t.isJSXFragment`. -/
def isJSXFragment : Node → Bool
  | .JSXFragment _ => true
  | _ => false

/-- The test `t.isJSXElement`. -/
def isJSXElement : Node → Bool
  | .JSXElement _ => true
  | _ => false

/-- The test `t.isCallExpression`. -/
def isCallExpression : Node → Bool
  | .CallExpression _ _ => true
  | _ => false

/-- The test `t.isConditionalExpression`. -/
def isConditionalExpression : Node → Bool
  | .ConditionalExpression _ _ _ => true
  | _ => false

/-- The test `t.isSequenceExpression`. -/
def isSequenceExpression : Node → Bool
  | .SequenceExpression _ => true
  | _ => false

/-- The test `t.isLogicalExpression`. -/
def isLogicalExpression : Node → Bool
  | .LogicalExpression _ _ => true
  | _ => false

/-- The test `t.isReturnStatement`. -/
def isReturnStatement : Node → Bool
  | .ReturnStatement _ => true
  | _ => false

/-- The test `t.isArrowFunctionExpression`. -/
def isArrowFunctionExpression : Node → Bool
  | .ArrowFunctionExpression _ _ => true
  | _ => false

/-- The test `t.isFunctionExpression`. -/
def isFunctionExpression : Node → Bool
  | .FunctionExpression _ _ _ => true
  | _ => false

/-- The test `t.isClassMethod`. -/
def isClassMethod : Node → Bool
  | .ClassMethod _ _ _ => true
  | _ => false

/-- The test `t.isObjectMethod`. -/
def isObjectMethod : Node → Bool
  | .ObjectMethod _ _ _ => true
  | _ => false

/-- The test `t.isFunctionDeclaration`. -/
def isFunctionDeclaration : Node → Bool
  | .FunctionDeclaration _ _ _ => true
  | _ => false

/-! ## The classifiers (`src/utils.js`, lines 11-45) -/

/-- The function `isReactFragment`, lines 11-29; `none` is `null`. -/
def isReactFragment : Option Node → Bool
  | none => false
  | some node =>
    if isJSXFragment node then true
    else
      match node.arguments.head? with
      | some (.Identifier name) => name = "Fragment"
      | some (.MemberExpression object property) =>
        object.name = some "React" && property.name = some "Fragment"
      | _ => false

/-- What `isReactElement` answers on a node, lines 32-42. -/
def isReactElementNode (node : Node) : Bool :=
  if isJSXElement node then true
  else
    match node.callee with
    | some (.MemberExpression object property) =>
      object.name = some "React" && property.name = some "createElement"
    | _ => false

/-- The error a property read on `null` raises. -/
inductive TypeError where
  | nullRead
  deriving DecidableEq, Repr

/-- The function `isReactElement`, lines 31-43: on `null`, reading `callee` raises an error. -/
def isReactElement : Option Node → Except TypeError Bool
  | none => .error .nullRead
  | some node => .ok (isReactElementNode node)

/-- The function `isElement`, line 45, as a truth value: `null` is falsy and nothing more
is called. -/
def isElement : Option Node → Bool
  | none => false
  | some node => isReactElementNode node && !isReactFragment (some node)

/-! ## The return-flow analyzer and the component locator (lines 47-113) -/

/-- The function `isReturned`, lines 47-60. -/
def isReturned : Cursor → Bool
  | .root _ => false
  | .child _ parentPath =>
    if isCallExpression parentPath.node || isConditionalExpression parentPath.node ||
        isSequenceExpression parentPath.node || isLogicalExpression parentPath.node then
      isReturned parentPath
    else isReturnStatement parentPath.node || isArrowFunctionExpression parentPath.node

/-- The function kinds of lines 86-90. -/
def isFunctionLike (node : Node) : Bool :=
  isArrowFunctionExpression node || isFunctionExpression node || isClassMethod node ||
    isObjectMethod node || isFunctionDeclaration node

/-- The declaration kinds of the `switch`, lines 98-102. -/
def isRootKind : Node → Bool
  | .VariableDeclaration _ => true
  | .ClassDeclaration _ _ => true
  | .ExportDefaultDeclaration _ => true
  | .ExportNamedDeclaration _ => true
  | .FunctionDeclaration _ _ _ => true
  | _ => false

/-- The result of `getNode`. -/
structure Located where
  rootPath : Cursor
  componentNode : Node

/-- The variable `componentNode` after lines 85-95 of one turn of the loop. -/
def nextComponentNode (isComponent : Bool) (componentNode : Option Node) (node : Node) :
    Option Node :=
  if componentNode.isNone && (isComponent || isFunctionLike node) then some node
  else componentNode

/-- The `do ... while` loop of `getNode`, lines 80-112, from `currentPath` upwards with
the current values of `isComponent` and `componentNode`. -/
def getNodeLoop (isComponent : Bool) (componentNode : Option Node) : Cursor → Option Located
  | .root node =>
    if isRootKind node then
      match nextComponentNode isComponent componentNode node with
      | some c => some ⟨.root node, c⟩
      | none => none
    else none
  | .child node parentPath =>
    if isElement (some parentPath.node) then none
    else if isRootKind node then
      match nextComponentNode isComponent componentNode node with
      | some c => some ⟨.child node parentPath, c⟩
      | none =>
        getNodeLoop (isComponent || isFunctionLike node)
          (nextComponentNode isComponent componentNode node) parentPath
    else
      getNodeLoop (isComponent || isFunctionLike node)
        (nextComponentNode isComponent componentNode node) parentPath

/-- The function `getNode`, lines 64-113; `none` is `null`. -/
def getNode : Cursor → Option Located
  | .root node => if isReturned (.root node) then getNodeLoop false none (.root node) else none
  | .child node parentPath =>
    if isReactFragment (some parentPath.node) then getNode parentPath
    else if isReturned (.child node parentPath) then
      getNodeLoop false none (.child node parentPath)
    else none

/-! ## The name resolver (`src/utils.js`, lines 115-133) -/

/-- The value of `node.id`, where the node has one; `none` stands for `null` and for a
missing property alike. -/
def Node.id : Node → Option Node
  | .FunctionExpression id _ _ => id
  | .FunctionDeclaration id _ _ => id
  | .ClassDeclaration id _ => id
  | .VariableDeclarator id _ => some id
  | _ => none

/-- The test `node.type === 'ExportDefaultDeclaration'`. -/
def isExportDefaultDeclaration : Node → Bool
  | .ExportDefaultDeclaration _ => true
  | _ => false

/-- The test `node.type === 'VariableDeclaration'`. -/
def isVariableDeclaration : Node → Bool
  | .VariableDeclaration _ => true
  | _ => false

/-- The value of `node.declarations`, where the node has them. -/
def Node.declarations : Node → Option (List Node)
  | .VariableDeclaration ds => some ds
  | _ => none

/-- The test `rootPath.parent.type === 'ExportDefaultDeclaration'`; above the root cursor
stands the file node, which is no declaration. -/
def parentIsExportDefault (rootPath : Cursor) : Bool :=
  match rootPath.parent with
  | some parent => isExportDefaultDeclaration parent
  | none => false

/-- The names pushed by lines 120-124: `default`, then the name of `node.id` when it is
there and not empty. -/
def defaultNames (node : Node) : List (Option String) :=
  match node.id with
  | some id =>
    match id.name with
    | some name => if name ≠ "" then [some "default", some name] else [some "default"]
    | none => [some "default"]
  | none => [some "default"]

/-- The value of `[node.id.name]`, lines 129 and 132: reading `name` on a missing `id`
raises an error; an `id` without a name gives `undefined`, written `none`. -/
def idName (node : Option Node) : Except TypeError (List (Option String)) :=
  match node with
  | none => .error .nullRead
  | some n =>
    match n.id with
    | none => .error .nullRead
    | some id => .ok [id.name]

/-- The function `getName`, lines 115-133; in the list `none` stands for `undefined`. -/
def getName (located : Located) : Except TypeError (List (Option String)) :=
  let rootPath := located.rootPath
  if isExportDefaultDeclaration rootPath.node || parentIsExportDefault rootPath then
    .ok (defaultNames rootPath.node)
  else if isVariableDeclaration rootPath.node then
    match rootPath.node.declarations with
    | some declarations => idName declarations.head?
    | none => .error .nullRead
  else idName (some rootPath.node)

/-! ## Predicates used in the statements -/

/-- A text that can follow a number: it does not continue the number. -/
def endsNumber : Str → Bool
  | [] => true
  | c :: _ => !c.isDigit && !(c = '.' || c = 'e' || c = 'E')

mutual
/-- The values a program can hold: every number is a double, every code unit is below
`2 ^ 16`, and the members of every object have distinct names and stand in enumeration
order. -/
def wellFormed : Json → Bool
  | .null => true
  | .bool _ => true
  | .num x => x.isDouble
  | .str s => s.all (fun u => decide (u < 65536))
  | .arr xs => wellFormedElems xs
  | .obj ms => wellFormedMembers ms
/-- The elements of an array are well formed. -/
def wellFormedElems : List Json → Bool
  | [] => true
  | x :: xs => wellFormed x && wellFormedElems xs
/-- The members of an object are well formed: no later member has the name of an earlier
one or is enumerated before it. -/
def wellFormedMembers : List (CodeUnits × Json) → Bool
  | [] => true
  | (k, v) :: ms =>
    k.all (fun u => decide (u < 65536)) &&
      ms.all (fun m => decide (m.1 ≠ k) && !comesBefore m.1 k) &&
      wellFormed v && wellFormedMembers ms
end

mutual
/-- The value `JSON.parse(JSON.stringify(v))`: `v` itself, except that the zero with a
minus sign comes back as zero and a number that is not finite comes back as `null`. -/
def readBack : Json → Json
  | .null => .null
  | .bool b => .bool b
  | .num (.finite negative m e) =>
    if m = 0 then .num (.finite false 0 (-1074)) else .num (.finite negative m e)
  | .num _ => .null
  | .str s => .str s
  | .arr xs => .arr (readBackElems xs)
  | .obj ms => .obj (readBackMembers ms)
/-- The elements of an array, read back. -/
def readBackElems : List Json → List Json
  | [] => []
  | x :: xs => readBack x :: readBackElems xs
/-- The members of an object, read back. -/
def readBackMembers : List (CodeUnits × Json) → List (CodeUnits × Json)
  | [] => []
  | (k, v) :: ms => (k, readBack v) :: readBackMembers ms
end

/-- What the three parsers do on serialized text, for one bound on the nesting. -/
def ReadsBack (fuel : Nat) : Prop :=
  (∀ (v : Json) (rest : Str), wellFormed v = true → endsNumber rest = true →
    (stringify v).length < fuel →
    parseValue fuel (stringify v ++ rest) = .ok (readBack v, rest)) ∧
  (∀ (xs acc : List Json) (rest : Str), xs ≠ [] → wellFormedElems xs = true →
    (stringifyElems xs).length + 1 < fuel →
    parseElems fuel acc (stringifyElems xs ++ ']' :: rest) =
      .ok (.arr (acc ++ readBackElems xs), rest)) ∧
  (∀ (ms acc : List (CodeUnits × Json)) (rest : Str), ms ≠ [] →
    wellFormedMembers ms = true →
    (∀ p ∈ acc, ∀ q ∈ ms, q.1 ≠ p.1 ∧ comesBefore q.1 p.1 = false) →
    (stringifyMembers ms).length + 1 < fuel →
    parseMembers fuel acc (stringifyMembers ms ++ '}' :: rest) =
      .ok (.obj (acc ++ readBackMembers ms), rest))

/-- A number that JSON text can express: it is finite and not the zero with a minus
sign. -/
def Number.isPlain : Number → Bool
  | .finite negative m _ => !(negative && decide (m = 0))
  | _ => false

mutual
/-- Every number in the value is one that JSON text can express. -/
def plainNumbers : Json → Bool
  | .null => true
  | .bool _ => true
  | .num x => x.isPlain
  | .str _ => true
  | .arr xs => plainNumbersElems xs
  | .obj ms => plainNumbersMembers ms
/-- Every number in the elements is one that JSON text can express. -/
def plainNumbersElems : List Json → Bool
  | [] => true
  | x :: xs => plainNumbers x && plainNumbersElems xs
/-- Every number in the members is one that JSON text can express. -/
def plainNumbersMembers : List (CodeUnits × Json) → Bool
  | [] => true
  | (_, v) :: ms => plainNumbers v && plainNumbersMembers ms
end

/-- The opening sentinel at the head of the text is followed on its line by a closing
sentinel: no line terminator stands between the two. -/
def SameLinePair (s : Str) : Prop :=
  ∃ b c, s = startMarker ++ b ++ endMarker ++ c ∧ ∀ x ∈ b, isLineTerminator x = false

/-- The text `b` is what stands in `content` between the first opening sentinel that is
followed on its line by a closing sentinel, and the first closing sentinel after it. -/
def Captured (content b : Str) : Prop :=
  ∃ a c, content = a ++ startMarker ++ b ++ endMarker ++ c ∧
    (∀ a1 a2, a = a1 ++ a2 → a2 ≠ [] →
      ¬ SameLinePair (a2 ++ startMarker ++ b ++ endMarker ++ c)) ∧
    (∀ x ∈ b, isLineTerminator x = false) ∧ ¬ endMarker <:+: b

/-- The sixteen characters of a lower-case hexadecimal numeral. -/
def hexChars : Str :=
  ['0', '1', '2', '3', '4', '5', '6', '7', '8', '9', 'a', 'b', 'c', 'd', 'e', 'f']

/-- The number a hexadecimal numeral denotes. -/
def hexDigitsValue (ds : Str) : Nat := ds.foldl (fun a c => a * 16 + (hexVal c).getD 0) 0

/-- The text `getId` hashes: the path of the file from the canonical root, a colon and the
name, with `/` as separator. -/
def hashedText (cwd filename name : Str) : Str :=
  joinSlash (splitSep '/'
    (posixRelative cwd (removePlatform (projectPath cwd)) (toLowerCase filename) ++ ':' :: name))

/-- The first fifteen characters of the first alternative: `platform.deskto`. -/
def partialDesktop : Str := platformDesktop.take 15

/-- The text ends with a match of `platform.deskto`, which a following `p` completes. -/
def endsWithPartial (s : Str) : Bool :=
  decide (15 ≤ s.length) && matchPattern partialDesktop (s.drop (s.length - 15))

/-- What a located result says about the cursors from `start` upwards: `componentNode`
is the node of the first cursor `c` with a function kind, and `rootPath` is the first
cursor from `c` upwards with a declaration kind. -/
def LocatedFrom (start : List Cursor) (r : Located) : Prop :=
  ∃ (below : List Cursor) (c : Cursor),
    start = below ++ c :: c.ancestors ∧
    (∀ x ∈ below, isFunctionLike x.node = false) ∧
    isFunctionLike c.node = true ∧ r.componentNode = c.node ∧
    ∃ mid, c :: c.ancestors = mid ++ r.rootPath :: r.rootPath.ancestors ∧
      isRootKind r.rootPath.node = true ∧ ∀ x ∈ mid, isRootKind x.node = false

/-- The classifier as the specification words it: a fragment literal, or a call whose
sole argument is the identifier `Fragment` or the member expression `React.Fragment`. -/
def isFragmentAsSpecified : Option Node → Bool
  | some (.JSXFragment _) => true
  | some (.CallExpression _ [.Identifier name]) => name = "Fragment"
  | some (.CallExpression _ [.MemberExpression object property]) =>
    object.name = some "React" && property.name = some "Fragment"
  | _ => false

/-- The parents `isReturned` climbs through, lines 51-54. -/
def isPassThrough (node : Node) : Bool :=
  isCallExpression node || isConditionalExpression node || isSequenceExpression node ||
    isLogicalExpression node

/-! ## The selector map builder (`src/utils.js`, lines 148-176) -/

/-- An identifier: a text of lower-case hexadecimal characters, as `getId` returns it.
No such text names a property that a plain object inherits, so reading
`componentMap[id]` finds what was stored under `id` and nothing else. -/
structure Identifier where
  text : Str
  hex : ∀ c ∈ text, c ∈ hexChars

/-- Two identifiers are equal when their texts are. -/
instance : DecidableEq Identifier := fun a b =>
  decidable_of_iff (a.text = b.text) (by cases a; cases b; simp)

/-- A factory of the selector table, `id => value`; `none` is a call without id. -/
abbrev Factory (V : Type) := Option Identifier → V

/-- The argument `selectorsMap`: its keys, `Object.keys(selectorsMap)`, and the factory
`selectorsMap[key]` of each key. -/
structure SelectorsTable (V : Type) where
  keys : List String
  get : String → Factory V

/-- A component, read through `component[name]`; `none` when the property holds no
identifier. -/
abbrev Component := String → Option Identifier

/-- One object `componentMap`: the callback stored under each identifier. -/
abbrev ComponentMap (V : Type) := Identifier → Option (V → V)

/-- The objects the closures made by `createSelectorsMap` share: the table, the name of
the id property, and `componentsMap` with one `componentMap` for each key. -/
structure SelectorsState (V : Type) where
  selectorsMap : SelectorsTable V
  idPropName : String
  componentsMap : String → ComponentMap V

/-- The error of calling `map[key]` or `mappers[key]` for a key that is not in the
table: the value is `undefined`, not a function. -/
inductive CallError where
  | notAFunction
  deriving DecidableEq, Repr

/-- The assignment `componentMap[id] = cb`, line 161. -/
def setComponent {V : Type} (componentMap : ComponentMap V) (id : Identifier) (cb : V → V) :
    ComponentMap V :=
  fun j => if j = id then some cb else componentMap j

/-- The function `map[key]`, lines 160-162, as a change of the shared objects. -/
def mapAt {V : Type} (s : SelectorsState V) (key : String) (component : Component)
    (cb : V → V) : Except CallError (SelectorsState V) :=
  if key ∈ s.selectorsMap.keys then
    match component s.idPropName with
    | some id =>
      .ok { s with
        componentsMap := fun k =>
          if k = key then setComponent (s.componentsMap k) id cb else s.componentsMap k }
    | none => .ok s
  else .error .notAFunction

/-- The function `mappers[key]`, lines 164-170. -/
def mappersAt {V : Type} (s : SelectorsState V) (key : String) (id : Identifier) :
    Except CallError V :=
  if key ∈ s.selectorsMap.keys then
    let selector := s.selectorsMap.get key (some id)
    match s.componentsMap key id with
    | some cb => .ok (cb selector)
    | none => .ok selector
  else .error .notAFunction

/-- The object `defaultSelectors`, line 158: `build(getSelector)` under each key. -/
def defaultSelectors {V : Type} (selectorsMap : SelectorsTable V) (build : Factory V → V)
    (key : String) : Option V :=
  if key ∈ selectorsMap.keys then some (build (selectorsMap.get key)) else none

/-- One call `map[key](component, cb)`. -/
structure RegisterCall (V : Type) where
  key : String
  component : Component
  cb : V → V

/-- The callback `createSelectors`, by the calls of `map` it makes, in their order; it is
given the keys of `map`, the module `./resolve` and `defaultSelectors`. -/
abbrev Initializer (V R : Type) :=
  List String → R → (String → Option V) → List (RegisterCall V)

/-- Calls of `map` made one after the other; the first failing call ends them. -/
def registerAll {V : Type} (s : SelectorsState V) :
    List (RegisterCall V) → Except CallError (SelectorsState V)
  | [] => .ok s
  | c :: cs =>
    match mapAt s c.key c.component c.cb with
    | .ok s1 => registerAll s1 cs
    | .error e => .error e

/-- The shared objects after the `forEach` of lines 154-171: an empty `componentMap` for
each key. -/
def freshState {V : Type} (selectorsMap : SelectorsTable V) (idPropName : String) :
    SelectorsState V :=
  ⟨selectorsMap, idPropName, fun _ _ => none⟩

/-- The function `createSelectorsMap`, lines 148-176; the module `./resolve` is its last
argument, and the result holds the objects behind the returned `mappers`. -/
def createSelectorsMap {V R : Type} (selectorsMap : SelectorsTable V)
    (createSelectors : Option (Initializer V R)) (idPropName : String)
    (build : Factory V → V) (resolveModule : R) : Except CallError (SelectorsState V) :=
  match createSelectors with
  | some initializer =>
    registerAll (freshState selectorsMap idPropName)
      (initializer selectorsMap.keys resolveModule (defaultSelectors selectorsMap build))
  | none => .ok (freshState selectorsMap idPropName)

/-- The last callback registered for an identifier under a key by a list of calls. -/
def lastOverride {V : Type} (idPropName : String) (key : String) (id : Identifier) :
    List (RegisterCall V) → Option (V → V)
  | [] => none
  | c :: cs =>
    match lastOverride idPropName key id cs with
    | some cb => some cb
    | none => if c.key = key ∧ c.component idPropName = some id then some c.cb else none

/-- The calls of `map` that `createSelectorsMap` lets the callback `createSelectors`
make, line 173; none when there is no callback. -/
def initializerCalls {V R : Type} (selectorsMap : SelectorsTable V)
    (createSelectors : Option (Initializer V R)) (build : Factory V → V) (resolveModule : R) :
    List (RegisterCall V) :=
  match createSelectors with
  | some initializer =>
    initializer selectorsMap.keys resolveModule (defaultSelectors selectorsMap build)
  | none => []

/-! ## Example values and trees -/

/-- The value `{"0":-2.5,"a":1,"list":[1.5,1e+21,1e-7,true,null,"x::y__z"],"nested":N}`
with `N` the object `{"k":[],"s":"é😀\n","e":{}}`: an array index as first member name,
numbers with a fraction and with an exponent, a string that holds colons and underscores,
a string with a character outside ASCII and one outside the Basic Multilingual Plane, the
empty array and the empty object. -/
def sampleValue : Json :=
  .obj [(charCodes "0".toList, .num (decimalToNumber true 25 (-1))),
    (charCodes "a".toList, .num (decimalToNumber false 1 0)),
    (charCodes "list".toList, .arr [.num (decimalToNumber false 15 (-1)),
      .num (decimalToNumber false 1 21), .num (decimalToNumber false 1 (-7)), .bool true,
      .null, .str (charCodes "x::y__z".toList)]),
    (charCodes "nested".toList, .obj [(charCodes "k".toList, .arr []),
      (charCodes "s".toList, .str (charCodes "é😀\n".toList)), (charCodes "e".toList, .obj [])])]

/-- The cursor at `<Inner/>` in `() => <Outer><Inner/></Outer>`. -/
def innerJsx : Cursor :=
  .child (.JSXElement [])
    (.child (.JSXElement [.JSXElement []])
      (.root (.ArrowFunctionExpression [] (.JSXElement [.JSXElement []]))))

/-- The call `React.createElement('span')`. -/
def spanCall : Node :=
  .CallExpression (.MemberExpression (.Identifier "React") (.Identifier "createElement"))
    [.other "StringLiteral" []]

/-- The call `React.createElement('div', null, React.createElement('span'))`. -/
def divCall : Node :=
  .CallExpression (.MemberExpression (.Identifier "React") (.Identifier "createElement"))
    [.other "StringLiteral" [], .other "NullLiteral" [], spanCall]

/-- The cursor at the inner call in
`() => React.createElement('div', null, React.createElement('span'))`: the outer element
is returned. -/
def innerCall : Cursor :=
  .child spanCall (.child divCall (.root (.ArrowFunctionExpression [] divCall)))

/-- The arrow function `() => <><><><div/></></></>`. -/
def wrappedArrow : Node :=
  .ArrowFunctionExpression []
    (.JSXFragment [.JSXFragment [.JSXFragment [.JSXElement []]]])

/-- The cursor at the declaration `const A = () => <><><><div/></></></>`. -/
def wrappedDeclaration : Cursor :=
  .child (.VariableDeclaration [.VariableDeclarator (.Identifier "A") (some wrappedArrow)])
    (.root (.other "Program"
      [.VariableDeclaration [.VariableDeclarator (.Identifier "A") (some wrappedArrow)]]))

/-- The arrow function `() => <div/>`. -/
def directArrow : Node := .ArrowFunctionExpression [] (.JSXElement [])

/-- The cursor at the declaration `const A = () => <div/>`. -/
def directDeclaration : Cursor :=
  .child (.VariableDeclaration [.VariableDeclarator (.Identifier "A") (some directArrow)])
    (.root (.other "Program"
      [.VariableDeclaration [.VariableDeclarator (.Identifier "A") (some directArrow)]]))

/-- The body of `function A() { return <div/> }`. -/
def returnBlock : Node := .other "BlockStatement" [.ReturnStatement (some (.JSXElement []))]

/-- The cursor at the declaration `function A() { return <div/> }` of a program. -/
def functionCursor : Cursor :=
  .child (.FunctionDeclaration (some (.Identifier "A")) [] returnBlock)
    (.root (.other "Program" [.FunctionDeclaration (some (.Identifier "A")) [] returnBlock]))

/-- The cursor at `<div/>` in `function A() { return <div/> }`. -/
def returnedDiv : Cursor :=
  .child (.JSXElement [])
    (.child (.ReturnStatement (some (.JSXElement []))) (.child returnBlock functionCursor))

/-- The callee `React.createElement`. -/
def createElementCallee : Node :=
  .MemberExpression (.Identifier "React") (.Identifier "createElement")

/-- The arrow function `() => <div/>`, as the value of the property `A`. -/
def propertyArrow : Node := .ArrowFunctionExpression [] (.JSXElement [])

/-- The declarator of `const { A } = { A: () => <div/> }`. -/
def destructuringDeclarator : Node :=
  .VariableDeclarator (.other "ObjectPattern" [.other "ObjectProperty" [.Identifier "A"]])
    (some (.other "ObjectExpression" [.other "ObjectProperty" [propertyArrow]]))

/-- The cursor at the declaration `const { A } = { A: () => <div/> }` of a program. -/
def destructuringDeclaration : Cursor :=
  .child (.VariableDeclaration [destructuringDeclarator])
    (.root (.other "Program" [.VariableDeclaration [destructuringDeclarator]]))

/-- The cursor at `<div/>` in `const { A } = { A: () => <div/> }`. -/
def destructuredDiv : Cursor :=
  .child (.JSXElement [])
    (.child propertyArrow
      (.child (.other "ObjectProperty" [propertyArrow])
        (.child (.other "ObjectExpression" [.other "ObjectProperty" [propertyArrow]])
          (.child destructuringDeclarator destructuringDeclaration))))

/-- The cursor at a function declaration built without `id`, as
`t.functionDeclaration(null, [], t.blockStatement([]))` builds it, under a program. -/
def anonymousFunction : Cursor :=
  .child (.FunctionDeclaration none [] (.other "BlockStatement" []))
    (.root (.other "Program" [.FunctionDeclaration none [] (.other "BlockStatement" [])]))

/-- The two declarators of `const A = 1, B = () => <div/>`. -/
def twoDeclarators : List Node :=
  [.VariableDeclarator (.Identifier "A") (some (.other "NumericLiteral" [])),
    .VariableDeclarator (.Identifier "B") (some directArrow)]

/-- The cursor at the declaration `const A = 1, B = () => <div/>` of a program. -/
def twoDeclaration : Cursor :=
  .child (.VariableDeclaration twoDeclarators)
    (.root (.other "Program" [.VariableDeclaration twoDeclarators]))

/-- The cursor at `<div/>` in `const A = 1, B = () => <div/>`. -/
def secondDeclaratorDiv : Cursor :=
  .child (.JSXElement [])
    (.child directArrow
      (.child (.VariableDeclarator (.Identifier "B") (some directArrow)) twoDeclaration))

/-- The arrow function `(a) => { return a }`. -/
def blockArrow : Node :=
  .ArrowFunctionExpression [.Identifier "a"]
    (.other "BlockStatement" [.ReturnStatement (some (.Identifier "b"))])

/-- The cursor at the parameter `a` of `(a) => { return b }`. -/
def parameterCursor : Cursor := .child (.Identifier "a") (.root blockArrow)

/-- The cursor at the block that is the body of `(a) => { return b }`. -/
def blockBodyCursor : Cursor :=
  .child (.other "BlockStatement" [.ReturnStatement (some (.Identifier "b"))]) (.root blockArrow)

/-- The identifier `3f`. -/
def id3f : Identifier := ⟨['3', 'f'], by decide⟩

/-- The identifier `a0`. -/
def idA0 : Identifier := ⟨['a', '0'], by decide⟩

/-- A table with the keys `root` and `item`; each factory writes the key and the
identifier it is given. -/
def sampleTable : SelectorsTable String where
  keys := ["root", "item"]
  get := fun key id =>
    match id with
    | some i => key ++ "-" ++ String.mk i.text
    | none => key ++ "-default"

/-- A component whose property `id` holds the identifier `3f`. -/
def component3f : Component := fun name => if name = "id" then some id3f else none

/-- A callback `createSelectors` that registers two overrides for `3f` under `root`. -/
def sampleInitializer : Initializer String Unit := fun _ _ _ =>
  [⟨"root", component3f, fun v => v ++ "!"⟩, ⟨"root", component3f, fun v => v ++ "?"⟩]

/-- The declaration `function Foo() { return <div/> }`. -/
def defaultFunction : Node := .FunctionDeclaration (some (.Identifier "Foo")) [] returnBlock

/-- The cursor at `export default function Foo() { return <div/> }` of a program. -/
def defaultFunctionExport : Cursor :=
  .child (.ExportDefaultDeclaration defaultFunction)
    (.root (.other "Program" [.ExportDefaultDeclaration defaultFunction]))

/-- The cursor at `export default () => <div/>` of a program. -/
def defaultArrowExport : Cursor :=
  .child (.ExportDefaultDeclaration directArrow)
    (.root (.other "Program" [.ExportDefaultDeclaration directArrow]))

/-! # Theorems -/

set_option exponentiation.threshold 5000
set_option maxRecDepth 100000

/-! ## Decimal and hexadecimal digits -/

theorem toDigitsCore_append (b : Nat) : ∀ (f n : Nat) (ds : List Char),
    Nat.toDigitsCore b f n ds = Nat.toDigitsCore b f n [] ++ ds := by
  intro f
  induction f with
  | zero => intro n ds; simp [Nat.toDigitsCore]
  | succ f ih =>
    intro n ds
    simp only [Nat.toDigitsCore]
    split
    · simp
    · rw [ih (n / b) (_ :: ds), ih (n / b) [_]]; simp

theorem toDigitsCore_fuel (b : Nat) (hb : 2 ≤ b) : ∀ (f g n : Nat), n < f → n < g →
    Nat.toDigitsCore b f n [] = Nat.toDigitsCore b g n [] := by
  intro f
  induction f with
  | zero => intro g n h; omega
  | succ f ih =>
    intro g n hf hg
    cases g with
    | zero => omega
    | succ g =>
      simp only [Nat.toDigitsCore]
      split
      · rfl
      · rename_i hne
        have hpos : 0 < n := by
          rcases Nat.eq_zero_or_pos n with h | h
          · subst h; simp at hne
          · exact h
        have hlt : n / b < n := Nat.div_lt_self hpos hb
        rw [toDigitsCore_append b f, toDigitsCore_append b g, ih g (n / b) (by omega) (by omega)]

theorem toDigits_small (b n : Nat) (_hb : 2 ≤ b) (h : n < b) :
    Nat.toDigits b n = [Nat.digitChar n] := by
  have h0 : n / b = 0 := Nat.div_eq_of_lt h
  simp [Nat.toDigits, Nat.toDigitsCore, h0, Nat.mod_eq_of_lt h]

theorem toDigits_step (b n : Nat) (hb : 2 ≤ b) (h : b ≤ n) :
    Nat.toDigits b n = Nat.toDigits b (n / b) ++ [Nat.digitChar (n % b)] := by
  have h0 : n / b ≠ 0 := by
    have : 0 < n / b := Nat.div_pos h (by omega)
    omega
  have hlt : n / b < n := Nat.div_lt_self (by omega) hb
  have e : Nat.toDigitsCore b (n + 1) n [] =
      Nat.toDigitsCore b n (n / b) [Nat.digitChar (n % b)] := by
    simp only [Nat.toDigitsCore]
    rw [if_neg h0]
  unfold Nat.toDigits
  rw [e, toDigitsCore_append b n, toDigitsCore_fuel b hb n (n / b + 1) (n / b) hlt (by omega)]

/-- Every character of a decimal rendering is a decimal digit. -/
theorem toDigits10_isDigit (n : Nat) : ∀ c ∈ Nat.toDigits 10 n, c.isDigit = true := by
  induction n using Nat.strong_induction_on with
  | _ n ih =>
    rcases Nat.lt_or_ge n 10 with h | h
    · rw [toDigits_small 10 n (by omega) h]
      intro c hc
      simp only [List.mem_singleton] at hc
      subst hc
      interval_cases n <;> decide
    · rw [toDigits_step 10 n (by omega) h]
      intro c hc
      rcases List.mem_append.1 hc with hc | hc
      · exact ih (n / 10) (Nat.div_lt_self (by omega) (by omega)) c hc
      · simp only [List.mem_singleton] at hc
        subst hc
        have : n % 10 < 10 := Nat.mod_lt _ (by omega)
        generalize n % 10 = m at this
        interval_cases m <;> decide

theorem toDigits_ne_nil (b n : Nat) (hb : 2 ≤ b) : Nat.toDigits b n ≠ [] := by
  rcases Nat.lt_or_ge n b with h | h
  · rw [toDigits_small b n hb h]; simp
  · rw [toDigits_step b n hb h]; simp

theorem digitsValue_append (ds : Str) (c : Char) :
    digitsValue (ds ++ [c]) = digitsValue ds * 10 + (c.toNat - 48) := by
  simp [digitsValue, List.foldl_append]

/-- Reading a decimal rendering gives the number back. -/
theorem digitsValue_toDigits (n : Nat) : digitsValue (Nat.toDigits 10 n) = n := by
  induction n using Nat.strong_induction_on with
  | _ n ih =>
    rcases Nat.lt_or_ge n 10 with h | h
    · rw [toDigits_small 10 n (by omega) h]
      interval_cases n <;> decide
    · rw [toDigits_step 10 n (by omega) h, digitsValue_append,
        ih (n / 10) (Nat.div_lt_self (by omega) (by omega))]
      have hm : n % 10 < 10 := Nat.mod_lt _ (by omega)
      have e : (Nat.digitChar (n % 10)).toNat - 48 = n % 10 := by
        generalize n % 10 = m at hm
        interval_cases m <;> decide
      rw [e]
      omega

/-- A decimal rendering starts with `0` only when it is the single digit `0`. -/
theorem toDigits10_head (n : Nat) (ds : Str) (h : Nat.toDigits 10 n = '0' :: ds) : ds = [] := by
  induction n using Nat.strong_induction_on generalizing ds with
  | _ n ih =>
    rcases Nat.lt_or_ge n 10 with hn | hn
    · rw [toDigits_small 10 n (by omega) hn] at h
      simp only [List.cons.injEq] at h
      exact h.2.symm
    · rw [toDigits_step 10 n (by omega) hn] at h
      have hne := toDigits_ne_nil 10 (n / 10) (by omega)
      cases hq : Nat.toDigits 10 (n / 10) with
      | nil => exact absurd hq hne
      | cons d r =>
        rw [hq] at h
        simp only [List.cons_append, List.cons.injEq] at h
        have hd : d = '0' := h.1
        subst hd
        have hr := ih (n / 10) (Nat.div_lt_self (by omega) (by omega)) r hq
        subst hr
        have hsmall : n / 10 < 10 := by
          by_contra hc
          rw [toDigits_step 10 (n / 10) (by omega) (by omega)] at hq
          have := toDigits_ne_nil 10 (n / 10 / 10) (by omega)
          cases hq2 : Nat.toDigits 10 (n / 10 / 10) with
          | nil => exact this hq2
          | cons d2 r2 => rw [hq2] at hq; simp at hq
        rw [toDigits_small 10 (n / 10) (by omega) hsmall] at hq
        have hz : n / 10 = 0 := by
          have hlt := hsmall
          generalize n / 10 = m at hq hlt
          interval_cases m <;> first | rfl | (exfalso; revert hq; decide)
        have : 0 < n / 10 := Nat.div_pos hn (by omega)
        omega

/-! ## Numbers: the nearest double and the shortest decimal -/

theorem floorLog2_spec : ∀ (fuel p q acc : Nat), 0 < q → q ≤ p → p < q * 2 ^ fuel →
    ∃ l, floorLog2 fuel p q acc = acc + l ∧ q * 2 ^ l ≤ p ∧ p < q * 2 ^ (l + 1) := by
  intro fuel
  induction fuel with
  | zero =>
    intro p q acc _ hqp hf
    simp only [pow_zero, Nat.mul_one] at hf
    omega
  | succ f ih =>
    intro p q acc hq hqp hf
    by_cases h : 2 * q ≤ p
    · have hf' : p < 2 * q * 2 ^ f := by
        have e : q * 2 ^ (f + 1) = 2 * q * 2 ^ f := by rw [pow_succ]; ring
        omega
      obtain ⟨l, h1, h2, h3⟩ := ih p (2 * q) (acc + 1) (by omega) h hf'
      refine ⟨l + 1, ?_, ?_, ?_⟩
      · simp only [floorLog2, h, if_true, h1]
        omega
      · have e : q * 2 ^ (l + 1) = 2 * q * 2 ^ l := by rw [pow_succ]; ring
        omega
      · have e : q * 2 ^ (l + 1 + 1) = 2 * q * 2 ^ (l + 1) := by rw [pow_succ]; ring
        omega
    · refine ⟨0, ?_, ?_, ?_⟩
      · simp only [floorLog2, h, if_false, Nat.add_zero]
      · simpa using hqp
      · simp only [Nat.zero_add, pow_one]
        omega

/-- A ratio that is a double is its own nearest double. -/
theorem roundRatio_exact (p q m s : Nat) (hq : 0 < q) (hm : 0 < m) (hm53 : m < 2 ^ 53)
    (hc : 2 ^ 52 ≤ m ∨ s = 0) (hv : p * 2 ^ 1074 = q * (m * 2 ^ s)) :
    roundRatio p q = (m, s) := by
  have hV : 0 < m * 2 ^ s := Nat.mul_pos hm (Nat.pow_pos (by omega))
  have hqp : q ≤ p * 2 ^ 1074 := by
    rw [hv]
    exact Nat.le_mul_of_pos_right q hV
  have hfuel : p * 2 ^ 1074 < q * 2 ^ (p * 2 ^ 1074) := by
    have h1 : p * 2 ^ 1074 < 2 ^ (p * 2 ^ 1074) := Nat.lt_two_pow _
    have h2 : 2 ^ (p * 2 ^ 1074) ≤ q * 2 ^ (p * 2 ^ 1074) := Nat.le_mul_of_pos_left _ hq
    omega
  obtain ⟨l, h1, h2, h3⟩ := floorLog2_spec (p * 2 ^ 1074) (p * 2 ^ 1074) q 0 hq hqp hfuel
  rw [Nat.zero_add] at h1
  rw [hv] at h2 h3
  have h2' : 2 ^ l ≤ m * 2 ^ s := Nat.le_of_mul_le_mul_left h2 hq
  have h3' : m * 2 ^ s < 2 ^ (l + 1) := Nat.lt_of_mul_lt_mul_left h3
  have hshift : l - 52 = s := by
    have hup : m * 2 ^ s < 2 ^ (53 + s) := by
      rw [pow_add]
      exact Nat.mul_lt_mul_of_pos_right hm53 (Nat.pow_pos (by omega))
    have hl1 : l < 53 + s := by
      by_contra hcon
      have : 2 ^ (53 + s) ≤ 2 ^ l := Nat.pow_le_pow_right (by omega) (by omega)
      omega
    rcases hc with hc | hc
    · have hlow : 2 ^ (52 + s) ≤ m * 2 ^ s := by
        rw [pow_add]
        exact Nat.mul_le_mul_right _ hc
      have hl2 : 52 + s < l + 1 := by
        by_contra hcon
        have : 2 ^ (l + 1) ≤ 2 ^ (52 + s) := Nat.pow_le_pow_right (by omega) (by omega)
        omega
      omega
    · omega
  have hd : p * 2 ^ 1074 / (q * 2 ^ s) = m := by
    rw [hv]
    have e : q * (m * 2 ^ s) = m * (q * 2 ^ s) := by ring
    rw [e]
    exact Nat.mul_div_cancel _ (Nat.mul_pos hq (Nat.pow_pos (by omega)))
  have hr : p * 2 ^ 1074 % (q * 2 ^ s) = 0 := by
    rw [hv]
    have e : q * (m * 2 ^ s) = m * (q * 2 ^ s) := by ring
    rw [e]
    exact Nat.mul_mod_left _ _
  have hpos : 0 < q * 2 ^ s := Nat.mul_pos hq (Nat.pow_pos (by omega))
  have hne : m ≠ 2 ^ 53 := by omega
  simp only [roundRatio, h1, hshift, hd, hr, Nat.mul_zero]
  have hn1 : ¬ (q * 2 ^ s < 0 ∨ 0 = q * 2 ^ s ∧ m % 2 = 1) := by
    rintro (h | ⟨h, _⟩) <;> omega
  rw [if_neg hn1, if_neg hne]

/-- The sign plays no part in the rounding. -/
theorem decimalToNumber_sign (negative : Bool) (s : Nat) (t : Int) (m : Nat) (e : Int)
    (h : decimalToNumber false s t = .finite false m e) :
    decimalToNumber negative s t = .finite negative m e := by
  unfold decimalToNumber at h ⊢
  split at h
  · rename_i h0
    rw [if_pos h0]
    unfold ratioToNumber at h ⊢
    split at h
    · exact Number.noConfusion h
    · rename_i h1
      rw [if_neg h1]
      simp only [Number.finite.injEq, true_and] at h
      rw [h.1, h.2]
  · rename_i h0
    rw [if_neg h0]
    unfold ratioToNumber at h ⊢
    split at h
    · exact Number.noConfusion h
    · rename_i h1
      rw [if_neg h1]
      simp only [Number.finite.injEq, true_and] at h
      rw [h.1, h.2]

/-- The decimal expansion of a double reads back as that double. -/
theorem decimalToNumber_exact (m : Nat) (e : Int) (hm : 0 < m)
    (hd : (Number.finite false m e).isDouble = true) :
    decimalToNumber false (exactDecimal m e).1 (exactDecimal m e).2 = .finite false m e := by
  simp only [Number.isDouble, Bool.and_eq_true, Bool.or_eq_true, decide_eq_true_eq] at hd
  obtain ⟨⟨⟨h53, hlo⟩, hhi⟩, hc⟩ := hd
  by_cases he : 0 ≤ e
  · obtain ⟨a, rfl⟩ := Int.eq_ofNat_of_zero_le he
    have hc' : 2 ^ 52 ≤ m := by
      rcases hc with hc | hc
      · exact hc
      · omega
    have hr := roundRatio_exact (m * 2 ^ a * 10 ^ 0) 1 m (a + 1074) (by omega) hm h53
      (Or.inl hc') (by rw [pow_add]; ring)
    simp only [exactDecimal, he, if_true, Int.toNat_ofNat, decimalToNumber, le_refl,
      Int.toNat_zero, ratioToNumber, hr]
    have : ¬ 2045 < a + 1074 := by omega
    rw [if_neg this]
    simp only [Number.finite.injEq, true_and]
    push_cast
    omega
  · have hneg : e < 0 := by omega
    obtain ⟨a, ha⟩ : ∃ a : Nat, e = -(a : Int) := ⟨(-e).toNat, by omega⟩
    subst ha
    have ha1 : a ≤ 1074 := by omega
    have ha0 : 0 < a := by omega
    have hc' : 2 ^ 52 ≤ m ∨ 1074 - a = 0 := by
      rcases hc with hc | hc
      · exact Or.inl hc
      · right; omega
    have hr := roundRatio_exact (m * 5 ^ a) (10 ^ a) m (1074 - a) (Nat.pow_pos (by omega)) hm
      h53 hc' (by
        have e1 : (10 : Nat) ^ a = 2 ^ a * 5 ^ a := by rw [← Nat.mul_pow]
        have e2 : (2 : Nat) ^ 1074 = 2 ^ a * 2 ^ (1074 - a) := by
          rw [← pow_add]; congr 1; omega
        rw [e1, e2]; ring)
    have hn : ¬ (0 : Int) ≤ -(a : Int) := by omega
    simp only [exactDecimal, hn, if_false, neg_neg, Int.toNat_ofNat, decimalToNumber,
      ratioToNumber, hr]
    have : ¬ 2045 < 1074 - a := by omega
    rw [if_neg this]
    simp only [Number.finite.injEq, true_and]
    omega

/-- Every result of the search for the shortest digits reads back as the double. -/
theorem shortestDigits_valid (x : Number) (N : Nat) (t : Int)
    (h : decimalToNumber false N t = x) : ∀ j : Nat,
    decimalToNumber false (shortestDigits x N t j).1 (shortestDigits x N t j).2 = x := by
  intro j
  induction j with
  | zero => exact h
  | succ j ih =>
    simp only [shortestDigits]
    split
    · rename_i h1
      simp only [Bool.and_eq_true, decide_eq_true_eq] at h1
      exact h1.1
    · split
      · rename_i h2
        simpa using h2
      · exact ih

/-! ## Numbers: the text of a decimal reads back -/

theorem takeDigits_stop (ds rest : Str) (hds : ∀ c ∈ ds, c.isDigit = true)
    (hrest : ∀ c ∈ rest.head?, c.isDigit = false) : takeDigits (ds ++ rest) = (ds, rest) := by
  induction ds with
  | nil =>
    cases rest with
    | nil => rfl
    | cons c t =>
      have := hrest c (by simp)
      simp [takeDigits, this]
  | cons d ds ih =>
    have hd : d.isDigit = true := hds d (List.mem_cons_self _ _)
    have := ih (fun c hc => hds c (List.mem_cons_of_mem _ hc))
    simp [takeDigits, hd, this]

theorem endsNumber_head (rest : Str) (h : endsNumber rest = true) :
    ∀ c ∈ rest.head?, c.isDigit = false := by
  intro c hc
  cases rest with
  | nil => simp at hc
  | cons d t =>
    simp only [List.head?_cons, Option.mem_def, Option.some.injEq] at hc
    subst hc
    simp only [endsNumber, Bool.and_eq_true, Bool.not_eq_true'] at h
    exact h.1

theorem digitsValue_foldl (b : Str) : ∀ x : Nat,
    b.foldl (fun a c => a * 10 + (c.toNat - 48)) x = x * 10 ^ b.length + digitsValue b := by
  induction b with
  | nil => intro x; simp [digitsValue]
  | cons c b ih =>
    intro x
    simp only [List.foldl_cons, List.length_cons, digitsValue]
    rw [ih, ih (0 * 10 + (c.toNat - 48))]
    ring

theorem digitsValue_concat (a b : Str) :
    digitsValue (a ++ b) = digitsValue a * 10 ^ b.length + digitsValue b := by
  simp only [digitsValue, List.foldl_append]
  exact digitsValue_foldl b _

theorem digitsValue_zeros (z : Nat) : digitsValue (List.replicate z '0') = 0 := by
  induction z with
  | zero => rfl
  | succ z ih =>
    rw [List.replicate_succ]
    have e : digitsValue ('0' :: List.replicate z '0') =
        digitsValue ['0'] * 10 ^ (List.replicate z '0').length +
          digitsValue (List.replicate z '0') := digitsValue_concat ['0'] _
    have h0 : digitsValue ['0'] = 0 := rfl
    rw [e, ih, h0]
    simp

theorem isDigit_zeros (z : Nat) : ∀ c ∈ List.replicate z '0', c.isDigit = true := by
  intro c hc
  rw [List.eq_of_mem_replicate hc]
  decide

/-- The digits of a positive number do not start with `0`. -/
theorem toDigits10_head_pos (s : Nat) (hs : 0 < s) (d : Char) (ds : Str)
    (h : Nat.toDigits 10 s = d :: ds) : d ≠ '0' := by
  rintro rfl
  have := toDigits10_head s ds h
  subst this
  have hv := digitsValue_toDigits s
  rw [h] at hv
  have : digitsValue ['0'] = 0 := rfl
  omega

theorem parseFraction_none (tail : Str) (h : ∀ c ∈ tail.head?, c ≠ '.') :
    parseFraction tail = .ok ([], tail) := by
  cases tail with
  | nil => rfl
  | cons c t =>
    have := h c (by simp)
    simp [parseFraction, this]

theorem parseFraction_some (F tail : Str) (hF : ∀ c ∈ F, c.isDigit = true) (hne : F ≠ [])
    (ht : ∀ c ∈ tail.head?, c.isDigit = false) :
    parseFraction ('.' :: (F ++ tail)) = .ok (F, tail) := by
  cases F with
  | nil => exact absurd rfl hne
  | cons d ds =>
    simp only [parseFraction, if_true]
    rw [takeDigits_stop (d :: ds) tail hF ht]

theorem parseExponent_none (tail : Str) (h : ∀ c ∈ tail.head?, c ≠ 'e' ∧ c ≠ 'E') :
    parseExponent tail = .ok (0, tail) := by
  cases tail with
  | nil => rfl
  | cons c t =>
    have := h c (by simp)
    simp [parseExponent, this.1, this.2]

theorem parseExponentDigits_toDigits (x : Nat) (rest : Str)
    (ht : ∀ c ∈ rest.head?, c.isDigit = false) :
    parseExponentDigits (Nat.toDigits 10 x ++ rest) = .ok (x, rest) := by
  unfold parseExponentDigits
  rw [takeDigits_stop _ _ (toDigits10_isDigit x) ht]
  cases hq : Nat.toDigits 10 x with
  | nil => exact absurd hq (toDigits_ne_nil 10 x (by omega))
  | cons d ds =>
    have hv : digitsValue (d :: ds) = x := by rw [← hq]; exact digitsValue_toDigits x
    simp only [hv]

theorem parseExponent_some (e : Int) (rest : Str)
    (ht : ∀ c ∈ rest.head?, c.isDigit = false) :
    parseExponent ('e' :: (if 0 ≤ e then '+' else '-') :: (Nat.toDigits 10 e.natAbs ++ rest)) =
      .ok (e, rest) := by
  by_cases he : 0 ≤ e
  · simp only [he, if_true, parseExponent, true_or]
    have h1 : ¬ ('+' = '-') := by decide
    simp only [h1, if_false, if_true, parseExponentDigits_toDigits _ rest ht]
    congr 2
    omega
  · simp only [he, if_false, parseExponent, true_or, if_true,
      parseExponentDigits_toDigits _ rest ht]
    congr 2
    omega

theorem parseUnsigned_parts (negative : Bool) (d : Char) (ds F : Str) (x : Int)
    (tail1 tail2 rest : Str) (hI : takeDigits (d :: ds ++ tail1) = (d :: ds, tail1))
    (hz : ¬ (d = '0' ∧ ds ≠ [])) (hF : parseFraction tail1 = .ok (F, tail2))
    (hX : parseExponent tail2 = .ok (x, rest)) :
    parseUnsigned negative (d :: ds ++ tail1) =
      .ok (.num (decimalToNumber negative (digitsValue (d :: ds ++ F)) (x - F.length)), rest) := by
  unfold parseUnsigned
  rw [hI]
  simp only [hz, if_false, hF, hX]

theorem endsNumber_point (rest : Str) (h : endsNumber rest = true) :
    ∀ c ∈ rest.head?, c ≠ '.' := by
  intro c hc
  cases rest with
  | nil => simp at hc
  | cons d t =>
    simp only [List.head?_cons, Option.mem_def, Option.some.injEq] at hc
    subst hc
    simp only [endsNumber, Bool.and_eq_true, Bool.not_eq_true', Bool.or_eq_false_iff,
      decide_eq_false_iff_not] at h
    exact h.2.1.1

theorem endsNumber_exp (rest : Str) (h : endsNumber rest = true) :
    ∀ c ∈ rest.head?, c ≠ 'e' ∧ c ≠ 'E' := by
  intro c hc
  cases rest with
  | nil => simp at hc
  | cons d t =>
    simp only [List.head?_cons, Option.mem_def, Option.some.injEq] at hc
    subst hc
    simp only [endsNumber, Bool.and_eq_true, Bool.not_eq_true', Bool.or_eq_false_iff,
      decide_eq_false_iff_not] at h
    exact ⟨h.2.1.2, h.2.2⟩

theorem decimalToNumber_zeros (negative : Bool) (s z : Nat) :
    decimalToNumber negative (s * 10 ^ z) 0 = decimalToNumber negative s (z : Int) := by
  have h0 : (0 : Int) ≤ (z : Int) := Int.ofNat_nonneg z
  simp only [decimalToNumber, le_refl, if_true, Int.toNat_zero, pow_zero, Nat.mul_one, h0,
    Int.toNat_ofNat]

/-- The text of a decimal with positive digits reads back as the Number value of the
decimal. -/
theorem parseUnsigned_formatDecimal (negative : Bool) (s : Nat) (t : Int) (hs : 0 < s)
    (rest : Str) (hrest : endsNumber rest = true) :
    parseUnsigned negative (formatDecimal s t ++ rest) =
      .ok (.num (decimalToNumber negative s t), rest) := by
  have hdig := toDigits10_isDigit s
  have hv := digitsValue_toDigits s
  have hrd := endsNumber_head rest hrest
  have hpoint : ∀ (u : Str) (c : Char), c ∈ ('.' :: u).head? → c.isDigit = false := by
    intro u c hc
    simp only [List.head?_cons, Option.mem_def, Option.some.injEq] at hc
    subst hc
    decide
  have hexp : ∀ (u : Str) (c : Char), c ∈ ('e' :: u).head? → c.isDigit = false := by
    intro u c hc
    simp only [List.head?_cons, Option.mem_def, Option.some.injEq] at hc
    subst hc
    decide
  have hexp2 : ∀ (u : Str) (c : Char), c ∈ ('e' :: u).head? → c ≠ '.' := by
    intro u c hc
    simp only [List.head?_cons, Option.mem_def, Option.some.injEq] at hc
    subst hc
    decide
  unfold formatDecimal
  cases hq : Nat.toDigits 10 s with
  | nil => exact absurd hq (toDigits_ne_nil 10 s (by omega))
  | cons d ds =>
    rw [hq] at hdig hv
    have hd0 : d ≠ '0' := toDigits10_head_pos s hs d ds hq
    have hdd : d.isDigit = true := hdig d (List.mem_cons_self _ _)
    have hds : ∀ c ∈ ds, c.isDigit = true := fun c hc => hdig c (List.mem_cons_of_mem _ hc)
    simp only [List.length_cons]
    by_cases h1 : -6 < t + ((ds.length + 1 : Nat) : Int) ∧
        t + ((ds.length + 1 : Nat) : Int) ≤ 21
    · rw [if_pos h1]
      by_cases h2 : ((ds.length + 1 : Nat) : Int) ≤ t + ((ds.length + 1 : Nat) : Int)
      · rw [if_pos h2]
        have ht : 0 ≤ t := by omega
        obtain ⟨z, rfl⟩ := Int.eq_ofNat_of_zero_le ht
        have ez : ((z : Int) + ((ds.length + 1 : Nat) : Int) - ((ds.length + 1 : Nat) : Int)).toNat
            = z := by omega
        rw [ez]
        have hI : takeDigits (d :: (ds ++ List.replicate z '0') ++ rest) =
            (d :: (ds ++ List.replicate z '0'), rest) := by
          apply takeDigits_stop _ _ _ hrd
          intro c hc
          rcases List.mem_cons.1 hc with hc | hc
          · rw [hc]; exact hdd
          · rcases List.mem_append.1 hc with hc | hc
            · exact hds c hc
            · exact isDigit_zeros z c hc
        have key := parseUnsigned_parts negative d (ds ++ List.replicate z '0') [] 0 rest rest
          rest hI (fun h => hd0 h.1) (parseFraction_none rest (endsNumber_point rest hrest))
          (parseExponent_none rest (endsNumber_exp rest hrest))
        have e1 : d :: ds ++ List.replicate z '0' ++ rest =
            d :: (ds ++ List.replicate z '0') ++ rest := by simp
        rw [e1, key]
        have e2 : digitsValue (d :: (ds ++ List.replicate z '0') ++ []) = s * 10 ^ z := by
          have : d :: (ds ++ List.replicate z '0') ++ [] = (d :: ds) ++ List.replicate z '0' := by
            simp
          rw [this, digitsValue_concat, digitsValue_zeros, hv]
          simp
        rw [e2]
        simp only [List.length_nil, Nat.cast_zero, sub_zero]
        rw [decimalToNumber_zeros]
      · rw [if_neg h2]
        by_cases h3 : 0 < t + ((ds.length + 1 : Nat) : Int)
        · rw [if_pos h3]
          obtain ⟨a, ha⟩ : ∃ a : Nat,
              t + ((ds.length + 1 : Nat) : Int) = ((a + 1 : Nat) : Int) :=
            ⟨(t + ((ds.length + 1 : Nat) : Int)).toNat - 1, by omega⟩
          rw [ha]
          have hal : a < ds.length := by omega
          simp only [Int.toNat_ofNat, List.take_succ_cons, List.drop_succ_cons]
          have hFne : ds.drop a ≠ [] := by
            intro h
            have := congrArg List.length h
            simp at this
            omega
          have hI : takeDigits (d :: ds.take a ++ '.' :: (ds.drop a ++ rest)) =
              (d :: ds.take a, '.' :: (ds.drop a ++ rest)) := by
            apply takeDigits_stop _ _ _ (hpoint _)
            intro c hc
            rcases List.mem_cons.1 hc with hc | hc
            · rw [hc]; exact hdd
            · exact hds c (List.mem_of_mem_take hc)
          have key := parseUnsigned_parts negative d (ds.take a) (ds.drop a) 0
            ('.' :: (ds.drop a ++ rest)) rest rest hI (fun h => hd0 h.1)
            (parseFraction_some _ rest (fun c hc => hds c (List.mem_of_mem_drop hc)) hFne hrd)
            (parseExponent_none rest (endsNumber_exp rest hrest))
          have e1 : d :: List.take a ds ++ '.' :: List.drop a ds ++ rest =
              d :: ds.take a ++ '.' :: (ds.drop a ++ rest) := by simp
          rw [e1, key]
          have e2 : d :: List.take a ds ++ List.drop a ds = d :: ds := by
            simp [List.take_append_drop]
          rw [e2, hv]
          have e3 : (0 : Int) - ((List.drop a ds).length : Nat) = t := by
            simp only [List.length_drop]
            omega
          rw [e3]
        · rw [if_neg h3]
          obtain ⟨z, hzn⟩ : ∃ z : Nat, t + ((ds.length + 1 : Nat) : Int) = -(z : Int) :=
            ⟨(-(t + ((ds.length + 1 : Nat) : Int))).toNat, by omega⟩
          rw [hzn]
          simp only [neg_neg, Int.toNat_ofNat]
          have hI : takeDigits ('0' :: [] ++ '.' :: (List.replicate z '0' ++ d :: ds ++ rest)) =
              ('0' :: [], '.' :: (List.replicate z '0' ++ d :: ds ++ rest)) := by
            apply takeDigits_stop _ _ _ (hpoint _)
            intro c hc
            simp only [List.mem_singleton] at hc
            rw [hc]; decide
          have hFd : ∀ c ∈ List.replicate z '0' ++ d :: ds, c.isDigit = true := by
            intro c hc
            rcases List.mem_append.1 hc with hc | hc
            · exact isDigit_zeros z c hc
            · exact hdig c hc
          have key := parseUnsigned_parts negative '0' [] (List.replicate z '0' ++ d :: ds) 0
            ('.' :: (List.replicate z '0' ++ d :: ds ++ rest)) rest rest hI (by simp)
            (by
              have := parseFraction_some (List.replicate z '0' ++ d :: ds) rest hFd (by simp) hrd
              simpa using this)
            (parseExponent_none rest (endsNumber_exp rest hrest))
          have e1 : '0' :: '.' :: (List.replicate z '0' ++ d :: ds) ++ rest =
              '0' :: [] ++ '.' :: (List.replicate z '0' ++ d :: ds ++ rest) := by simp
          rw [e1, key]
          have e2 : digitsValue ('0' :: [] ++ (List.replicate z '0' ++ d :: ds)) = s := by
            rw [digitsValue_concat, digitsValue_concat, digitsValue_zeros, hv]
            have h0 : digitsValue ['0'] = 0 := rfl
            rw [h0]
            simp
          rw [e2]
          have e3 : (0 : Int) - ((List.replicate z '0' ++ d :: ds).length : Nat) = t := by
            simp only [List.length_append, List.length_replicate, List.length_cons]
            push_cast at hzn ⊢
            omega
          rw [e3]
    · rw [if_neg h1]
      by_cases h4 : ds.length + 1 = 1
      · rw [if_pos h4]
        have hnil : ds = [] := List.eq_nil_of_length_eq_zero (by omega)
        subst hnil
        have hI2 : ∀ u : Str, takeDigits (d :: [] ++ 'e' :: u) = (d :: [], 'e' :: u) := by
          intro u
          apply takeDigits_stop _ _ _ (hexp _)
          intro c hc
          simp only [List.mem_singleton] at hc
          rw [hc]; exact hdd
        have key := parseUnsigned_parts negative d [] [] (t + ((0 + 1 : Nat) : Int) - 1)
          _ _ rest (hI2 _) (by simp) (parseFraction_none _ (hexp2 _))
          (parseExponent_some (t + ((0 + 1 : Nat) : Int) - 1) rest hrd)
        simp only [List.length_nil] at key ⊢
        have e1 : ∀ (c : Char) (u : Str), [d] ++ 'e' :: c :: u ++ rest =
            d :: [] ++ 'e' :: c :: (u ++ rest) := by intro c u; simp
        rw [e1, key]
        have e2 : digitsValue (d :: [] ++ []) = s := by simpa using hv
        rw [e2]
        have e3 : t + ((0 + 1 : Nat) : Int) - 1 - ((0 : Nat) : Int) = t := by omega
        rw [e3]
      · rw [if_neg h4]
        have hne : ds ≠ [] := by
          intro h
          subst h
          simp at h4
        simp only [List.take_succ_cons, List.take_zero, List.drop_succ_cons, List.drop_zero]
        have hI2 : ∀ u : Str, takeDigits (d :: [] ++ '.' :: u) = (d :: [], '.' :: u) := by
          intro u
          apply takeDigits_stop _ _ _ (hpoint _)
          intro c hc
          simp only [List.mem_singleton] at hc
          rw [hc]; exact hdd
        have key := parseUnsigned_parts negative d [] ds
          (t + ((ds.length + 1 : Nat) : Int) - 1) _ _ rest (hI2 _) (by simp)
          (parseFraction_some ds _ hds hne (hexp _))
          (parseExponent_some (t + ((ds.length + 1 : Nat) : Int) - 1) rest hrd)
        have e1 : ∀ (c : Char) (u : Str), [d] ++ '.' :: (ds ++ 'e' :: c :: u) ++ rest =
            d :: [] ++ '.' :: (ds ++ 'e' :: c :: (u ++ rest)) := by intro c u; simp
        rw [e1, key]
        have e2 : digitsValue (d :: [] ++ ds) = s := by simpa using hv
        rw [e2]
        have e3 : t + ((ds.length + 1 : Nat) : Int) - 1 - ((ds.length : Nat) : Int) = t := by
          push_cast
          omega
        rw [e3]

/-! ## Numbers read back -/

theorem roundRatio_zero (q : Nat) (hq : 0 < q) : roundRatio 0 q = (0, 0) := by
  have h1 : floorLog2 0 0 q 0 = 0 := rfl
  have hn : ¬ (q < 0 ∨ 0 = q ∧ 0 % 2 = 1) := by
    rintro (h | ⟨h, _⟩) <;> omega
  simp only [roundRatio, Nat.zero_mul, h1, Nat.zero_sub, pow_zero, Nat.mul_one, Nat.zero_div,
    Nat.zero_mod, Nat.mul_zero]
  rw [if_neg hn]
  simp

theorem decimalToNumber_zero (negative : Bool) (t : Int) :
    decimalToNumber negative 0 t = .finite negative 0 (-1074) := by
  unfold decimalToNumber
  split
  · simp only [Nat.zero_mul, ratioToNumber, roundRatio_zero 1 (by omega)]
    simp
  · simp only [ratioToNumber, roundRatio_zero _ (Nat.pow_pos (by omega : 0 < 10))]
    simp

/-- The digits found for a positive double are positive and read back as the double. -/
theorem shortestDigits_spec (m : Nat) (e : Int) (hm : 0 < m)
    (hd : (Number.finite false m e).isDouble = true) (j : Nat) :
    0 < (shortestDigits (.finite false m e) (exactDecimal m e).1 (exactDecimal m e).2 j).1 ∧
    decimalToNumber false
      (shortestDigits (.finite false m e) (exactDecimal m e).1 (exactDecimal m e).2 j).1
      (shortestDigits (.finite false m e) (exactDecimal m e).1 (exactDecimal m e).2 j).2 =
      .finite false m e := by
  have h := shortestDigits_valid (.finite false m e) (exactDecimal m e).1 (exactDecimal m e).2
    (decimalToNumber_exact m e hm hd) j
  refine ⟨?_, h⟩
  rcases Nat.eq_zero_or_pos
    (shortestDigits (.finite false m e) (exactDecimal m e).1 (exactDecimal m e).2 j).1 with h0 | h0
  · rw [h0, decimalToNumber_zero] at h
    simp only [Number.finite.injEq, true_and] at h
    omega
  · exact h0

/-- The text of a decimal starts with a digit. -/
theorem formatDecimal_head (s : Nat) (t : Int) :
    ∃ c u, formatDecimal s t = c :: u ∧ c.isDigit = true := by
  have hdig := toDigits10_isDigit s
  unfold formatDecimal
  cases hq : Nat.toDigits 10 s with
  | nil => exact absurd hq (toDigits_ne_nil 10 s (by omega))
  | cons d ds =>
    rw [hq] at hdig
    have hdd : d.isDigit = true := hdig d (List.mem_cons_self _ _)
    simp only [List.length_cons]
    split
    · split
      · exact ⟨d, _, rfl, hdd⟩
      · split
        · rename_i h3
          obtain ⟨a, ha⟩ : ∃ a : Nat,
              t + ((ds.length + 1 : Nat) : Int) = ((a + 1 : Nat) : Int) :=
            ⟨(t + ((ds.length + 1 : Nat) : Int)).toNat - 1, by omega⟩
          rw [ha]
          simp only [Int.toNat_ofNat, List.take_succ_cons]
          exact ⟨d, _, rfl, hdd⟩
        · exact ⟨'0', _, rfl, by decide⟩
    · split
      · exact ⟨d, _, rfl, hdd⟩
      · exact ⟨d, _, rfl, hdd⟩

theorem isDigit_ne_minus (c : Char) (h : c.isDigit = true) : c ≠ '-' := by
  rintro rfl
  revert h
  decide

/-- The number that `JSON.parse` reads from the text of a double. -/
theorem parseNumber_numberToString (negative : Bool) (m : Nat) (e : Int)
    (hd : (Number.finite negative m e).isDouble = true) (rest : Str)
    (hrest : endsNumber rest = true) :
    parseNumber (numberToString (.finite negative m e) ++ rest) =
      .ok (readBack (.num (.finite negative m e)), rest) := by
  have hd' : (Number.finite false m e).isDouble = true := hd
  by_cases hm : m = 0
  · subst hm
    have hI : takeDigits ('0' :: [] ++ rest) = ('0' :: [], rest) := by
      apply takeDigits_stop _ _ _ (endsNumber_head rest hrest)
      intro c hc
      simp only [List.mem_singleton] at hc
      rw [hc]; decide
    have key := parseUnsigned_parts false '0' [] [] 0 rest rest rest hI (by simp)
      (parseFraction_none rest (endsNumber_point rest hrest))
      (parseExponent_none rest (endsNumber_exp rest hrest))
    have h0 : ¬ ('0' = '-') := by decide
    simp only [numberToString, if_true, List.cons_append, List.nil_append, parseNumber, h0,
      if_false, readBack]
    simp only [List.cons_append, List.nil_append] at key
    rw [key]
    have hz : digitsValue ['0'] = 0 := rfl
    simp only [List.append_nil, hz, List.length_nil, Nat.cast_zero, sub_zero,
      decimalToNumber_zero]
  · have hpos : 0 < m := Nat.pos_of_ne_zero hm
    have hspec := shortestDigits_spec m e hpos hd'
      ((Nat.toDigits 10 (exactDecimal m e).1).length - 1)
    simp only [numberToString, hm, if_false, readBack]
    generalize shortestDigits (.finite false m e) (exactDecimal m e).1 (exactDecimal m e).2
      ((Nat.toDigits 10 (exactDecimal m e).1).length - 1) = st at hspec ⊢
    obtain ⟨hs, hv⟩ := hspec
    have key := parseUnsigned_formatDecimal negative st.1 st.2 hs rest hrest
    rw [decimalToNumber_sign negative _ _ m e hv] at key
    cases negative with
    | true =>
      simp only [if_true, List.cons_append, List.nil_append, parseNumber]
      exact key
    | false =>
      obtain ⟨c, u, hc, hcd⟩ := formatDecimal_head st.1 st.2
      have hne := isDigit_ne_minus c hcd
      rw [hc] at key
      simp only [Bool.false_eq_true, if_false, List.nil_append, hc, List.cons_append,
        parseNumber, hne]
      exact key

/-- The text of a double starts with a minus sign or a digit. -/
theorem numberToString_head (negative : Bool) (m : Nat) (e : Int) :
    ∃ c u, numberToString (.finite negative m e) = c :: u ∧ (c = '-' ∨ c.isDigit = true) := by
  by_cases hm : m = 0
  · exact ⟨'0', [], by simp [numberToString, hm], Or.inr (by decide)⟩
  · simp only [numberToString, hm, if_false]
    cases negative with
    | true => exact ⟨'-', _, rfl, Or.inl rfl⟩
    | false =>
      obtain ⟨c, u, hc, hcd⟩ := formatDecimal_head
        (shortestDigits (.finite false m e) (exactDecimal m e).1 (exactDecimal m e).2
          ((Nat.toDigits 10 (exactDecimal m e).1).length - 1)).1
        (shortestDigits (.finite false m e) (exactDecimal m e).1 (exactDecimal m e).2
          ((Nat.toDigits 10 (exactDecimal m e).1).length - 1)).2
      exact ⟨c, u, by simp [hc], Or.inr hcd⟩

/-! ## Strings read back -/

theorem toNat_ofNat (n : Nat) (h : n < 0xD800 ∨ (0xDFFF < n ∧ n < 0x110000)) :
    (Char.ofNat n).toNat = n := by
  have hv : n.isValidChar := h
  unfold Char.ofNat
  rw [dif_pos hv]
  rfl

theorem hexVal_digitChar (k : Nat) (h : k < 16) : hexVal (Nat.digitChar k) = some k := by
  interval_cases k <;> decide

theorem parseChars_quote (rest : Str) : parseChars ('"' :: rest) = .ok ([], rest) := by
  rw [parseChars.eq_def]; simp

theorem parseChars_plain (c : Char) (t : Str) (h1 : c ≠ '"') (h2 : c ≠ '\\')
    (h : ¬ c.toNat < 32) : parseChars (c :: t) = consUnits (charUnits c) (parseChars t) := by
  rw [parseChars.eq_def]; simp [h1, h2, h]

theorem parseChars_escape (e : Char) (u : Nat) (t : Str) (he : e ≠ 'u')
    (h : unescape e = some u) :
    parseChars ('\\' :: e :: t) = consUnits [u] (parseChars t) := by
  rw [parseChars.eq_def]; simp +decide [he, h]

theorem parseChars_unicode (h1 h2 h3 h4 : Char) (a b c d : Nat) (t : Str)
    (e1 : hexVal h1 = some a) (e2 : hexVal h2 = some b) (e3 : hexVal h3 = some c)
    (e4 : hexVal h4 = some d) :
    parseChars ('\\' :: 'u' :: h1 :: h2 :: h3 :: h4 :: t) =
      consUnits [((a * 16 + b) * 16 + c) * 16 + d] (parseChars t) := by
  rw [parseChars.eq_def]; simp +decide [e1, e2, e3, e4]

theorem parseChars_unicodeEscape (u : Nat) (hu : u < 65536) (t : Str) :
    parseChars (unicodeEscape u ++ t) = consUnits [u] (parseChars t) := by
  have e : ((u / 4096 % 16 * 16 + u / 256 % 16) * 16 + u / 16 % 16) * 16 + u % 16 = u := by
    omega
  have := parseChars_unicode _ _ _ _ _ _ _ _ t
    (hexVal_digitChar (u / 4096 % 16) (Nat.mod_lt _ (by omega)))
    (hexVal_digitChar (u / 256 % 16) (Nat.mod_lt _ (by omega)))
    (hexVal_digitChar (u / 16 % 16) (Nat.mod_lt _ (by omega)))
    (hexVal_digitChar (u % 16) (Nat.mod_lt _ (by omega)))
  rw [e] at this
  exact this

theorem char_ne_of_toNat (c d : Char) (h : c.toNat ≠ d.toNat) : c ≠ d := by
  rintro rfl
  exact h rfl

theorem parseChars_quoteUnit (u : Nat) (hu : u < 65536) (t : Str) :
    parseChars (quoteUnit u ++ t) = consUnits [u] (parseChars t) := by
  unfold quoteUnit
  split
  · rename_i h; subst h; exact parseChars_escape _ _ t (by decide) (by decide)
  split
  · rename_i h; subst h; exact parseChars_escape _ _ t (by decide) (by decide)
  split
  · rename_i h; subst h; exact parseChars_escape _ _ t (by decide) (by decide)
  split
  · rename_i h; subst h; exact parseChars_escape _ _ t (by decide) (by decide)
  split
  · rename_i h; subst h; exact parseChars_escape _ _ t (by decide) (by decide)
  split
  · rename_i h; subst h; exact parseChars_escape _ _ t (by decide) (by decide)
  split
  · rename_i h; subst h; exact parseChars_escape _ _ t (by decide) (by decide)
  split
  · exact parseChars_unicodeEscape u hu t
  · rename_i h1 h2 h3 h4 h5 h6 h7 h
    simp only [isHighSurrogate, isLowSurrogate, Bool.and_eq_true, decide_eq_true_eq,
      not_or, not_and, not_lt, not_le] at h
    have hn : (Char.ofNat u).toNat = u := toNat_ofNat u (by omega)
    have hc := parseChars_plain (Char.ofNat u) t
      (char_ne_of_toNat _ _ (by rw [hn]; exact h1))
      (char_ne_of_toNat _ _ (by rw [hn]; exact h2)) (by rw [hn]; omega)
    have hcu : charUnits (Char.ofNat u) = [u] := by
      simp only [charUnits, hn, hu, if_true]
    rw [hcu] at hc
    exact hc

theorem parseChars_pair (u v : Nat) (hu : isHighSurrogate u = true)
    (hv : isLowSurrogate v = true) (t : Str) :
    parseChars (Char.ofNat (0x10000 + (u - 0xD800) * 0x400 + (v - 0xDC00)) :: t) =
      consUnits [u, v] (parseChars t) := by
  simp only [isHighSurrogate, isLowSurrogate, Bool.and_eq_true, decide_eq_true_eq] at hu hv
  have hn : (Char.ofNat (0x10000 + (u - 0xD800) * 0x400 + (v - 0xDC00))).toNat =
      0x10000 + (u - 0xD800) * 0x400 + (v - 0xDC00) := toNat_ofNat _ (by omega)
  have hc := parseChars_plain (Char.ofNat (0x10000 + (u - 0xD800) * 0x400 + (v - 0xDC00))) t
    (char_ne_of_toNat _ _ (by rw [hn]; simp only [Char.reduceToNat]; omega))
    (char_ne_of_toNat _ _ (by rw [hn]; simp only [Char.reduceToNat]; omega)) (by rw [hn]; omega)
  have hcu : charUnits (Char.ofNat (0x10000 + (u - 0xD800) * 0x400 + (v - 0xDC00))) = [u, v] := by
    have h1 : ¬ (0x10000 + (u - 0xD800) * 0x400 + (v - 0xDC00) < 0x10000) := by omega
    simp only [charUnits, hn, h1, if_false, List.cons.injEq, and_true]
    constructor <;> omega
  rw [hcu] at hc
  exact hc

/-- A quoted string reads back as its code units. -/
theorem parseChars_quoteBody (s : CodeUnits) :
    (∀ u ∈ s, u < 65536) → ∀ rest : Str,
    parseChars (quoteBody s ++ '"' :: rest) = .ok (s, rest) := by
  induction s using quoteBody.induct with
  | case1 => intro _ rest; exact parseChars_quote rest
  | case2 u =>
    intro h rest
    simp only [quoteBody]
    rw [parseChars_quoteUnit u (h u (List.mem_singleton.2 rfl)), parseChars_quote]
    rfl
  | case3 u v s hp ih =>
    intro h rest
    simp only [quoteBody, hp, and_self, if_true, List.cons_append]
    rw [parseChars_pair u v hp.1 hp.2, ih (fun x hx => h x (by simp [hx]))]
    rfl
  | case4 u v s hp ih =>
    intro h rest
    simp only [quoteBody, hp, if_false, List.append_assoc]
    rw [parseChars_quoteUnit u (h u (List.mem_cons_self _ _)),
      ih (fun x hx => h x (List.mem_cons_of_mem _ hx))]
    rfl

/-! ## `JSON.parse` reads back what `JSON.stringify` writes -/

theorem skipWs_cons (c : Char) (t : Str) (h : isWs c = false) : skipWs (c :: t) = c :: t := by
  simp [skipWs, h]

theorem insertMember_new (acc : List (CodeUnits × Json)) (k : CodeUnits) (v : Json)
    (h : ∀ p ∈ acc, comesBefore k p.1 = false) : insertMember acc k v = acc ++ [(k, v)] := by
  induction acc with
  | nil => rfl
  | cons p acc ih =>
    obtain ⟨k1, v1⟩ := p
    have h1 : comesBefore k k1 = false := h (k1, v1) (List.mem_cons_self _ _)
    simp only [insertMember, h1, Bool.false_eq_true, if_false, List.cons_append]
    rw [ih (fun p hp => h p (List.mem_cons_of_mem _ hp))]

theorem setMember_new (acc : List (CodeUnits × Json)) (k : CodeUnits) (v : Json)
    (h : ∀ p ∈ acc, k ≠ p.1 ∧ comesBefore k p.1 = false) :
    setMember acc k v = acc ++ [(k, v)] := by
  have hany : acc.any (fun m => decide (m.1 = k)) = false := by
    rw [List.any_eq_false]
    intro p hp
    simp only [decide_eq_true_eq]
    exact fun e => (h p hp).1 e.symm
  simp only [setMember, hany, Bool.false_eq_true, if_false]
  exact insertMember_new acc k v (fun p hp => (h p hp).2)

theorem isDigit_head (c : Char) (hd : c.isDigit = true) :
    isWs c = false ∧ c ≠ ']' ∧ c ≠ '}' ∧ c ≠ '{' ∧ c ≠ '[' ∧ c ≠ '"' := by
  simp only [Char.isDigit, Bool.and_eq_true, decide_eq_true_eq] at hd
  refine ⟨?_, ?_, ?_, ?_, ?_, ?_⟩
  · simp only [isWs, Bool.or_eq_false_iff, decide_eq_false_iff_not]
    refine ⟨⟨⟨?_, ?_⟩, ?_⟩, ?_⟩ <;> (rintro rfl; revert hd; decide)
  all_goals (rintro rfl; revert hd; decide)

/-- The first character of a serialized value starts a value: it is not white space and
closes neither an array nor an object. -/
theorem stringify_head (v : Json) :
    ∃ c t, stringify v = c :: t ∧ isWs c = false ∧ c ≠ ']' ∧ c ≠ '}' := by
  cases v with
  | null => exact ⟨'n', _, rfl, by decide, by decide, by decide⟩
  | bool b =>
    cases b
    · exact ⟨'f', _, rfl, by decide, by decide, by decide⟩
    · exact ⟨'t', _, rfl, by decide, by decide, by decide⟩
  | num x =>
    cases x with
    | nan => exact ⟨'n', _, rfl, by decide, by decide, by decide⟩
    | infinity negative => exact ⟨'n', _, rfl, by decide, by decide, by decide⟩
    | finite negative m e =>
      obtain ⟨c, u, hc, h⟩ := numberToString_head negative m e
      refine ⟨c, u, by simp only [stringify, hc], ?_⟩
      rcases h with h | h
      · subst h
        exact ⟨by decide, by decide, by decide⟩
      · have := isDigit_head c h
        exact ⟨this.1, this.2.1, this.2.2.1⟩
  | str s => exact ⟨'"', _, rfl, by decide, by decide, by decide⟩
  | arr xs =>
    exact ⟨'[', stringifyElems xs ++ [']'], by rw [stringify], by decide, by decide, by decide⟩
  | obj ms =>
    exact ⟨'{', stringifyMembers ms ++ ['}'], by rw [stringify], by decide, by decide,
      by decide⟩

theorem stringify_length_pos (v : Json) : 0 < (stringify v).length := by
  obtain ⟨c, t, h, _⟩ := stringify_head v
  rw [h]; simp

theorem parseValue_number (fuel : Nat) (c : Char) (t : Str) (h : c = '-' ∨ c.isDigit = true) :
    parseValue (fuel + 1) (c :: t) = parseNumber (c :: t) := by
  have hall : isWs c = false ∧ c ≠ '{' ∧ c ≠ '[' ∧ c ≠ '"' := by
    rcases h with h | h
    · subst h; exact ⟨by decide, by decide, by decide, by decide⟩
    · have := isDigit_head c h
      exact ⟨this.1, this.2.2.2.1, this.2.2.2.2.1, this.2.2.2.2.2⟩
  simp only [parseValue, skipWs_cons c t hall.1, hall.2.1, hall.2.2.1, hall.2.2.2, if_false, h,
    if_true]

theorem parseValue_string (fuel : Nat) (s : CodeUnits) (hs : ∀ u ∈ s, u < 65536) (rest : Str) :
    parseValue (fuel + 1) (quote s ++ rest) = .ok (.str s, rest) := by
  have hws : isWs '"' = false := by decide
  simp only [quote, List.cons_append, List.append_assoc, List.singleton_append, parseValue,
    skipWs_cons _ _ hws, parseChars_quoteBody s hs]
  simp +decide

theorem parseValue_null (fuel : Nat) (rest : Str) :
    parseValue (fuel + 1) ('n' :: 'u' :: 'l' :: 'l' :: rest) = .ok (.null, rest) := by
  simp +decide [parseValue, skipWs]

theorem stringifyElems_head (x : Json) (xs : List Json) :
    ∃ c t, stringifyElems (x :: xs) = c :: t ∧ isWs c = false ∧ c ≠ ']' := by
  obtain ⟨c, t, h, hws, h1, _⟩ := stringify_head x
  cases xs with
  | nil => exact ⟨c, t, by rw [stringifyElems, h], hws, h1⟩
  | cons y ys =>
    exact ⟨c, t ++ ',' :: stringifyElems (y :: ys), by rw [stringifyElems, h]; rfl, hws, h1⟩

theorem stringifyMembers_head (m : CodeUnits × Json) (ms : List (CodeUnits × Json)) :
    ∃ t, stringifyMembers (m :: ms) = '"' :: t := by
  obtain ⟨k, v⟩ := m
  cases ms with
  | nil => exact ⟨_, by rw [stringifyMembers]; rfl⟩
  | cons y ys => exact ⟨_, by rw [stringifyMembers]; rfl⟩

theorem readsBack_value (fuel : Nat) (ih : ReadsBack fuel) (v : Json) (rest : Str)
    (hk : wellFormed v = true) (hrest : endsNumber rest = true)
    (hlen : (stringify v).length < fuel + 1) :
    parseValue (fuel + 1) (stringify v ++ rest) = .ok (readBack v, rest) := by
  cases v with
  | null => simp +decide [stringify, parseValue, skipWs, readBack]
  | bool b => cases b <;> simp +decide [stringify, parseValue, skipWs, readBack]
  | num x =>
    cases x with
    | nan => exact parseValue_null fuel rest
    | infinity negative => exact parseValue_null fuel rest
    | finite negative m e =>
      have hp := parseNumber_numberToString negative m e hk rest hrest
      obtain ⟨c, t, h, hc⟩ := numberToString_head negative m e
      simp only [stringify]
      rw [h, List.cons_append, parseValue_number fuel c _ hc, ← List.cons_append, ← h]
      exact hp
  | str s =>
    have hs : ∀ u ∈ s, u < 65536 := by
      simpa [wellFormed] using hk
    exact parseValue_string fuel s hs rest
  | arr xs =>
    cases xs with
    | nil => simp +decide [stringify, stringifyElems, parseValue, skipWs, readBack, readBackElems]
    | cons x xs =>
      obtain ⟨c, t, h, hws, h1⟩ := stringifyElems_head x xs
      have hws0 : isWs '[' = false := by decide
      have key := ih.2.1 (x :: xs) [] rest (by simp) (by simpa [wellFormed] using hk)
        (by simp [stringify] at hlen; omega)
      simp only [stringify, List.cons_append, List.append_assoc, List.singleton_append,
        parseValue, skipWs_cons _ _ hws0, readBack]
      rw [h] at key ⊢
      simp only [List.cons_append] at key ⊢
      rw [skipWs_cons _ _ hws]
      simp +decide only [h1, if_false]
      simpa using key
  | obj ms =>
    cases ms with
    | nil =>
      simp +decide [stringify, stringifyMembers, parseValue, skipWs, readBack, readBackMembers]
    | cons m ms =>
      obtain ⟨t, h⟩ := stringifyMembers_head m ms
      have hws0 : isWs '{' = false := by decide
      have hws : isWs '"' = false := by decide
      have key := ih.2.2 (m :: ms) [] rest (by simp) (by simpa [wellFormed] using hk)
        (fun p hp => absurd hp (List.not_mem_nil p)) (by simp [stringify] at hlen; omega)
      simp only [stringify, List.cons_append, List.append_assoc, List.singleton_append,
        parseValue, skipWs_cons _ _ hws0, readBack]
      rw [h] at key ⊢
      simp only [List.cons_append] at key ⊢
      rw [skipWs_cons _ _ hws]
      simp +decide only [if_false]
      simpa using key

theorem readsBack_elems (fuel : Nat) (ih : ReadsBack fuel) (xs acc : List Json) (rest : Str)
    (hne : xs ≠ []) (hk : wellFormedElems xs = true)
    (hlen : (stringifyElems xs).length + 1 < fuel + 1) :
    parseElems (fuel + 1) acc (stringifyElems xs ++ ']' :: rest) =
      .ok (.arr (acc ++ readBackElems xs), rest) := by
  have hws1 : isWs ']' = false := by decide
  have hws2 : isWs ',' = false := by decide
  match xs, hne with
  | [x], _ =>
    simp only [wellFormedElems, Bool.and_eq_true] at hk
    simp only [stringifyElems] at hlen ⊢
    have hv := ih.1 x (']' :: rest) hk.1 (by simp +decide [endsNumber]) (by omega)
    simp only [parseElems, hv, skipWs_cons _ _ hws1, readBackElems]
    simp +decide
  | x :: y :: ys, _ =>
    simp only [wellFormedElems, Bool.and_eq_true] at hk
    simp only [stringifyElems, List.length_append, List.length_cons] at hlen
    have hv := ih.1 x (',' :: (stringifyElems (y :: ys) ++ ']' :: rest)) hk.1
      (by simp +decide [endsNumber]) (by omega)
    have hr := ih.2.1 (y :: ys) (acc ++ [readBack x]) rest (by simp)
      (by simp only [wellFormedElems, Bool.and_eq_true]; exact hk.2) (by omega)
    simp only [stringifyElems, List.append_assoc, List.cons_append]
    simp only [parseElems, hv, skipWs_cons _ _ hws2, if_true, hr, readBackElems]
    simp

theorem readsBack_members (fuel : Nat) (ih : ReadsBack fuel)
    (ms acc : List (CodeUnits × Json)) (rest : Str) (hne : ms ≠ [])
    (hk : wellFormedMembers ms = true)
    (hacc : ∀ p ∈ acc, ∀ q ∈ ms, q.1 ≠ p.1 ∧ comesBefore q.1 p.1 = false)
    (hlen : (stringifyMembers ms).length + 1 < fuel + 1) :
    parseMembers (fuel + 1) acc (stringifyMembers ms ++ '}' :: rest) =
      .ok (.obj (acc ++ readBackMembers ms), rest) := by
  have hws0 : isWs '"' = false := by decide
  have hws1 : isWs '}' = false := by decide
  have hws2 : isWs ',' = false := by decide
  have hws3 : isWs ':' = false := by decide
  match ms, hne with
  | [(k, v)], _ =>
    simp only [wellFormedMembers, Bool.and_eq_true, List.all_eq_true, decide_eq_true_eq] at hk
    simp only [stringifyMembers, quote, List.length_append, List.length_cons] at hlen
    have hv := ih.1 v ('}' :: rest) hk.1.2 (by simp +decide [endsNumber]) (by omega)
    have hs := setMember_new acc k (readBack v)
      (fun p hp => hacc p hp (k, v) (List.mem_cons_self _ _))
    simp only [stringifyMembers, quote, List.append_assoc, List.cons_append,
      List.nil_append]
    simp only [parseMembers, skipWs_cons _ _ hws0, if_true, parseChars_quoteBody k hk.1.1.1,
      skipWs_cons _ _ hws3, hv, skipWs_cons _ _ hws1, hs, readBackMembers]
    simp +decide
  | (k, v) :: m :: ms, _ =>
    simp only [wellFormedMembers, Bool.and_eq_true, List.all_eq_true, decide_eq_true_eq] at hk
    simp only [stringifyMembers, quote, List.length_append, List.length_cons] at hlen
    have hv := ih.1 v (',' :: (stringifyMembers (m :: ms) ++ '}' :: rest)) hk.1.2
      (by simp +decide [endsNumber]) (by omega)
    have hs := setMember_new acc k (readBack v)
      (fun p hp => hacc p hp (k, v) (List.mem_cons_self _ _))
    have hnew : ∀ p ∈ acc ++ [(k, readBack v)], ∀ q ∈ m :: ms,
        q.1 ≠ p.1 ∧ comesBefore q.1 p.1 = false := by
      intro p hp q hq
      rcases List.mem_append.1 hp with hp | hp
      · exact hacc p hp q (List.mem_cons_of_mem _ hq)
      · simp only [List.mem_singleton] at hp
        subst hp
        have h1 := hk.1.1.2 q hq
        simp only [Bool.and_eq_true, decide_eq_true_eq, Bool.not_eq_true'] at h1
        exact h1
    have hr := ih.2.2 (m :: ms) (acc ++ [(k, readBack v)]) rest (by simp)
      (by
        have := hk.2
        simpa only [wellFormedMembers, Bool.and_eq_true, List.all_eq_true,
          decide_eq_true_eq] using this)
      hnew (by omega)
    simp only [stringifyMembers, quote, List.append_assoc, List.cons_append,
      List.nil_append]
    simp only [parseMembers, skipWs_cons _ _ hws0, if_true, parseChars_quoteBody k hk.1.1.1,
      skipWs_cons _ _ hws3, hv, skipWs_cons _ _ hws2, hs, hr, readBackMembers]
    simp

theorem readsBack (fuel : Nat) : ReadsBack fuel := by
  induction fuel with
  | zero =>
    refine ⟨?_, ?_, ?_⟩
    · intro v rest _ _ h; omega
    · intro xs acc rest _ _ h; omega
    · intro ms acc rest _ _ _ h; omega
  | succ fuel ih =>
    exact ⟨fun v rest hk hr hl => readsBack_value fuel ih v rest hk hr hl,
      fun xs acc rest hne hk hl => readsBack_elems fuel ih xs acc rest hne hk hl,
      fun ms acc rest hne hk ha hl => readsBack_members fuel ih ms acc rest hne hk ha hl⟩

/-- The value `JSON.parse(JSON.stringify(v))` is `readBack v`, for a well-formed value. -/
theorem jsonParse_stringify (v : Json) (hk : wellFormed v = true) :
    jsonParse (stringify v) = .ok (readBack v) := by
  have h := (readsBack (2 * (stringify v).length + 2)).1 v [] hk (by decide) (by omega)
  rw [List.append_nil] at h
  simp [jsonParse, h, skipWs]

/-! ## The pattern `/__reselector__start__::(.*?)::__reselector__end__/` -/

/-- A marker none of whose proper suffixes starts it again cannot begin inside a text
that does not contain it and run on into a following copy of itself. -/
theorem no_overlap (M w rest : Str)
    (hb : ∀ m < M.length, 0 < m → (M.drop m).isPrefixOf M = false)
    (hw : w ≠ []) (hin : ¬ M <:+: w) : ¬ M <+: w ++ (M ++ rest) := by
  rintro ⟨t, ht⟩
  by_cases hl : M.length ≤ w.length
  · apply hin
    have h1 : M <+: w ++ (M ++ rest) := ⟨t, ht⟩
    have h2 : w <+: w ++ (M ++ rest) := List.prefix_append _ _
    exact (List.prefix_of_prefix_length_le h1 h2 hl).isInfix
  · have hm : w.length < M.length := by omega
    have hpos : 0 < w.length := List.length_pos.2 hw
    have h1 := congrArg (List.drop w.length) ht
    rw [List.drop_left, List.drop_append_of_le_length (by omega)] at h1
    have h2 : M.drop w.length <+: M ++ rest := ⟨t, h1⟩
    have h3 : M <+: M ++ rest := List.prefix_append _ _
    have h4 : M.drop w.length <+: M :=
      List.prefix_of_prefix_length_le h2 h3 (by simp)
    have h5 := hb w.length hm hpos
    rw [← List.isPrefixOf_iff_prefix] at h4
    rw [h4] at h5
    exact Bool.noConfusion h5

theorem endMarker_border :
    ∀ m < endMarker.length, 0 < m → (endMarker.drop m).isPrefixOf endMarker = false := by
  decide

theorem startMarker_border :
    ∀ m < startMarker.length, 0 < m → (startMarker.drop m).isPrefixOf startMarker = false := by
  decide

theorem lazyCapture_here (s : Str) (h : endMarker.isPrefixOf s = true) :
    lazyCapture s = some [] := by
  cases s with
  | nil => exact absurd h (by decide)
  | cons c s => simp [lazyCapture, h]

theorem lazyCapture_split (b rest : Str) (hlt : ∀ x ∈ b, isLineTerminator x = false)
    (hin : ¬ endMarker <:+: b) : lazyCapture (b ++ (endMarker ++ rest)) = some b := by
  induction b with
  | nil =>
    apply lazyCapture_here
    rw [List.nil_append, List.isPrefixOf_iff_prefix]
    exact List.prefix_append _ _
  | cons x b ih =>
    have hno : endMarker.isPrefixOf (x :: b ++ (endMarker ++ rest)) = false := by
      have := no_overlap endMarker (x :: b) rest endMarker_border (by simp) hin
      exact Bool.eq_false_iff.2 (fun h => this (List.isPrefixOf_iff_prefix.1 h))
    have hx : isLineTerminator x = false := hlt x (List.mem_cons_self _ _)
    have ih' := ih (fun y hy => hlt y (List.mem_cons_of_mem _ hy))
      (fun h => hin (h.trans (List.suffix_cons x b).isInfix))
    simp only [List.cons_append] at hno ⊢
    simp [lazyCapture, hno, hx, ih']

theorem matchHere_split (b rest : Str) (hlt : ∀ x ∈ b, isLineTerminator x = false)
    (hin : ¬ endMarker <:+: b) :
    matchHere (startMarker ++ (b ++ (endMarker ++ rest))) = some b := by
  have hp : startMarker.isPrefixOf (startMarker ++ (b ++ (endMarker ++ rest))) = true := by
    rw [List.isPrefixOf_iff_prefix]
    exact List.prefix_append _ _
  simp only [matchHere, hp, if_true, List.drop_left]
  exact lazyCapture_split b rest hlt hin

theorem matchComment_here (s r : Str) (h : matchHere s = some r) : matchComment s = some r := by
  cases s with
  | nil =>
    have h0 : matchHere [] = none := rfl
    rw [h0] at h
    exact Option.noConfusion h
  | cons c s => simp [matchComment, h]

theorem lazyCapture_sound (s r : Str) (h : lazyCapture s = some r) :
    ∃ c, s = r ++ (endMarker ++ c) := by
  induction s generalizing r with
  | nil => exact absurd h (by simp [lazyCapture])
  | cons x s ih =>
    simp only [lazyCapture] at h
    split at h
    · rename_i hp
      rw [List.isPrefixOf_iff_prefix] at hp
      obtain ⟨c, hc⟩ := hp
      simp only [Option.some.injEq] at h
      subst h
      exact ⟨c, by simpa using hc.symm⟩
    · split at h
      · exact absurd h (by simp)
      · cases hq : lazyCapture s with
        | none => rw [hq] at h; exact absurd h (by simp)
        | some r1 =>
          rw [hq] at h
          simp only [Option.map_some', Option.some.injEq] at h
          obtain ⟨c, hc⟩ := ih r1 hq
          subst h
          exact ⟨c, by rw [hc]; rfl⟩

theorem matchHere_sound (s r : Str) (h : matchHere s = some r) :
    ∃ c, s = startMarker ++ (r ++ (endMarker ++ c)) := by
  simp only [matchHere] at h
  split at h
  · rename_i hp
    rw [List.isPrefixOf_iff_prefix] at hp
    obtain ⟨t, ht⟩ := hp
    rw [← ht, List.drop_left] at h
    obtain ⟨c, hc⟩ := lazyCapture_sound t r h
    exact ⟨c, by rw [← ht, hc]⟩
  · exact absurd h (by simp)

/-- Whatever the pattern captures stands in the text between an opening and a closing
sentinel. -/
theorem matchComment_sound (s r : Str) (h : matchComment s = some r) :
    ∃ a c, s = a ++ (startMarker ++ (r ++ (endMarker ++ c))) := by
  induction s with
  | nil => exact absurd h (by simp [matchComment])
  | cons x s ih =>
    simp only [matchComment] at h
    cases hq : matchHere (x :: s) with
    | some r1 =>
      rw [hq] at h
      simp only [Option.some.injEq] at h
      subst h
      obtain ⟨c, hc⟩ := matchHere_sound _ _ hq
      exact ⟨[], c, by simpa using hc⟩
    | none =>
      rw [hq] at h
      obtain ⟨a, c, hc⟩ := ih h
      exact ⟨x :: a, c, by rw [hc]; rfl⟩

theorem stringify_ne_nil (v : Json) : stringify v ≠ [] := by
  obtain ⟨c, t, h, _⟩ := stringify_head v
  rw [h]; simp

theorem lazyCapture_noLineTerminator (s r : Str) (h : lazyCapture s = some r) :
    ∀ x ∈ r, isLineTerminator x = false := by
  induction s generalizing r with
  | nil => exact absurd h (by simp [lazyCapture])
  | cons c s ih =>
    simp only [lazyCapture] at h
    split at h
    · simp only [Option.some.injEq] at h
      subst h
      intro x hx
      exact absurd hx (List.not_mem_nil x)
    · split at h
      · exact absurd h (by simp)
      · rename_i hc
        cases hq : lazyCapture s with
        | none => rw [hq] at h; exact absurd h (by simp)
        | some r1 =>
          rw [hq] at h
          simp only [Option.map_some', Option.some.injEq] at h
          subst h
          intro x hx
          rcases List.mem_cons.1 hx with hx | hx
          · rw [hx]; simpa using hc
          · exact ih r1 hq x hx

theorem lazyCapture_shortest (s r : Str) (h : lazyCapture s = some r) :
    ¬ endMarker <:+: r := by
  induction s generalizing r with
  | nil => exact absurd h (by simp [lazyCapture])
  | cons c s ih =>
    simp only [lazyCapture] at h
    split at h
    · simp only [Option.some.injEq] at h
      subst h
      intro hin
      have := List.eq_nil_of_infix_nil hin
      exact absurd this (by decide)
    · rename_i hp
      split at h
      · exact absurd h (by simp)
      · cases hq : lazyCapture s with
        | none => rw [hq] at h; exact absurd h (by simp)
        | some r1 =>
          rw [hq] at h
          simp only [Option.map_some', Option.some.injEq] at h
          subst h
          intro hin
          rcases List.infix_cons_iff.1 hin with hpre | hin1
          · obtain ⟨c1, hc1⟩ := lazyCapture_sound s r1 hq
            apply hp
            rw [List.isPrefixOf_iff_prefix, hc1]
            exact hpre.trans (by
              rw [← List.cons_append]
              exact List.prefix_append _ _)
          · exact ih r1 hq hin1

theorem matchHere_sameLinePair (s r : Str) (h : matchHere s = some r) : SameLinePair s := by
  obtain ⟨c, hc⟩ := matchHere_sound s r h
  refine ⟨r, c, by rw [hc]; simp, ?_⟩
  simp only [matchHere] at h
  split at h
  · exact lazyCapture_noLineTerminator _ r h
  · exact absurd h (by simp)

theorem lazyCapture_isSome (b c : Str) (hlt : ∀ x ∈ b, isLineTerminator x = false) :
    ∃ r, lazyCapture (b ++ (endMarker ++ c)) = some r := by
  induction b with
  | nil =>
    refine ⟨[], lazyCapture_here _ ?_⟩
    rw [List.nil_append, List.isPrefixOf_iff_prefix]
    exact List.prefix_append _ _
  | cons x b ih =>
    obtain ⟨r, hr⟩ := ih (fun y hy => hlt y (List.mem_cons_of_mem _ hy))
    have hx : isLineTerminator x = false := hlt x (List.mem_cons_self _ _)
    by_cases hp : endMarker.isPrefixOf (x :: (b ++ (endMarker ++ c))) = true
    · exact ⟨[], by simp [lazyCapture, hp]⟩
    · exact ⟨x :: r, by simp [lazyCapture, hp, hx, hr]⟩

theorem sameLinePair_matchHere (s : Str) (h : SameLinePair s) : ∃ r, matchHere s = some r := by
  obtain ⟨b, c, hs, hlt⟩ := h
  have hp : startMarker.isPrefixOf s = true := by
    rw [List.isPrefixOf_iff_prefix, hs]
    exact ⟨b ++ endMarker ++ c, by simp⟩
  obtain ⟨r, hr⟩ := lazyCapture_isSome b c hlt
  refine ⟨r, ?_⟩
  simp only [matchHere, hp, if_true]
  rw [hs]
  have e : startMarker ++ b ++ endMarker ++ c = startMarker ++ (b ++ (endMarker ++ c)) := by
    simp
  rw [e, List.drop_left]
  exact hr

theorem matchComment_first (a S r : Str)
    (ha : ∀ a1 a2, a = a1 ++ a2 → a2 ≠ [] → matchHere (a2 ++ S) = none)
    (hS : matchHere S = some r) : matchComment (a ++ S) = some r := by
  induction a with
  | nil => exact matchComment_here _ _ hS
  | cons x a ih =>
    have h0 := ha [] (x :: a) rfl (by simp)
    have ih' := ih (fun a1 a2 e hne => ha (x :: a1) a2 (by rw [e]; rfl) hne)
    simp only [List.cons_append] at h0 ⊢
    simp only [matchComment, h0, ih']

theorem matchComment_some (s r : Str) (h : matchComment s = some r) :
    ∃ a1 a2, s = a1 ++ a2 ∧ matchHere a2 = some r ∧
      ∀ b1 b2, a1 = b1 ++ b2 → b2 ≠ [] → matchHere (b2 ++ a2) = none := by
  induction s with
  | nil => exact absurd h (by simp [matchComment])
  | cons x s ih =>
    simp only [matchComment] at h
    cases hq : matchHere (x :: s) with
    | some r1 =>
      rw [hq] at h
      simp only [Option.some.injEq] at h
      subst h
      refine ⟨[], x :: s, rfl, hq, ?_⟩
      intro b1 b2 e hne
      have := List.append_eq_nil.1 e.symm
      exact absurd this.2 hne
    | none =>
      rw [hq] at h
      obtain ⟨a1, a2, hs, hm, hbefore⟩ := ih h
      refine ⟨x :: a1, a2, by rw [hs]; rfl, hm, ?_⟩
      intro b1 b2 e hne
      cases b1 with
      | nil =>
        simp only [List.nil_append] at e
        rw [← e, List.cons_append, ← hs]
        exact hq
      | cons y b1 =>
        simp only [List.cons_append, List.cons.injEq] at e
        exact hbefore b1 b2 e.2 hne

/-- The capture of the pattern is the text between the first opening sentinel that is
followed on its line by a closing sentinel, and the first closing sentinel after it. -/
theorem matchComment_iff (content b : Str) :
    matchComment content = some b ↔ Captured content b := by
  constructor
  · intro h
    obtain ⟨a1, a2, hs, hm, hbefore⟩ := matchComment_some content b h
    obtain ⟨c, hc⟩ := matchHere_sound a2 b hm
    have hl : lazyCapture (a2.drop startMarker.length) = some b := by
      simp only [matchHere] at hm
      split at hm
      · exact hm
      · exact absurd hm (by simp)
    refine ⟨a1, c, by rw [hs, hc]; simp, ?_, lazyCapture_noLineTerminator _ b hl,
      lazyCapture_shortest _ b hl⟩
    intro b1 b2 e hne hpair
    obtain ⟨r, hr⟩ := sameLinePair_matchHere _ hpair
    have := hbefore b1 b2 e hne
    rw [hc] at this
    have e2 : b2 ++ startMarker ++ b ++ endMarker ++ c =
        b2 ++ (startMarker ++ (b ++ (endMarker ++ c))) := by simp
    rw [e2, this] at hr
    exact Option.noConfusion hr
  · rintro ⟨a, c, hs, ha, hlt, hend⟩
    have hS := matchHere_split b c hlt hend
    have e : content = a ++ (startMarker ++ (b ++ (endMarker ++ c))) := by rw [hs]; simp
    rw [e]
    apply matchComment_first a _ b _ hS
    intro a1 a2 ea hne
    cases hq : matchHere (a2 ++ (startMarker ++ (b ++ (endMarker ++ c)))) with
    | none => rfl
    | some r =>
      exfalso
      apply ha a1 a2 ea hne
      have := matchHere_sameLinePair _ r hq
      have e2 : a2 ++ startMarker ++ b ++ endMarker ++ c =
          a2 ++ (startMarker ++ (b ++ (endMarker ++ c))) := by simp
      rw [e2]
      exact this

theorem matchComment_none (content : Str)
    (h : ∀ a1 a2, content = a1 ++ a2 → ¬ SameLinePair a2) : matchComment content = none := by
  cases hq : matchComment content with
  | none => rfl
  | some r =>
    obtain ⟨a1, a2, hs, hm, _⟩ := matchComment_some content r hq
    exact absurd (matchHere_sameLinePair a2 r hm) (h a1 a2 hs)

mutual
theorem readBack_plain : ∀ v : Json, wellFormed v = true → plainNumbers v = true →
    readBack v = v
  | .null, _, _ => rfl
  | .bool _, _, _ => rfl
  | .num .nan, _, h => by simp [plainNumbers, Number.isPlain] at h
  | .num (.infinity _), _, h => by simp [plainNumbers, Number.isPlain] at h
  | .num (.finite negative m e), hw, h => by
    simp only [plainNumbers, Number.isPlain, Bool.not_eq_true', Bool.and_eq_false_iff,
      decide_eq_false_iff_not] at h
    simp only [wellFormed, Number.isDouble, Bool.and_eq_true, Bool.or_eq_true,
      decide_eq_true_eq] at hw
    by_cases hm : m = 0
    · subst hm
      have hn : negative = false := by
        rcases h with h | h
        · exact h
        · exact absurd rfl h
      have he : e = -1074 := by
        rcases hw.2 with h2 | h2
        · omega
        · exact h2
      simp [readBack, hn, he]
    · simp [readBack, hm]
  | .str _, _, _ => rfl
  | .arr xs, hw, h => by
    simp only [wellFormed] at hw
    simp only [plainNumbers] at h
    simp only [readBack, readBackElems_plain xs hw h]
  | .obj ms, hw, h => by
    simp only [wellFormed] at hw
    simp only [plainNumbers] at h
    simp only [readBack, readBackMembers_plain ms hw h]
theorem readBackElems_plain : ∀ xs : List Json, wellFormedElems xs = true →
    plainNumbersElems xs = true → readBackElems xs = xs
  | [], _, _ => rfl
  | x :: xs, hw, h => by
    simp only [wellFormedElems, Bool.and_eq_true] at hw
    simp only [plainNumbersElems, Bool.and_eq_true] at h
    simp only [readBackElems, readBack_plain x hw.1 h.1, readBackElems_plain xs hw.2 h.2]
theorem readBackMembers_plain : ∀ ms : List (CodeUnits × Json), wellFormedMembers ms = true →
    plainNumbersMembers ms = true → readBackMembers ms = ms
  | [], _, _ => rfl
  | (k, v) :: ms, hw, h => by
    simp only [wellFormedMembers, Bool.and_eq_true] at hw
    simp only [plainNumbersMembers, Bool.and_eq_true] at h
    simp only [readBackMembers, readBack_plain v hw.1.2 h.1, readBackMembers_plain ms hw.2 h.2]
end

/-- C1 (as amended): for every value of the JSON data model whose serialization contains
neither a line terminator nor the closing sentinel, `getHashmapFromComment (buildComment v)`
returns `v` as `JSON.parse(JSON.stringify(v))` gives it; that is `v` itself when every
number in it is finite and not the zero with a minus sign. -/
theorem getHashmapFromComment_buildComment (v : Json) (hw : wellFormed v = true)
    (hlt : ∀ c ∈ stringify v, isLineTerminator c = false)
    (hend : ¬ endMarker <:+: stringify v) :
    getHashmapFromComment (buildComment v) = .ok (readBack v) ∧
    (plainNumbers v = true → getHashmapFromComment (buildComment v) = .ok v) := by
  have hm := matchComment_here _ _ (matchHere_split (stringify v) [] hlt hend)
  simp only [List.append_nil] at hm
  have hb : buildComment v = startMarker ++ (stringify v ++ endMarker) := by
    simp [buildComment]
  have h1 : getHashmapFromComment (buildComment v) = .ok (readBack v) := by
    simp only [getHashmapFromComment, hb, hm, Option.getD_some, ne_eq, stringify_ne_nil,
      not_false_eq_true, if_true]
    exact jsonParse_stringify v hw
  refine ⟨h1, ?_⟩
  intro hp
  rw [h1, readBack_plain v hw hp]

/-- The round trip on a nested value, and on the empty object. -/
theorem getHashmapFromComment_buildComment_witness :
    (wellFormed sampleValue = true ∧
      (∀ c ∈ stringify sampleValue, isLineTerminator c = false) ∧
      ¬ endMarker <:+: stringify sampleValue ∧
      plainNumbers sampleValue = true ∧
      getHashmapFromComment (buildComment sampleValue) = .ok sampleValue) ∧
    getHashmapFromComment (buildComment (.obj [])) = .ok (.obj []) :=
  ⟨⟨by decide, by decide, by decide, by decide,
      (getHashmapFromComment_buildComment sampleValue (by decide) (by decide) (by decide)).2
        (by decide)⟩,
    (getHashmapFromComment_buildComment (.obj []) (by decide) (by decide) (by decide)).2
      (by decide)⟩

/-- C1 (as stated) fails: a string value that holds the closing sentinel is cut at it
and the rest does not parse; a string that holds U+2028 is not matched at all. -/
theorem getHashmapFromComment_buildComment_counterexample :
    getHashmapFromComment (buildComment (.str (charCodes endMarker))) = .error .syntaxError ∧
    getHashmapFromComment (buildComment (.str [0x2028])) = .ok emptyResult :=
  ⟨rfl, rfl⟩

/-- C2: `buildComment v` is the opening sentinel, the compact serialization of `v` and
the closing sentinel; for `{a:1}` it is the literal text of the protocol, and decoding
that literal gives `{a:1}` back. The serialization is that of `JSON.stringify`: the
sample value, which holds numbers with a fraction and with an exponent, is written as
the built-in writes it. -/
theorem buildComment_format :
    (∀ v : Json, buildComment v =
      "__reselector__start__::".toList ++ stringify v ++ "::__reselector__end__".toList) ∧
    buildComment (.obj [(charCodes "a".toList, .num (decimalToNumber false 1 0))]) =
      "__reselector__start__::\x7b\"a\":1\x7d::__reselector__end__".toList ∧
    getHashmapFromComment "__reselector__start__::\x7b\"a\":1\x7d::__reselector__end__".toList =
      .ok (.obj [(charCodes "a".toList, .num (decimalToNumber false 1 0))]) ∧
    stringify sampleValue = ("\x7b\"0\":-2.5,\"a\":1,\"list\":[1.5,1e+21,1e-7,true,null," ++
      "\"x::y__z\"],\"nested\":\x7b\"k\":[],\"s\":\"é😀\\n\",\"e\":\x7b\x7d\x7d\x7d").toList :=
  ⟨fun _ => rfl, by decide, rfl, by decide⟩

/-- C3 (as amended): let the capture be the text between the first opening sentinel that
is followed on its line by a closing sentinel, and the first closing sentinel after it.
`getHashmapFromComment` returns the empty string when the capture is empty and
`JSON.parse` of the capture otherwise; it returns the empty string when no opening
sentinel is followed on its line by a closing sentinel; so it fails exactly when the
capture is not empty and is not valid JSON, with the error of `JSON.parse`. -/
theorem getHashmapFromComment_malformed :
    (∀ content b : Str, Captured content b →
      getHashmapFromComment content = if b = [] then .ok emptyResult else jsonParse b) ∧
    (∀ content : Str, (∀ a1 a2, content = a1 ++ a2 → ¬ SameLinePair a2) →
      getHashmapFromComment content = .ok emptyResult) ∧
    (∀ (content : Str) (e : JsonError), getHashmapFromComment content = .error e ↔
      ∃ b, Captured content b ∧ b ≠ [] ∧ jsonParse b = .error e) := by
  have h1 : ∀ content b : Str, Captured content b →
      getHashmapFromComment content = if b = [] then .ok emptyResult else jsonParse b := by
    intro content b hc
    have hm := (matchComment_iff content b).2 hc
    simp only [getHashmapFromComment, hm, Option.getD_some, ne_eq, ite_not]
  refine ⟨h1, ?_, ?_⟩
  · intro content h
    simp [getHashmapFromComment, matchComment_none content h]
  · intro content e
    constructor
    · intro he
      cases hq : matchComment content with
      | none => simp [getHashmapFromComment, hq] at he
      | some b =>
        have hc := (matchComment_iff content b).1 hq
        rw [h1 content b hc] at he
        by_cases hb : b = []
        · rw [if_pos hb] at he
          exact Except.noConfusion he
        · rw [if_neg hb] at he
          exact ⟨b, hc, hb, he⟩
    · rintro ⟨b, hc, hb, he⟩
      rw [h1 content b hc, if_neg hb]
      exact he

/-- A malformed payload between sentinels in the middle of a line, after an opening
sentinel that has no closing sentinel on its line. -/
theorem getHashmapFromComment_malformed_witness :
    Captured ("/* ".toList ++ startMarker ++ "1\n".toList ++ startMarker ++ "\x7b\"a\":".toList
      ++ endMarker ++ " */".toList) "\x7b\"a\":".toList ∧
    jsonParse "\x7b\"a\":".toList = .error .syntaxError ∧
    getHashmapFromComment ("/* ".toList ++ startMarker ++ "1\n".toList ++ startMarker ++
      "\x7b\"a\":".toList ++ endMarker ++ " */".toList) = .error .syntaxError :=
  ⟨(matchComment_iff _ "\x7b\"a\":".toList).1 (by decide), rfl,
    (getHashmapFromComment_malformed.1 _ "\x7b\"a\":".toList
      ((matchComment_iff _ "\x7b\"a\":".toList).1 (by decide))).trans rfl⟩

/-- C3 (as stated) fails: with nothing between the two sentinels the enclosed text is
not valid JSON, and with a line terminator between them neither is it, yet the result
is the empty string and not an error; and when a second opening sentinel follows the
line terminator, the result is the value after that one. -/
theorem getHashmapFromComment_malformed_counterexample :
    jsonParse [] = .error .syntaxError ∧
    getHashmapFromComment (startMarker ++ [] ++ endMarker) = .ok emptyResult ∧
    jsonParse ['\x7b', '\n'] = .error .syntaxError ∧
    getHashmapFromComment (startMarker ++ ['\x7b', '\n'] ++ endMarker) = .ok emptyResult ∧
    jsonParse (['\x7b', '\n'] ++ startMarker ++ ['1']) = .error .syntaxError ∧
    getHashmapFromComment (startMarker ++ ['\x7b', '\n'] ++ startMarker ++ ['1'] ++ endMarker) =
      .ok (.num (decimalToNumber false 1 0)) :=
  ⟨rfl, rfl, rfl, rfl, rfl, rfl⟩

/-- C4: a text with no opening sentinel followed by a closing sentinel decodes to the
empty string, without an error. -/
theorem getHashmapFromComment_absent (content : Str)
    (h : ¬ ∃ a b c, content = a ++ startMarker ++ b ++ endMarker ++ c) :
    getHashmapFromComment content = .ok emptyResult := by
  have hm : matchComment content = none := by
    cases hq : matchComment content with
    | none => rfl
    | some r =>
      obtain ⟨a, c, hc⟩ := matchComment_sound content r hq
      exact absurd ⟨a, r, c, by rw [hc]; simp⟩ h
  simp [getHashmapFromComment, hm]

/-- A text that holds the closing sentinel only: no match, the empty string. -/
theorem getHashmapFromComment_absent_witness :
    getHashmapFromComment ("const a = 1 // ".toList ++ endMarker) = .ok emptyResult :=
  getHashmapFromComment_absent _ (by
    rintro ⟨a, b, c, h⟩
    have := congrArg List.length h
    simp [startMarker, endMarker] at this
    omega)

theorem digitChar_mem_hexChars (k : Nat) (h : k < 16) : Nat.digitChar k ∈ hexChars := by
  interval_cases k <;> decide

theorem digitChar_eq_zero (k : Nat) (h : k < 16) (hz : Nat.digitChar k = '0') : k = 0 := by
  interval_cases k <;> first | rfl | (exfalso; revert hz; decide)

/-- A rendering starts with `0` only for the number zero. -/
theorem toDigits_head_zero (b : Nat) (hb : 2 ≤ b) (hb16 : b ≤ 16) (n : Nat) (ds : Str)
    (h : Nat.toDigits b n = '0' :: ds) : n = 0 := by
  induction n using Nat.strong_induction_on generalizing ds with
  | _ n ih =>
    rcases Nat.lt_or_ge n b with hn | hn
    · rw [toDigits_small b n hb hn] at h
      simp only [List.cons.injEq] at h
      exact digitChar_eq_zero n (by omega) h.1
    · rw [toDigits_step b n hb hn] at h
      cases hq : Nat.toDigits b (n / b) with
      | nil => exact absurd hq (toDigits_ne_nil b (n / b) hb)
      | cons d r =>
        rw [hq] at h
        simp only [List.cons_append, List.cons.injEq] at h
        rw [h.1] at hq
        have hz := ih (n / b) (Nat.div_lt_self (by omega) hb) r hq
        have : 0 < n / b := Nat.div_pos hn (by omega)
        omega

theorem toDigits16_mem (n : Nat) : ∀ c ∈ Nat.toDigits 16 n, c ∈ hexChars := by
  induction n using Nat.strong_induction_on with
  | _ n ih =>
    rcases Nat.lt_or_ge n 16 with h | h
    · rw [toDigits_small 16 n (by omega) h]
      intro c hc
      simp only [List.mem_singleton] at hc
      subst hc
      exact digitChar_mem_hexChars n h
    · rw [toDigits_step 16 n (by omega) h]
      intro c hc
      rcases List.mem_append.1 hc with hc | hc
      · exact ih (n / 16) (Nat.div_lt_self (by omega) (by omega)) c hc
      · simp only [List.mem_singleton] at hc
        subst hc
        exact digitChar_mem_hexChars _ (Nat.mod_lt _ (by omega))

theorem hexDigitsValue_append (ds : Str) (c : Char) :
    hexDigitsValue (ds ++ [c]) = hexDigitsValue ds * 16 + (hexVal c).getD 0 := by
  simp [hexDigitsValue, List.foldl_append]

/-- Reading a hexadecimal rendering gives the number back. -/
theorem hexDigitsValue_toDigits (n : Nat) : hexDigitsValue (Nat.toDigits 16 n) = n := by
  induction n using Nat.strong_induction_on with
  | _ n ih =>
    rcases Nat.lt_or_ge n 16 with h | h
    · rw [toDigits_small 16 n (by omega) h]
      simp [hexDigitsValue, hexVal_digitChar n h]
    · rw [toDigits_step 16 n (by omega) h, hexDigitsValue_append,
        ih (n / 16) (Nat.div_lt_self (by omega) (by omega)),
        hexVal_digitChar _ (Nat.mod_lt _ (by omega))]
      simp only [Option.getD_some]
      omega

theorem toDigits16_length (n : Nat) (h : n < 2 ^ 32) : (Nat.toDigits 16 n).length ≤ 8 :=
  Nat.toDigitsCore_length 16 (by omega) (n + 1) n 8 (by simpa using h) (by omega)

theorem hash_lt (str : Str) : hash str < 2 ^ 32 := Nat.mod_lt _ (by decide)

/-- C7: for every working directory, file path and name, `getId` returns a non-empty text
of the characters `0-9a-f`, of at most 8 characters, that starts with `0` only when it is
`0`; it is the base-16 rendering of the hash value, which is below `2^32`. The function
is total. -/
theorem getId_hex (cwd filename name : Str) :
    getId cwd filename name ≠ [] ∧
    (∀ c ∈ getId cwd filename name, c ∈ hexChars) ∧
    (getId cwd filename name).length ≤ 8 ∧
    (∀ ds, getId cwd filename name = '0' :: ds → ds = []) ∧
    hexDigitsValue (getId cwd filename name) < 2 ^ 32 ∧
    toString16 (hexDigitsValue (getId cwd filename name)) = getId cwd filename name ∧
    hexDigitsValue (getId cwd filename name) = hash (hashedText cwd filename name) := by
  simp only [getId, hashedText, toString16, hexDigitsValue_toDigits]
  refine ⟨toDigits_ne_nil 16 _ (by omega), toDigits16_mem _, toDigits16_length _ (hash_lt _),
    ?_, hash_lt _, trivial, trivial⟩
  intro ds h
  have hz := toDigits_head_zero 16 (by omega) (by omega) _ ds h
  rw [hz] at h
  have h0 : Nat.toDigits 16 0 = ['0'] := by decide
  rw [h0] at h
  simp only [List.cons.injEq, true_and] at h
  exact h.symm

theorem matchPattern_length (P s : Str) (h : matchPattern P s = true) : P.length ≤ s.length := by
  induction P generalizing s with
  | nil => simp
  | cons p ps ih =>
    cases s with
    | nil => simp [matchPattern] at h
    | cons c s =>
      simp only [matchPattern, Bool.and_eq_true] at h
      have := ih s h.2
      simp only [List.length_cons]
      omega

theorem matchPattern_append (P s X : Str) (h : P.length ≤ s.length) :
    matchPattern P (s ++ X) = matchPattern P s := by
  induction P generalizing s with
  | nil => simp [matchPattern]
  | cons p ps ih =>
    cases s with
    | nil => simp at h
    | cons c s =>
      simp only [List.length_cons] at h
      have e := ih s (by omega)
      show (matchPatternChar p c && matchPattern ps (s ++ X)) =
        (matchPatternChar p c && matchPattern ps s)
      rw [e]

theorem matchPattern_split (P s X : Str) (h : matchPattern P (s ++ X) = true) :
    matchPattern (P.take s.length) s = true ∧ matchPattern (P.drop s.length) X = true := by
  induction P generalizing s with
  | nil => simp [matchPattern]
  | cons p ps ih =>
    cases s with
    | nil => simpa [matchPattern] using h
    | cons c s =>
      simp only [List.cons_append, matchPattern, Bool.and_eq_true] at h
      have := ih s h.2
      simp only [List.length_cons, List.take_succ_cons, List.drop_succ_cons, matchPattern,
        Bool.and_eq_true]
      exact ⟨⟨h.1, this.1⟩, this.2⟩

theorem desktop_tail (r : Str) (j : Nat) (h0 : 0 < j) (h1 : j < 16)
    (h : matchPattern (platformDesktop.drop j) ('p' :: 'l' :: r) = true) : j = 15 := by
  interval_cases j <;>
    first
    | rfl
    | (exfalso; revert h; simp +decide [platformDesktop, matchPattern, matchPatternChar])

theorem touch_tail (r : Str) (j : Nat) (h0 : 0 < j) (h1 : j < 14) :
    matchPattern (platformTouch.drop j) ('p' :: 'l' :: r) = false := by
  interval_cases j <;> simp +decide [platformTouch, matchPattern, matchPatternChar]

/-- Before the token, a match of the pattern is decided by the text before the token
alone, unless that text ends in `platform.deskto`. -/
theorem matchPattern_before (P s r : Str) (hP : P = platformDesktop ∨ P = platformTouch)
    (hs : s ≠ []) (hno : endsWithPartial s = false) :
    matchPattern P (s ++ 'p' :: 'l' :: r) = matchPattern P s := by
  by_cases hl : P.length ≤ s.length
  · exact matchPattern_append P s _ hl
  · have hshort : matchPattern P s = false := by
      cases hq : matchPattern P s with
      | false => rfl
      | true => exact absurd (matchPattern_length P s hq) hl
    rw [hshort]
    cases hq : matchPattern P (s ++ 'p' :: 'l' :: r) with
    | false => rfl
    | true =>
      exfalso
      obtain ⟨h1, h2⟩ := matchPattern_split P s _ hq
      have hpos : 0 < s.length := List.length_pos.2 hs
      rcases hP with hP | hP
      · subst hP
        have hj := desktop_tail r s.length hpos (by simpa [platformDesktop] using hl) h2
        have : endsWithPartial s = true := by
          simp only [endsWithPartial, hj, le_refl, decide_True, Nat.sub_self, List.drop_zero,
            Bool.true_and]
          rw [hj] at h1
          exact h1
        rw [this] at hno
        exact Bool.noConfusion hno
      · subst hP
        have := touch_tail r s.length hpos (by simpa [platformTouch] using hl)
        rw [this] at h2
        exact Bool.noConfusion h2

theorem endsWithPartial_tail (c : Char) (s : Str) (h : endsWithPartial (c :: s) = false) :
    endsWithPartial s = false := by
  by_cases hl : 15 ≤ s.length
  · have e : (c :: s).drop ((c :: s).length - 15) = s.drop (s.length - 15) := by
      have : (c :: s).length - 15 = (s.length - 15) + 1 := by simp only [List.length_cons]; omega
      rw [this, List.drop_succ_cons]
    simp only [endsWithPartial, e] at h ⊢
    have hl1 : 15 ≤ (c :: s).length := by simp only [List.length_cons]; omega
    simp only [hl1, hl, decide_True, Bool.true_and] at h ⊢
    exact h
  · simp [endsWithPartial, hl]

/-- The scan gives the same text for two continuations that both start with `pl`, when
it gives the same text on the continuations themselves. -/
theorem removePlatformFrom_before (r1 r2 : Str)
    (h0 : removePlatformFrom 0 ('p' :: 'l' :: r1) = removePlatformFrom 0 ('p' :: 'l' :: r2)) :
    ∀ (s : Str) (k : Nat), endsWithPartial s = false → k ≤ s.length →
      removePlatformFrom k (s ++ 'p' :: 'l' :: r1) =
        removePlatformFrom k (s ++ 'p' :: 'l' :: r2) := by
  intro s
  induction s with
  | nil =>
    intro k _ hk
    have : k = 0 := by simpa using hk
    subst this
    exact h0
  | cons c s ih =>
    intro k hno hk
    have hno' := endsWithPartial_tail c s hno
    cases k with
    | succ k =>
      simp only [List.cons_append, removePlatformFrom]
      exact ih k hno' (by simpa using hk)
    | zero =>
      have d1 := matchPattern_before platformDesktop (c :: s) r1 (Or.inl rfl) (by simp) hno
      have d2 := matchPattern_before platformDesktop (c :: s) r2 (Or.inl rfl) (by simp) hno
      have t1 := matchPattern_before platformTouch (c :: s) r1 (Or.inr rfl) (by simp) hno
      have t2 := matchPattern_before platformTouch (c :: s) r2 (Or.inr rfl) (by simp) hno
      simp only [List.cons_append] at d1 d2 t1 t2 ⊢
      simp only [removePlatformFrom, d1, d2, t1, t2]
      cases hd : matchPattern platformDesktop (c :: s) with
      | true =>
        have := matchPattern_length _ _ hd
        simp only [platformDesktop, List.length_cons, List.length_nil] at this
        simp only [if_true]
        exact ih 15 hno' (by omega)
      | false =>
        cases ht : matchPattern platformTouch (c :: s) with
        | true =>
          have := matchPattern_length _ _ ht
          simp only [platformTouch, List.length_cons, List.length_nil] at this
          simp only [Bool.false_eq_true, if_false, if_true]
          exact ih 13 hno' (by omega)
        | false =>
          simp only [Bool.false_eq_true, if_false]
          rw [ih 0 hno' (by omega)]

theorem removePlatformFrom_desktop (b : Str) :
    removePlatformFrom 0 (platformDesktop ++ b) = removePlatformFrom 0 b := by
  simp +decide [platformDesktop, removePlatformFrom, matchPattern, matchPatternChar]

theorem removePlatformFrom_touch (b : Str) :
    removePlatformFrom 0 (platformTouch ++ b) = removePlatformFrom 0 b := by
  simp +decide [platformTouch, platformDesktop, removePlatformFrom, matchPattern,
    matchPatternChar]

/-- The canonical root is the same for the two spellings of the working directory. -/
theorem removePlatform_token (s b : Str) (hno : endsWithPartial s = false) :
    removePlatform (s ++ platformDesktop ++ b) = removePlatform (s ++ platformTouch ++ b) := by
  have h0 : removePlatformFrom 0 (platformDesktop ++ b) =
      removePlatformFrom 0 (platformTouch ++ b) := by
    rw [removePlatformFrom_desktop, removePlatformFrom_touch]
  have := removePlatformFrom_before _ _ h0 s 0 hno (Nat.zero_le _)
  simpa [removePlatform, platformDesktop, platformTouch] using this

theorem isAbsolute_cons (p : Str) (h : isAbsolute p = true) : ∃ t, p = '/' :: t := by
  cases p with
  | nil => simp [isAbsolute] at h
  | cons c t =>
    simp only [isAbsolute, List.head?_cons, Option.some.injEq, decide_eq_true_eq] at h
    exact ⟨t, by rw [h]⟩

theorem toLowerCase_slash (t : Str) : toLowerCase ('/' :: t) = '/' :: toLowerCaseFrom ['/'] t := by
  have h : lowerCharAt [] t '/' = ['/'] := by
    simp +decide [lowerCharAt, lowerChar, lowerCode]
  simp only [toLowerCase, toLowerCaseFrom, h, List.singleton_append]

theorem isAbsolute_toLowerCase (p : Str) (h : isAbsolute p = true) :
    isAbsolute (toLowerCase p) = true := by
  obtain ⟨t, rfl⟩ := isAbsolute_cons p h
  rw [toLowerCase_slash]
  rfl

theorem isAbsolute_removePlatform (p : Str) (h : isAbsolute p = true) :
    isAbsolute (removePlatform p) = true := by
  obtain ⟨t, rfl⟩ := isAbsolute_cons p h
  simp +decide [removePlatform, removePlatformFrom, matchPattern, matchPatternChar,
    platformDesktop, platformTouch, isAbsolute]

/-- Resolving an absolute path does not read the working directory. -/
theorem posixResolve_absolute (c1 c2 p : Str) (h : isAbsolute p = true) :
    posixResolve c1 p = posixResolve c2 p := by
  obtain ⟨t, rfl⟩ := isAbsolute_cons p h
  simp [posixResolve, h]

theorem posixRelative_absolute (c1 c2 x y : Str) (hx : isAbsolute x = true)
    (hy : isAbsolute y = true) : posixRelative c1 x y = posixRelative c2 x y := by
  simp only [posixRelative, posixResolve_absolute c1 c2 x hx, posixResolve_absolute c1 c2 y hy]

theorem toLowerCaseFrom_plain : ∀ (s before : Str), (∀ c ∈ s, c.toNat ≠ 0x3A3) →
    toLowerCaseFrom before s = toLowerCaseFrom [] s := by
  intro s
  induction s with
  | nil => intro _ _; rfl
  | cons c s ih =>
    intro before h
    have hc : c.toNat ≠ 0x3A3 := h c (List.mem_cons_self _ _)
    have hs : ∀ x ∈ s, x.toNat ≠ 0x3A3 := fun x hx => h x (List.mem_cons_of_mem _ hx)
    simp only [toLowerCaseFrom, lowerCharAt, hc, if_false]
    rw [ih (c :: before) hs, ih [c] hs]

/-- A text without a capital sigma is lower-cased character by character. -/
theorem toLowerCase_append (s t : Str) (hs : ∀ c ∈ s, c.toNat ≠ 0x3A3)
    (ht : ∀ c ∈ t, c.toNat ≠ 0x3A3) :
    toLowerCase (s ++ t) = toLowerCase s ++ toLowerCase t := by
  induction s with
  | nil => rfl
  | cons c s ih =>
    have hc : c.toNat ≠ 0x3A3 := hs c (List.mem_cons_self _ _)
    have hs' : ∀ x ∈ s, x.toNat ≠ 0x3A3 := fun x hx => hs x (List.mem_cons_of_mem _ hx)
    have hst : ∀ x ∈ s ++ t, x.toNat ≠ 0x3A3 := by
      intro x hx
      rcases List.mem_append.1 hx with hx | hx
      · exact hs' x hx
      · exact ht x hx
    have e := ih hs'
    simp only [toLowerCase] at e ⊢
    simp only [List.cons_append, toLowerCaseFrom, lowerCharAt, hc, if_false, List.append_assoc]
    show lowerChar c ++ toLowerCaseFrom [c] (s ++ t) = _
    rw [toLowerCaseFrom_plain (s ++ t) [c] hst, toLowerCaseFrom_plain s [c] hs', e]

/-- The lower-case form of a text that holds a capital sigma holds a small sigma. -/
theorem toLowerCaseFrom_sigma : ∀ (s before : Str), (∃ c ∈ s, c.toNat = 0x3A3) →
    Char.ofNat 0x3C2 ∈ toLowerCaseFrom before s ∨
      Char.ofNat 0x3C3 ∈ toLowerCaseFrom before s := by
  intro s
  induction s with
  | nil => rintro _ ⟨c, hc, _⟩; exact absurd hc (List.not_mem_nil c)
  | cons x s ih =>
    rintro before ⟨c, hc, hcs⟩
    simp only [toLowerCaseFrom, List.mem_append]
    rcases List.mem_cons.1 hc with hc | hc
    · subst hc
      simp only [lowerCharAt, hcs, if_true]
      split
      · exact Or.inl (Or.inl (List.mem_singleton.2 rfl))
      · exact Or.inr (Or.inl (List.mem_singleton.2 rfl))
    · rcases ih (x :: before) ⟨c, hc, hcs⟩ with h | h
      · exact Or.inl (Or.inr h)
      · exact Or.inr (Or.inr h)

theorem token_plain (T P : Str) (h : toLowerCase T = P) (h1 : Char.ofNat 0x3C2 ∉ P)
    (h2 : Char.ofNat 0x3C3 ∉ P) : ∀ c ∈ T, c.toNat ≠ 0x3A3 := by
  intro c hc hcs
  rcases toLowerCaseFrom_sigma T [] ⟨c, hc, hcs⟩ with h3 | h3
  · exact h1 (by rw [← h]; exact h3)
  · exact h2 (by rw [← h]; exact h3)

/-- C6 (as amended): the working directory is read in lower case only. For every absolute
file path and every name, and for two working directories whose lower-case forms are
`s ++ "platform.desktop" ++ t` and `s ++ "platform.touch" ++ t` (they differ, up to
letter case, only in which token stands at that place), where `s` is absolute and does
not end in a match of `platform.deskto`, `getId` gives the same identifier: both working
directories reduce to the same canonical root. In particular this holds for the working
directories `a ++ T1 ++ b` and `a ++ T2 ++ b`, where `T1` and `T2` are the two tokens in
any letter case and `a`, `b` hold no capital sigma (the one letter whose lower-case form
depends on its neighbours), when the lower-case form of `a` does not end in a match of
`platform.deskto`. -/
theorem getId_cwd_invariant (filename name : Str) (hf : isAbsolute filename = true) :
    (∀ cwd1 cwd2 s t : Str, toLowerCase cwd1 = s ++ platformDesktop ++ t →
      toLowerCase cwd2 = s ++ platformTouch ++ t → isAbsolute s = true →
      endsWithPartial s = false →
      removePlatform (projectPath cwd1) = removePlatform (projectPath cwd2) ∧
      getId cwd1 filename name = getId cwd2 filename name) ∧
    (∀ a b T1 T2 : Str, toLowerCase T1 = platformDesktop → toLowerCase T2 = platformTouch →
      (∀ c ∈ a ++ b, c.toNat ≠ 0x3A3) → isAbsolute a = true →
      endsWithPartial (toLowerCase a) = false →
      getId (a ++ T1 ++ b) filename name = getId (a ++ T2 ++ b) filename name) := by
  have main : ∀ cwd1 cwd2 s t : Str, toLowerCase cwd1 = s ++ platformDesktop ++ t →
      toLowerCase cwd2 = s ++ platformTouch ++ t → isAbsolute s = true →
      endsWithPartial s = false →
      removePlatform (projectPath cwd1) = removePlatform (projectPath cwd2) ∧
      getId cwd1 filename name = getId cwd2 filename name := by
    intro cwd1 cwd2 s t h1 h2 hs hno
    have hroot : removePlatform (projectPath cwd1) = removePlatform (projectPath cwd2) := by
      simp only [projectPath, h1, h2]
      exact removePlatform_token _ _ hno
    refine ⟨hroot, ?_⟩
    have habs : isAbsolute (removePlatform (projectPath cwd2)) = true := by
      apply isAbsolute_removePlatform
      obtain ⟨u, rfl⟩ := isAbsolute_cons s hs
      simp only [projectPath, h2]
      rfl
    have hfl := isAbsolute_toLowerCase filename hf
    simp only [getId, hroot]
    rw [posixRelative_absolute cwd1 cwd2 _ _ habs hfl]
  refine ⟨main, ?_⟩
  intro a b T1 T2 hT1 hT2 hab ha hno
  have hpa : ∀ c ∈ a, c.toNat ≠ 0x3A3 := fun c hc => hab c (List.mem_append_left _ hc)
  have hpb : ∀ c ∈ b, c.toNat ≠ 0x3A3 := fun c hc => hab c (List.mem_append_right _ hc)
  have hp1 := token_plain T1 _ hT1 (by decide) (by decide)
  have hp2 := token_plain T2 _ hT2 (by decide) (by decide)
  have hj : ∀ T : Str, (∀ c ∈ T, c.toNat ≠ 0x3A3) →
      toLowerCase (a ++ T ++ b) = toLowerCase a ++ toLowerCase T ++ toLowerCase b := by
    intro T hT
    have hat : ∀ c ∈ a ++ T, c.toNat ≠ 0x3A3 := by
      intro c hc
      rcases List.mem_append.1 hc with hc | hc
      · exact hpa c hc
      · exact hT c hc
    rw [toLowerCase_append (a ++ T) b hat hpb, toLowerCase_append a T hpa hT]
  exact (main (a ++ T1 ++ b) (a ++ T2 ++ b) (toLowerCase a) (toLowerCase b)
    (by rw [hj T1 hp1, hT1]) (by rw [hj T2 hp2, hT2]) (isAbsolute_toLowerCase a ha) hno).2

/-- The two builds of one project, run from `/Proj/Platform.Desktop/app` and from
`/Proj/PLATFORM.touch/app`: one canonical root, one identifier. The same holds when the
first directory is written with the Kelvin sign (U+212A), whose lower-case form is `k`. -/
theorem getId_cwd_invariant_witness :
    (isAbsolute "/Proj/src/Button.js".toList = true ∧
      toLowerCase "/Proj/Platform.Desktop/app".toList =
        "/proj/".toList ++ platformDesktop ++ "/app".toList ∧
      toLowerCase "/Proj/PLATFORM.touch/app".toList =
        "/proj/".toList ++ platformTouch ++ "/app".toList ∧
      endsWithPartial "/proj/".toList = false ∧
      removePlatform (projectPath "/Proj/Platform.Desktop/app".toList) = "/proj//app".toList ∧
      getId "/Proj/Platform.Desktop/app".toList "/Proj/src/Button.js".toList "Button".toList =
        getId "/Proj/PLATFORM.touch/app".toList "/Proj/src/Button.js".toList "Button".toList) ∧
    toLowerCase "/Proj/PLATFORM.DES\u212ATOP/app".toList =
      "/proj/".toList ++ platformDesktop ++ "/app".toList ∧
    getId "/Proj/PLATFORM.DES\u212ATOP/app".toList "/Proj/src/Button.js".toList "Button".toList =
      getId "/Proj/PLATFORM.touch/app".toList "/Proj/src/Button.js".toList "Button".toList :=
  ⟨⟨by decide, by decide, by decide, by decide, by decide,
      ((getId_cwd_invariant "/Proj/src/Button.js".toList "Button".toList (by decide)).1
        "/Proj/Platform.Desktop/app".toList "/Proj/PLATFORM.touch/app".toList
        "/proj/".toList "/app".toList (by decide) (by decide) (by decide) (by decide)).2⟩,
    by decide,
    ((getId_cwd_invariant "/Proj/src/Button.js".toList "Button".toList (by decide)).1
      "/Proj/PLATFORM.DES\u212ATOP/app".toList "/Proj/PLATFORM.touch/app".toList
      "/proj/".toList "/app".toList (by decide) (by decide) (by decide) (by decide)).2⟩

/-- C6 (as stated) fails in two ways: a file path that is not absolute is resolved from
the working directory itself, where the token is still present; and a working directory
in which `platform.deskto` stands right before the token loses other characters. -/
theorem getId_cwd_invariant_counterexample :
    getId "/proj/platform.desktop".toList "src/Button.js".toList "Button".toList
      = "e9ac8729".toList ∧
    getId "/proj/platform.touch".toList "src/Button.js".toList "Button".toList
      = "48b95bbe".toList ∧
    getId "/platform.desktoplatform.desktop".toList "/latform.desktop/x.js".toList "X".toList
      = "d6144a88".toList ∧
    getId "/platform.desktoplatform.touch".toList "/latform.desktop/x.js".toList "X".toList
      = "6802701b".toList := by
  decide

theorem getId_eq_toString16 (cwd filename name : Str) :
    getId cwd filename name = toString16 (hash (hashedText cwd filename name)) := rfl

theorem toString16_injective (m n : Nat) (h : toString16 m = toString16 n) : m = n := by
  have := congrArg hexDigitsValue h
  simpa only [toString16, hexDigitsValue_toDigits] using this
/-- C5 (as amended): for a fixed working directory `getId` reads the file path in lower
case only, so two file paths that differ only in letter case give the same identifier for
the same name; and two file paths give the same identifier exactly when the texts made of
their lower-cased paths from the canonical root and the name have the same hash. The
platform tokens are not removed from the file path. -/
theorem getId_file_path (cwd name : Str) :
    (∀ f1 f2 : Str, toLowerCase f1 = toLowerCase f2 → getId cwd f1 name = getId cwd f2 name) ∧
    (∀ f1 f2 : Str, getId cwd f1 name = getId cwd f2 name ↔
      hash (hashedText cwd f1 name) = hash (hashedText cwd f2 name)) := by
  constructor
  · intro f1 f2 h
    simp only [getId, h]
  · intro f1 f2
    rw [getId_eq_toString16, getId_eq_toString16]
    constructor
    · intro h
      exact toString16_injective _ _ h
    · intro h
      rw [h]

/-- Two spellings of one file path, and two spellings of a path with a letter outside
ASCII. -/
theorem getId_file_path_witness :
    (toLowerCase "/proj/Platform.Desktop/src/Button.js".toList =
        toLowerCase "/proj/platform.desktop/SRC/button.js".toList ∧
      getId "/proj".toList "/proj/Platform.Desktop/src/Button.js".toList "Button".toList =
        getId "/proj".toList "/proj/platform.desktop/SRC/button.js".toList "Button".toList) ∧
    toLowerCase "/proj/SRC/É.js".toList = toLowerCase "/proj/src/é.js".toList ∧
    getId "/proj".toList "/proj/SRC/É.js".toList "E".toList =
      getId "/proj".toList "/proj/src/é.js".toList "E".toList :=
  ⟨⟨by decide, (getId_file_path "/proj".toList "Button".toList).1 _ _ (by decide)⟩,
    by decide, (getId_file_path "/proj".toList "E".toList).1 _ _ (by decide)⟩

/-- C5 (as stated) fails: the tokens are removed from the working directory, not from
the file path, so the two paths keep different relative paths and get different
identifiers, under `/proj` and under `/proj/platform.desktop` alike. -/
theorem getId_platform_path_counterexample :
    hashedText "/proj".toList "/proj/platform.desktop/src/Button.js".toList "Button".toList
      = "platform.desktop/src/button.js:Button".toList ∧
    hashedText "/proj".toList "/proj/platform.touch/src/Button.js".toList "Button".toList
      = "platform.touch/src/button.js:Button".toList ∧
    getId "/proj".toList "/proj/platform.desktop/src/Button.js".toList "Button".toList
      = "e9ac8729".toList ∧
    getId "/proj".toList "/proj/platform.touch/src/Button.js".toList "Button".toList
      = "48b95bbe".toList ∧
    getId "/proj/platform.desktop".toList "/proj/platform.desktop/src/Button.js".toList
      "Button".toList = "e9ac8729".toList ∧
    getId "/proj/platform.desktop".toList "/proj/platform.touch/src/Button.js".toList
      "Button".toList = "48b95bbe".toList := by
  decide

/-! ## The component locator -/

theorem isElement_not_fragment (n : Node) (h : isElement (some n) = true) :
    isReactFragment (some n) = false := by
  simp only [isElement, Bool.and_eq_true, Bool.not_eq_true'] at h
  exact h.2

/-- C8: for every cursor whose parent node is classified as an element by `isElement`,
`getNode` returns `null`, whether or not the outer element is itself returned. -/
theorem getNode_boundary (p : Cursor) (h : isElement p.parent = true) : getNode p = none := by
  cases p with
  | root node => simp [Cursor.parent, isElement] at h
  | child node parentPath =>
    simp only [Cursor.parent] at h
    have hf := isElement_not_fragment _ h
    simp only [getNode, hf, Bool.false_eq_true, if_false]
    split
    · simp [getNodeLoop, h]
    · rfl

/-- The inner element of `() => <Outer><Inner/></Outer>`, and the inner call of
`() => React.createElement('div', null, React.createElement('span'))`, where the outer
element is returned: both have an element as parent and are not located. -/
theorem getNode_boundary_witness :
    (isElement innerJsx.parent = true ∧ getNode innerJsx = none) ∧
    (isElement innerCall.parent = true ∧ isReturned innerCall = true ∧
      getNode innerCall = none) :=
  ⟨⟨rfl, getNode_boundary innerJsx rfl⟩, ⟨rfl, rfl, getNode_boundary innerCall rfl⟩⟩

theorem fragment_kind (n : Node) (h : isReactFragment (some n) = true) :
    isFunctionLike n = false ∧ isRootKind n = false := by
  cases n <;>
    first
    | exact ⟨rfl, rfl⟩
    | (exfalso; revert h; simp [isReactFragment, isJSXFragment, Node.arguments])

theorem element_kind (n : Node) (h : isElement (some n) = true) :
    isFunctionLike n = false ∧ isRootKind n = false := by
  cases n <;>
    first
    | exact ⟨rfl, rfl⟩
    | (exfalso; revert h; simp [isElement, isReactElementNode, isJSXElement, Node.callee])

theorem Cursor.node_root (n : Node) : (Cursor.root n).node = n := rfl

theorem Cursor.node_child (n : Node) (pp : Cursor) : (Cursor.child n pp).node = n := rfl

theorem arrow_not_element (params : List Node) (body : Node) :
    isElement (some (.ArrowFunctionExpression params body)) = false := rfl

theorem arrow_not_fragment (params : List Node) (body : Node) :
    isReactFragment (some (.ArrowFunctionExpression params body)) = false := rfl

/-- C9: for every cursor whose parent node is a fragment, `getNode` gives what it gives on
the parent cursor. Consequently an element inside three nested fragments, the outermost
being the expression body of an arrow function that initialises a variable declaration,
resolves to that variable declaration and that arrow function, exactly as an element
that is the body of the arrow function itself does. -/
theorem getNode_fragment :
    (∀ (node : Node) (parentPath : Cursor), isReactFragment (some parentPath.node) = true →
      getNode (.child node parentPath) = getNode parentPath) ∧
    (∀ (e f1 f2 f3 id : Node) (params : List Node) (dw dd : Cursor),
      isElement (some e) = true → isReactFragment (some f1) = true →
      isReactFragment (some f2) = true → isReactFragment (some f3) = true →
      dw.node = .VariableDeclaration
        [.VariableDeclarator id (some (.ArrowFunctionExpression params f1))] →
      dd.node = .VariableDeclaration
        [.VariableDeclarator id (some (.ArrowFunctionExpression params e))] →
      isElement dw.parent = false → isElement dd.parent = false →
      getNode (.child e (.child f3 (.child f2 (.child f1
          (.child (.ArrowFunctionExpression params f1)
            (.child (.VariableDeclarator id (some (.ArrowFunctionExpression params f1)))
              dw)))))) =
        some ⟨dw, .ArrowFunctionExpression params f1⟩ ∧
      getNode (.child e (.child (.ArrowFunctionExpression params e)
          (.child (.VariableDeclarator id (some (.ArrowFunctionExpression params e))) dd))) =
        some ⟨dd, .ArrowFunctionExpression params e⟩) := by
  refine ⟨fun node parentPath h => by simp [getNode, h], ?_⟩
  intro e f1 f2 f3 id params dw dd he h1 h2 h3 hdw hdd hpw hpd
  have k1 := fragment_kind f1 h1
  have ke := element_kind e he
  have a1 : ∀ b, isReactFragment (some (.ArrowFunctionExpression params b)) = false :=
    fun _ => rfl
  have a2 : ∀ b, isElement (some (.ArrowFunctionExpression params b)) = false := fun _ => rfl
  have a3 : ∀ b, isFunctionLike (.ArrowFunctionExpression params b) = true := fun _ => rfl
  have a4 : ∀ b, isElement (some (.VariableDeclarator id b)) = false := fun _ => rfl
  have a5 : ∀ b, isFunctionLike (.VariableDeclarator id b) = false := fun _ => rfl
  have a6 : ∀ b, isElement (some (.VariableDeclaration b)) = false := fun _ => rfl
  have a7 : ∀ b, isFunctionLike (.VariableDeclaration b) = false := fun _ => rfl
  constructor
  · cases dw with
    | root n =>
      simp only [Cursor.node] at hdw
      subst hdw
      simp [getNode, getNodeLoop, isReturned, Cursor.node_root, Cursor.node_child, h1, h2, h3,
        k1.1, k1.2,
        a1, a2, a3, a4, a5, a6, a7, isCallExpression, isConditionalExpression,
        isSequenceExpression, isLogicalExpression, isReturnStatement,
        isArrowFunctionExpression, isRootKind, nextComponentNode]
    | child n pp =>
      simp only [Cursor.node] at hdw
      subst hdw
      simp only [Cursor.parent] at hpw
      simp [getNode, getNodeLoop, isReturned, Cursor.node_root, Cursor.node_child, h1, h2, h3,
        k1.1, k1.2, hpw,
        a1, a2, a3, a4, a5, a6, a7, isCallExpression, isConditionalExpression,
        isSequenceExpression, isLogicalExpression, isReturnStatement,
        isArrowFunctionExpression, isRootKind, nextComponentNode]
  · cases dd with
    | root n =>
      simp only [Cursor.node] at hdd
      subst hdd
      simp [getNode, getNodeLoop, isReturned, Cursor.node_root, Cursor.node_child, ke.1, ke.2,
        a1, a2, a3, a4, a5, a6, a7, isCallExpression, isConditionalExpression,
        isSequenceExpression, isLogicalExpression, isReturnStatement,
        isArrowFunctionExpression, isRootKind, nextComponentNode]
    | child n pp =>
      simp only [Cursor.node] at hdd
      subst hdd
      simp only [Cursor.parent] at hpd
      simp [getNode, getNodeLoop, isReturned, Cursor.node_root, Cursor.node_child, ke.1, ke.2, hpd,
        a1, a2, a3, a4, a5, a6, a7, isCallExpression, isConditionalExpression,
        isSequenceExpression, isLogicalExpression, isReturnStatement,
        isArrowFunctionExpression, isRootKind, nextComponentNode]

/-- The declarations `const A = () => <><><><div/></></></>` and `const A = () => <div/>`:
the element resolves to the declaration and to the arrow function in both. -/
theorem getNode_fragment_witness :
    getNode (.child (.JSXElement []) (.child (.JSXFragment [.JSXElement []])
        (.child (.JSXFragment [.JSXFragment [.JSXElement []]])
          (.child (.JSXFragment [.JSXFragment [.JSXFragment [.JSXElement []]]])
            (.child wrappedArrow
              (.child (.VariableDeclarator (.Identifier "A") (some wrappedArrow))
                wrappedDeclaration)))))) =
      some ⟨wrappedDeclaration, wrappedArrow⟩ ∧
    getNode (.child (.JSXElement []) (.child directArrow
        (.child (.VariableDeclarator (.Identifier "A") (some directArrow))
          directDeclaration))) =
      some ⟨directDeclaration, directArrow⟩ :=
  getNode_fragment.2 (.JSXElement []) (.JSXFragment [.JSXFragment [.JSXFragment [.JSXElement []]]])
    (.JSXFragment [.JSXFragment [.JSXElement []]]) (.JSXFragment [.JSXElement []])
    (.Identifier "A") [] wrappedDeclaration directDeclaration rfl rfl rfl rfl rfl rfl rfl rfl

/-- Once `componentNode` is set the loop keeps it and stops at the first declaration
kind it meets. -/
theorem getNodeLoop_set (c : Node) : ∀ (cur : Cursor) (ic : Bool) (r : Located),
    getNodeLoop ic (some c) cur = some r →
    r.componentNode = c ∧
    ∃ mid, cur :: cur.ancestors = mid ++ r.rootPath :: r.rootPath.ancestors ∧
      isRootKind r.rootPath.node = true ∧ ∀ x ∈ mid, isRootKind x.node = false := by
  intro cur
  induction cur with
  | root node =>
    intro ic r h
    simp only [getNodeLoop, nextComponentNode, Option.isNone_some, Bool.false_and,
      Bool.false_eq_true, if_false] at h
    split at h
    · rename_i hk
      simp only [Option.some.injEq] at h
      subst h
      exact ⟨rfl, [], rfl, hk, fun x hx => absurd hx (List.not_mem_nil x)⟩
    · exact Option.noConfusion h
  | child node pp ih =>
    intro ic r h
    simp only [getNodeLoop, nextComponentNode, Option.isNone_some, Bool.false_and,
      Bool.false_eq_true, if_false] at h
    split at h
    · exact Option.noConfusion h
    · split at h
      · rename_i hk
        simp only [Option.some.injEq] at h
        subst h
        exact ⟨rfl, [], rfl, hk, fun x hx => absurd hx (List.not_mem_nil x)⟩
      · rename_i hk
        obtain ⟨hc, mid, hm, hr, hall⟩ := ih _ r h
        refine ⟨hc, Cursor.child node pp :: mid, ?_, hr, ?_⟩
        · simp only [Cursor.ancestors, List.cons_append, hm]
        · intro x hx
          rcases List.mem_cons.1 hx with hx | hx
          · subst hx; simpa using hk
          · exact hall x hx

theorem getNodeLoop_unset : ∀ (cur : Cursor) (r : Located),
    getNodeLoop false none cur = some r → LocatedFrom (cur :: cur.ancestors) r := by
  intro cur
  induction cur with
  | root node =>
    intro r h
    cases hf : isFunctionLike node with
    | false =>
      simp only [getNodeLoop, nextComponentNode, hf, Option.isNone_none, Bool.or_self,
        Bool.and_false, Bool.false_eq_true, if_false] at h
      split at h <;> exact Option.noConfusion h
    | true =>
      have := getNodeLoop_set node (.root node) true r (by
        simpa [getNodeLoop, nextComponentNode, hf] using h)
      obtain ⟨hc, mid, hm, hr, hall⟩ := this
      exact ⟨[], .root node, rfl, fun x hx => absurd hx (List.not_mem_nil x), hf, hc,
        mid, hm, hr, hall⟩
  | child node pp ih =>
    intro r h
    cases hf : isFunctionLike node with
    | false =>
      have h' : getNodeLoop false none pp = some r := by
        simp only [getNodeLoop, nextComponentNode, hf, Option.isNone_none, Bool.or_self,
          Bool.and_false, Bool.false_eq_true, if_false] at h
        split at h
        · exact Option.noConfusion h
        · split at h <;> exact h
      obtain ⟨below, c, hs, hb, hfc, hc, hrest⟩ := ih r h'
      refine ⟨Cursor.child node pp :: below, c, ?_, ?_, hfc, hc, hrest⟩
      · simp only [Cursor.ancestors, List.cons_append, hs]
      · intro x hx
        rcases List.mem_cons.1 hx with hx | hx
        · subst hx; exact hf
        · exact hb x hx
    | true =>
      have := getNodeLoop_set node (.child node pp) true r (by
        simpa [getNodeLoop, nextComponentNode, hf] using h)
      obtain ⟨hc, mid, hm, hr, hall⟩ := this
      exact ⟨[], .child node pp, rfl, fun x hx => absurd hx (List.not_mem_nil x), hf, hc,
        mid, hm, hr, hall⟩

theorem getNode_from : ∀ (p : Cursor) (r : Located), isFunctionLike p.node = false →
    getNode p = some r → LocatedFrom p.ancestors r := by
  intro p
  induction p with
  | root node =>
    intro r _ h
    simp [getNode, isReturned] at h
  | child node pp ih =>
    intro r hp h
    simp only [getNode] at h
    split at h
    · rename_i hfrag
      obtain ⟨below, c, hs, hb, hrest⟩ := ih r (fragment_kind _ hfrag).1 h
      refine ⟨pp :: below, c, ?_, ?_, hrest⟩
      · simp only [Cursor.ancestors, List.cons_append, hs]
      · intro x hx
        rcases List.mem_cons.1 hx with hx | hx
        · subst hx; exact (fragment_kind _ hfrag).1
        · exact hb x hx
    · split at h
      · obtain ⟨below, c, hs, hb, hfc, hrest⟩ := getNodeLoop_unset _ r h
        cases below with
        | nil =>
          simp only [List.nil_append, List.cons.injEq] at hs
          rw [← hs.1] at hfc
          rw [hfc] at hp
          exact Bool.noConfusion hp
        | cons b below =>
          simp only [List.cons_append, List.cons.injEq] at hs
          exact ⟨below, c, hs.2, fun x hx => hb x (List.mem_cons_of_mem _ hx), hfc, hrest⟩
      · exact Option.noConfusion h

/-- C10: whenever `getNode` returns a result for a cursor at an element, `componentNode`
is the node of the nearest ancestor with a function kind (arrow function, function
expression, class method, object method or function declaration), and `rootPath` is the
nearest cursor at or above that ancestor whose kind is `VariableDeclaration`,
`ClassDeclaration`, `ExportDefaultDeclaration`, `ExportNamedDeclaration` or
`FunctionDeclaration`. -/
theorem getNode_located (p : Cursor) (r : Located) (hp : isElement (some p.node) = true)
    (h : getNode p = some r) :
    ∃ (below : List Cursor) (c : Cursor),
      p.ancestors = below ++ c :: c.ancestors ∧
      (∀ x ∈ below, isFunctionLike x.node = false) ∧
      isFunctionLike c.node = true ∧ r.componentNode = c.node ∧
      ∃ mid, c :: c.ancestors = mid ++ r.rootPath :: r.rootPath.ancestors ∧
        isRootKind r.rootPath.node = true ∧ ∀ x ∈ mid, isRootKind x.node = false :=
  getNode_from p r (element_kind _ hp).1 h

/-- The element returned by `function A() { return <div/> }`: the located function and
declaration are both the function declaration. -/
theorem getNode_located_witness :
    getNode returnedDiv = some ⟨functionCursor, functionCursor.node⟩ ∧
    LocatedFrom returnedDiv.ancestors ⟨functionCursor, functionCursor.node⟩ :=
  ⟨rfl, getNode_located returnedDiv ⟨functionCursor, functionCursor.node⟩ rfl rfl⟩

theorem Cursor.parent_child (n : Node) (pp : Cursor) : (Cursor.child n pp).parent = some pp.node :=
  rfl

/-- C11: for every non-empty identifier name `foo`, an element returned from the body of
`export default function foo(){}` is located at the function declaration and `getName`
gives exactly `["default", foo]`; an element that is the body of a default-exported
arrow function is located at the export declaration and `getName` gives exactly
`["default"]`. -/
theorem getName_default :
    (∀ (foo : String) (e : Node) (argument : Option Node) (params statements : List Node)
      (exported : Cursor), foo ≠ "" → isElement (some e) = true →
      exported.node = .ExportDefaultDeclaration
        (.FunctionDeclaration (some (.Identifier foo)) params
          (.other "BlockStatement" statements)) →
      getNode (.child e (.child (.ReturnStatement argument)
          (.child (.other "BlockStatement" statements)
            (.child (.FunctionDeclaration (some (.Identifier foo)) params
              (.other "BlockStatement" statements)) exported)))) =
        some ⟨.child (.FunctionDeclaration (some (.Identifier foo)) params
            (.other "BlockStatement" statements)) exported,
          .FunctionDeclaration (some (.Identifier foo)) params
            (.other "BlockStatement" statements)⟩ ∧
      getName ⟨.child (.FunctionDeclaration (some (.Identifier foo)) params
            (.other "BlockStatement" statements)) exported,
          .FunctionDeclaration (some (.Identifier foo)) params
            (.other "BlockStatement" statements)⟩ = .ok [some "default", some foo]) ∧
    (∀ (e : Node) (params : List Node) (exported : Cursor), isElement (some e) = true →
      exported.node = .ExportDefaultDeclaration (.ArrowFunctionExpression params e) →
      isElement exported.parent = false →
      getNode (.child e (.child (.ArrowFunctionExpression params e) exported)) =
        some ⟨exported, .ArrowFunctionExpression params e⟩ ∧
      getName ⟨exported, .ArrowFunctionExpression params e⟩ = .ok [some "default"]) := by
  constructor
  · intro foo e argument params statements exported hfoo he hx
    have ke := element_kind e he
    have b1 : ∀ a, isReactFragment (some (.ReturnStatement a)) = false := fun _ => rfl
    have b2 : ∀ a, isElement (some (.ReturnStatement a)) = false := fun _ => rfl
    have b3 : ∀ a, isFunctionLike (.ReturnStatement a) = false := fun _ => rfl
    have b4 : ∀ k a, isElement (some (.other k a)) = false := fun _ _ => rfl
    have b5 : ∀ k a, isFunctionLike (.other k a) = false := fun _ _ => rfl
    have b6 : ∀ a b c, isElement (some (.FunctionDeclaration a b c)) = false :=
      fun _ _ _ => rfl
    have b7 : ∀ a b c, isFunctionLike (.FunctionDeclaration a b c) = true := fun _ _ _ => rfl
    have b8 : isElement (some exported.node) = false := by rw [hx]; rfl
    constructor
    · simp [getNode, getNodeLoop, isReturned, Cursor.node_root, Cursor.node_child, ke.1, ke.2,
        b1, b2, b3, b4, b5, b6, b7, b8, isCallExpression, isConditionalExpression,
        isSequenceExpression, isLogicalExpression, isReturnStatement,
        isArrowFunctionExpression, isRootKind, nextComponentNode]
    · simp [getName, Cursor.node_child, Cursor.parent_child, hx, parentIsExportDefault,
        isExportDefaultDeclaration, defaultNames, Node.id, Node.name, hfoo]
  · intro e params exported he hx hp
    have ke := element_kind e he
    have a1 : ∀ b, isReactFragment (some (.ArrowFunctionExpression params b)) = false :=
      fun _ => rfl
    have a2 : ∀ b, isElement (some (.ArrowFunctionExpression params b)) = false := fun _ => rfl
    have a3 : ∀ b, isFunctionLike (.ArrowFunctionExpression params b) = true := fun _ => rfl
    constructor
    · cases exported with
      | root n =>
        simp only [Cursor.node] at hx
        subst hx
        simp [getNode, getNodeLoop, isReturned, Cursor.node_root, Cursor.node_child, ke.1,
          ke.2, a1, a2, a3, isCallExpression, isConditionalExpression,
          isSequenceExpression, isLogicalExpression, isReturnStatement,
          isArrowFunctionExpression, isRootKind, nextComponentNode, isElement,
          isReactElementNode, isJSXElement, Node.callee]
      | child n pp =>
        simp only [Cursor.node] at hx
        subst hx
        simp only [Cursor.parent] at hp
        have c1 : ∀ d, isElement (some (.ExportDefaultDeclaration d)) = false := fun _ => rfl
        have c2 : ∀ d, isFunctionLike (.ExportDefaultDeclaration d) = false := fun _ => rfl
        simp [getNode, getNodeLoop, isReturned, Cursor.node_root, Cursor.node_child, ke.1,
          ke.2, a1, a2, a3, c1, c2, hp, isCallExpression, isConditionalExpression,
          isSequenceExpression, isLogicalExpression, isReturnStatement,
          isArrowFunctionExpression, isRootKind, nextComponentNode]
    · simp [getName, hx, isExportDefaultDeclaration, defaultNames, Node.id]

/-- The programs `export default function Foo() { return <div/> }` and
`export default () => <div/>`. -/
theorem getName_default_witness :
    (getNode (.child (.JSXElement []) (.child (.ReturnStatement (some (.JSXElement [])))
        (.child returnBlock (.child defaultFunction defaultFunctionExport)))) =
        some ⟨.child defaultFunction defaultFunctionExport, defaultFunction⟩ ∧
      getName ⟨.child defaultFunction defaultFunctionExport, defaultFunction⟩ =
        .ok [some "default", some "Foo"]) ∧
    (getNode (.child (.JSXElement []) (.child directArrow defaultArrowExport)) =
        some ⟨defaultArrowExport, directArrow⟩ ∧
      getName ⟨defaultArrowExport, directArrow⟩ = .ok [some "default"]) :=
  ⟨getName_default.1 "Foo" (.JSXElement []) (some (.JSXElement [])) []
      [.ReturnStatement (some (.JSXElement []))] defaultFunctionExport (by decide) rfl rfl,
    getName_default.2 (.JSXElement []) [] defaultArrowExport rfl rfl rfl⟩

/-- C12 (as amended): `getName` raises an error when the declaration it is given is
neither a default export nor a variable declaration and has no `id` (a class or function
declaration without identifier, an export-named declaration), and when a variable
declaration has no declarator; for a variable declaration whose first declarator is a
destructuring pattern it raises no error and returns the one-element list that holds
`undefined`. -/
theorem getName_missing_id :
    (∀ located : Located, isExportDefaultDeclaration located.rootPath.node = false →
      parentIsExportDefault located.rootPath = false →
      isVariableDeclaration located.rootPath.node = false →
      located.rootPath.node.id = none → getName located = .error .nullRead) ∧
    (∀ located : Located, parentIsExportDefault located.rootPath = false →
      located.rootPath.node = .VariableDeclaration [] →
      getName located = .error .nullRead) ∧
    (∀ (located : Located) (pattern : Node) (init : Option Node) (others : List Node),
      parentIsExportDefault located.rootPath = false →
      located.rootPath.node = .VariableDeclaration (.VariableDeclarator pattern init :: others) →
      pattern.name = none → getName located = .ok [none]) := by
  refine ⟨?_, ?_, ?_⟩
  · intro located h1 h2 h3 h4
    simp [getName, h1, h2, h3, idName, h4]
  · intro located h2 hn
    simp [getName, h2, hn, isExportDefaultDeclaration, isVariableDeclaration,
      Node.declarations, idName]
  · intro located pattern init others h2 hn hp
    simp [getName, h2, hn, isExportDefaultDeclaration, isVariableDeclaration,
      Node.declarations, idName, Node.id, hp]

/-- A function declaration without identifier under `export`, and the declaration
`const { A } = { A: () => <div/> }`. -/
theorem getName_missing_id_witness :
    getName ⟨anonymousFunction, anonymousFunction.node⟩ = .error .nullRead ∧
    getName ⟨destructuringDeclaration, propertyArrow⟩ = .ok [none] :=
  ⟨getName_missing_id.1 ⟨anonymousFunction, anonymousFunction.node⟩ rfl rfl rfl rfl,
    getName_missing_id.2.2 ⟨destructuringDeclaration, propertyArrow⟩ _ _ _ rfl rfl rfl⟩

/-- C12 (as stated) fails: the element of `const { A } = { A: () => <div/> }` is located
at the variable declaration, whose first declarator is a destructuring pattern, and
`getName` returns a list, the one that holds `undefined`. -/
theorem getName_missing_id_counterexample :
    getNode destructuredDiv = some ⟨destructuringDeclaration, propertyArrow⟩ ∧
    getName ⟨destructuringDeclaration, propertyArrow⟩ = .ok [none] :=
  ⟨rfl, rfl⟩

/-- C13: for every variable declaration that is not under an export-default declaration
and whose first declarator binds an identifier, `getName` returns the one-element list
holding the name of that first declarator, whatever the other declarators and the located
function are; for every other declaration that is not a default export and has an
identifier, it returns the one-element list holding the name of that identifier. -/
theorem getName_declaration :
    (∀ (located : Located) (name : String) (init : Option Node) (others : List Node),
      parentIsExportDefault located.rootPath = false →
      located.rootPath.node =
        .VariableDeclaration (.VariableDeclarator (.Identifier name) init :: others) →
      getName located = .ok [some name]) ∧
    (∀ (located : Located) (name : String),
      isExportDefaultDeclaration located.rootPath.node = false →
      parentIsExportDefault located.rootPath = false →
      isVariableDeclaration located.rootPath.node = false →
      located.rootPath.node.id = some (.Identifier name) →
      getName located = .ok [some name]) := by
  constructor
  · intro located name init others h2 hn
    simp [getName, h2, hn, isExportDefaultDeclaration, isVariableDeclaration,
      Node.declarations, idName, Node.id, Node.name]
  · intro located name h1 h2 h3 h4
    simp [getName, h1, h2, h3, idName, h4, Node.name]

/-- The element of `const A = 1, B = () => <div/>` sits in the second declarator and is
named after the first; the element of `function A() { return <div/> }` is named `A`. -/
theorem getName_declaration_witness :
    (getNode secondDeclaratorDiv = some ⟨twoDeclaration, directArrow⟩ ∧
      getName ⟨twoDeclaration, directArrow⟩ = .ok [some "A"]) ∧
    (getNode returnedDiv = some ⟨functionCursor, functionCursor.node⟩ ∧
      getName ⟨functionCursor, functionCursor.node⟩ = .ok [some "A"]) :=
  ⟨⟨rfl, getName_declaration.1 ⟨twoDeclaration, directArrow⟩ "A" _ _ rfl rfl⟩,
    ⟨rfl,
      getName_declaration.2 ⟨functionCursor, functionCursor.node⟩ "A" rfl rfl rfl rfl⟩⟩

theorem name_eq_some (n : Node) (s : String) (h : n.name = some s) : n = .Identifier s := by
  cases n <;> simp [Node.name] at h
  rw [h]

/-- What `isReactFragment` answers on a first argument. -/
theorem isReactFragment_of_arguments (n : Node) (hj : isJSXFragment n = false) :
    isReactFragment (some n) = true ↔
      ∃ first rest, n.arguments = first :: rest ∧
        (first = .Identifier "Fragment" ∨
          first = .MemberExpression (.Identifier "React") (.Identifier "Fragment")) := by
  simp only [isReactFragment, hj, Bool.false_eq_true, if_false]
  cases hargs : n.arguments with
  | nil => simp
  | cons first rest =>
    simp only [List.head?_cons]
    constructor
    · intro h
      refine ⟨first, rest, rfl, ?_⟩
      cases first with
      | Identifier name =>
        left
        simp only [decide_eq_true_eq] at h
        rw [h]
      | MemberExpression object property =>
        right
        simp only [Bool.and_eq_true, decide_eq_true_eq] at h
        rw [name_eq_some _ _ h.1, name_eq_some _ _ h.2]
      | _ => exact absurd h (by simp)
    · rintro ⟨f, r, hfr, hor⟩
      simp only [List.cons.injEq] at hfr
      rw [hfr.1]
      rcases hor with h | h <;> (rw [h]; rfl)

/-- C14 (as amended): `isReactFragment` is true exactly when the node is not `null` and is
a fragment literal, or has arguments (a call, a `new` expression or an optional call,
with any number of arguments) the first of which is the identifier `Fragment` or the
member expression `React.Fragment`; it is false for every other node and for `null`. In
particular it is true on every node the specification names. -/
theorem isReactFragment_iff (node : Option Node) :
    (isReactFragment node = true ↔
      ∃ n, node = some n ∧
        (isJSXFragment n = true ∨
          ∃ first rest, n.arguments = first :: rest ∧
            (first = .Identifier "Fragment" ∨
              first = .MemberExpression (.Identifier "React") (.Identifier "Fragment")))) ∧
    (isFragmentAsSpecified node = true → isReactFragment node = true) := by
  constructor
  · cases node with
    | none => simp [isReactFragment]
    | some n =>
      cases hj : isJSXFragment n with
      | true => simp [isReactFragment, hj]
      | false =>
        rw [isReactFragment_of_arguments n hj]
        simp [hj]
  · intro h
    cases node with
    | none => simp [isFragmentAsSpecified] at h
    | some n =>
      cases n with
      | JSXFragment c => rfl
      | CallExpression callee args =>
        match args, h with
        | [.Identifier name], h =>
          simpa [isFragmentAsSpecified, isReactFragment, isJSXFragment, Node.arguments] using h
        | [.MemberExpression o p], h =>
          simpa [isFragmentAsSpecified, isReactFragment, isJSXFragment, Node.arguments] using h
      | _ => simp [isFragmentAsSpecified] at h

/-- C14 (as stated) fails: `React.createElement(Fragment, null)` has two arguments, so it
is none of the nodes the claim names, and `isReactFragment` is true on it; so it is on
`new X(Fragment)`, which is no call. -/
theorem isReactFragment_counterexample :
    isReactFragment (some (.CallExpression createElementCallee
      [.Identifier "Fragment", .other "NullLiteral" []])) = true ∧
    isFragmentAsSpecified (some (.CallExpression createElementCallee
      [.Identifier "Fragment", .other "NullLiteral" []])) = false ∧
    isReactFragment (some (.NewExpression (.Identifier "X") [.Identifier "Fragment"])) = true ∧
    isFragmentAsSpecified (some (.NewExpression (.Identifier "X") [.Identifier "Fragment"])) =
      false :=
  ⟨rfl, rfl, rfl, rfl⟩

/-- C15: on every node on which `isReactFragment` is true `isElement` is false; the calls
`React.createElement(Fragment, ...)` and `React.createElement(React.Fragment, ...)`
satisfy `isReactElement` and not `isElement`. -/
theorem isElement_disjoint :
    (∀ node : Option Node, isReactFragment node = true → isElement node = false) ∧
    (∀ rest : List Node,
      isReactElement (some (.CallExpression createElementCallee
        (.Identifier "Fragment" :: rest))) = .ok true ∧
      isElement (some (.CallExpression createElementCallee
        (.Identifier "Fragment" :: rest))) = false ∧
      isReactElement (some (.CallExpression createElementCallee
        (.MemberExpression (.Identifier "React") (.Identifier "Fragment") :: rest))) =
          .ok true ∧
      isElement (some (.CallExpression createElementCallee
        (.MemberExpression (.Identifier "React") (.Identifier "Fragment") :: rest))) =
          false) := by
  constructor
  · intro node h
    cases node with
    | none => rfl
    | some n => simp [isElement, h]
  · intro rest
    exact ⟨rfl, rfl, rfl, rfl⟩

/-- The fragment literal and the call `React.createElement(Fragment, null)`. -/
theorem isElement_disjoint_witness :
    (isReactFragment (some (.JSXFragment [])) = true ∧
      isElement (some (.JSXFragment [])) = false) ∧
    (isReactFragment (some (.CallExpression createElementCallee
        [.Identifier "Fragment", .other "NullLiteral" []])) = true ∧
      isElement (some (.CallExpression createElementCallee
        [.Identifier "Fragment", .other "NullLiteral" []])) = false) :=
  ⟨⟨rfl, isElement_disjoint.1 _ rfl⟩, ⟨rfl, isElement_disjoint.1 _ rfl⟩⟩

/-- C16: on `null` the exported `isReactElement` raises an error, where `isReactFragment`
and `isElement` return a falsy result; on every node each of the three classifiers
returns a result. -/
theorem isReactElement_null :
    isReactElement none = .error .nullRead ∧
    isReactFragment none = false ∧ isElement none = false ∧
    (∀ node : Node, isReactElement (some node) = .ok (isReactElementNode node)) ∧
    (∀ node : Node, ∃ b : Bool, isReactFragment (some node) = b) ∧
    (∀ node : Node, ∃ b : Bool, isElement (some node) = b) :=
  ⟨rfl, rfl, rfl, fun _ => rfl, fun _ => ⟨_, rfl⟩, fun _ => ⟨_, rfl⟩⟩

theorem isReturned_child (node : Node) (pp : Cursor) :
    isReturned (.child node pp) =
      if isPassThrough pp.node then isReturned pp
      else isReturnStatement pp.node || isArrowFunctionExpression pp.node := by
  simp only [isReturned, isPassThrough]

/-- C17 (as amended): `isReturned` is true if and only if, after climbing through every
ancestor that is a call, a conditional, a sequence or a logical expression (whatever the
place of the climbed node in it), the first other ancestor reached is a return statement
or an arrow function (whatever its body, and whatever the place of the climbed node in
it). -/
theorem isReturned_iff (p : Cursor) :
    isReturned p = true ↔
      ∃ (through : List Cursor) (q : Cursor),
        p.ancestors = through ++ q :: q.ancestors ∧
        (∀ x ∈ through, isPassThrough x.node = true) ∧
        isPassThrough q.node = false ∧
        (isReturnStatement q.node = true ∨ isArrowFunctionExpression q.node = true) := by
  induction p with
  | root node =>
    constructor
    · intro h
      exact absurd h (by simp [isReturned])
    · rintro ⟨through, q, h, _⟩
      simp [Cursor.ancestors] at h
  | child node pp ih =>
    rw [isReturned_child]
    cases hpt : isPassThrough pp.node with
    | true =>
      simp only [if_true]
      rw [ih]
      constructor
      · rintro ⟨through, q, h, hall, hq, hr⟩
        refine ⟨pp :: through, q, ?_, ?_, hq, hr⟩
        · simp only [Cursor.ancestors, List.cons_append, h]
        · intro x hx
          rcases List.mem_cons.1 hx with hx | hx
          · rw [hx]; exact hpt
          · exact hall x hx
      · rintro ⟨through, q, h, hall, hq, hr⟩
        cases through with
        | nil =>
          simp only [Cursor.ancestors, List.nil_append, List.cons.injEq] at h
          rw [← h.1, hpt] at hq
          exact Bool.noConfusion hq
        | cons t through =>
          simp only [Cursor.ancestors, List.cons_append, List.cons.injEq] at h
          exact ⟨through, q, h.2, fun x hx => hall x (List.mem_cons_of_mem _ hx), hq, hr⟩
    | false =>
      simp only [Bool.false_eq_true, if_false, Bool.or_eq_true]
      constructor
      · intro h
        exact ⟨[], pp, rfl, fun x hx => absurd hx (List.not_mem_nil x), hpt, h⟩
      · rintro ⟨through, q, h, hall, hq, hr⟩
        cases through with
        | nil =>
          simp only [Cursor.ancestors, List.nil_append, List.cons.injEq] at h
          rw [h.1]
          exact hr
        | cons t through =>
          simp only [Cursor.ancestors, List.cons_append, List.cons.injEq] at h
          have := hall t (List.mem_cons_self _ _)
          rw [← h.1, hpt] at this
          exact Bool.noConfusion this

/-- C17 (as stated) fails: the parameter `a` of `(a) => { return b }` sits in the parameter
list of a block-bodied arrow function and is not its body, and `isReturned` is true on
its cursor; so it is on the cursor of the block itself. -/
theorem isReturned_counterexample :
    parameterCursor.node = .Identifier "a" ∧
    parameterCursor.parent = some (.ArrowFunctionExpression [.Identifier "a"]
      (.other "BlockStatement" [.ReturnStatement (some (.Identifier "b"))])) ∧
    isReturned parameterCursor = true ∧
    blockBodyCursor.parent = parameterCursor.parent ∧
    isReturned blockBodyCursor = true :=
  ⟨rfl, rfl, rfl, rfl, rfl⟩

theorem mapAt_ok {V : Type} (s s1 : SelectorsState V) (key : String) (component : Component)
    (cb : V → V) (h : mapAt s key component cb = .ok s1) :
    key ∈ s.selectorsMap.keys ∧ s1.selectorsMap = s.selectorsMap ∧
    s1.idPropName = s.idPropName ∧
    ∀ k i, s1.componentsMap k i =
      if k = key ∧ component s.idPropName = some i then some cb else s.componentsMap k i := by
  unfold mapAt at h
  split at h
  · rename_i hk
    cases hc : component s.idPropName with
    | none =>
      rw [hc] at h
      simp only [Except.ok.injEq] at h
      subst h
      exact ⟨hk, rfl, rfl, fun k i => by simp⟩
    | some id =>
      rw [hc] at h
      simp only [Except.ok.injEq] at h
      subst h
      refine ⟨hk, rfl, rfl, fun k i => ?_⟩
      by_cases hkk : k = key
      · by_cases hi : i = id
        · simp [hkk, hi, setComponent]
        · have : ¬ id = i := fun e => hi e.symm
          simp [hkk, hi, this, setComponent]
      · simp [hkk]
  · exact absurd h (by simp)

theorem mapAt_defined {V : Type} (s : SelectorsState V) (key : String) (component : Component)
    (cb : V → V) (hk : key ∈ s.selectorsMap.keys) :
    ∃ s1, mapAt s key component cb = .ok s1 := by
  unfold mapAt
  rw [if_pos hk]
  cases component s.idPropName with
  | none => exact ⟨_, rfl⟩
  | some id => exact ⟨_, rfl⟩

/-- The shared objects after a list of calls of `map`: under each key and identifier the
last callback registered, or what was there before. -/
theorem registerAll_ok {V : Type} (calls : List (RegisterCall V)) :
    ∀ (s s1 : SelectorsState V), registerAll s calls = .ok s1 →
    s1.selectorsMap = s.selectorsMap ∧ s1.idPropName = s.idPropName ∧
    ∀ k i, s1.componentsMap k i =
      match lastOverride s.idPropName k i calls with
      | some cb => some cb
      | none => s.componentsMap k i := by
  induction calls with
  | nil =>
    intro s s1 h
    simp only [registerAll, Except.ok.injEq] at h
    subst h
    exact ⟨rfl, rfl, fun k i => rfl⟩
  | cons c cs ih =>
    intro s s1 h
    simp only [registerAll] at h
    cases hm : mapAt s c.key c.component c.cb with
    | error e => rw [hm] at h; exact absurd h (by simp)
    | ok s2 =>
      rw [hm] at h
      obtain ⟨_, h1, h2, h3⟩ := mapAt_ok s s2 _ _ _ hm
      obtain ⟨g1, g2, g3⟩ := ih s2 s1 h
      refine ⟨g1.trans h1, g2.trans h2, fun k i => ?_⟩
      rw [g3 k i, h2]
      simp only [lastOverride]
      cases lastOverride s.idPropName k i cs with
      | some cb => rfl
      | none =>
        show s2.componentsMap k i = _
        rw [h3 k i]
        by_cases hc : c.key = k ∧ c.component s.idPropName = some i
        · have hc' : k = c.key ∧ c.component s.idPropName = some i := ⟨hc.1.symm, hc.2⟩
          rw [if_pos hc, if_pos hc']
        · have hc' : ¬ (k = c.key ∧ c.component s.idPropName = some i) :=
            fun e => hc ⟨e.1.symm, e.2⟩
          rw [if_neg hc, if_neg hc']

theorem lastOverride_none {V : Type} (idPropName key : String) (id : Identifier)
    (calls : List (RegisterCall V))
    (h : ∀ c ∈ calls, ¬ (c.key = key ∧ c.component idPropName = some id)) :
    lastOverride idPropName key id calls = none := by
  induction calls with
  | nil => rfl
  | cons c cs ih =>
    simp only [lastOverride, ih (fun d hd => h d (List.mem_cons_of_mem _ hd)),
      h c (List.mem_cons_self _ _), if_false]

theorem lastOverride_last {V : Type} (idPropName key : String) (id : Identifier)
    (before after : List (RegisterCall V)) (c : RegisterCall V)
    (hc : c.key = key ∧ c.component idPropName = some id)
    (h : ∀ d ∈ after, ¬ (d.key = key ∧ d.component idPropName = some id)) :
    lastOverride idPropName key id (before ++ c :: after) = some c.cb := by
  induction before with
  | nil =>
    simp only [List.nil_append, lastOverride, lastOverride_none idPropName key id after h, hc,
      and_self, if_true]
  | cons b before ih =>
    have e : lastOverride idPropName key id (b :: (before ++ c :: after)) = some c.cb := by
      rw [lastOverride, ih]
    exact e

theorem createSelectorsMap_eq {V R : Type} (selectorsMap : SelectorsTable V)
    (createSelectors : Option (Initializer V R)) (idPropName : String)
    (build : Factory V → V) (resolveModule : R) :
    createSelectorsMap selectorsMap createSelectors idPropName build resolveModule =
      registerAll (freshState selectorsMap idPropName)
        (initializerCalls selectorsMap createSelectors build resolveModule) := by
  cases createSelectors <;> rfl

/-- C18: for every key of the selector table and every identifier, the resolve function
`mappers[key]` returned by `createSelectorsMap` gives the value of the factory unchanged
when no override has been registered for that identifier under that key, and gives the
callback applied to the value of the factory when a callback has been registered for a
component whose id property is that identifier under that key, by the callback
`createSelectors` (the last such registration counts) or by a later call of `map[key]`. -/
theorem mappersAt_createSelectorsMap {V R : Type} (selectorsMap : SelectorsTable V)
    (createSelectors : Option (Initializer V R)) (idPropName : String)
    (build : Factory V → V) (resolveModule : R) (s : SelectorsState V) (key : String)
    (id : Identifier)
    (hs : createSelectorsMap selectorsMap createSelectors idPropName build resolveModule = .ok s)
    (hkey : key ∈ selectorsMap.keys) :
    ((∀ c ∈ initializerCalls selectorsMap createSelectors build resolveModule,
        ¬ (c.key = key ∧ c.component idPropName = some id)) →
      mappersAt s key id = .ok (selectorsMap.get key (some id))) ∧
    (∀ (before after : List (RegisterCall V)) (c : RegisterCall V),
      initializerCalls selectorsMap createSelectors build resolveModule =
        before ++ c :: after →
      c.key = key → c.component idPropName = some id →
      (∀ d ∈ after, ¬ (d.key = key ∧ d.component idPropName = some id)) →
      mappersAt s key id = .ok (c.cb (selectorsMap.get key (some id)))) ∧
    (∀ (component : Component) (cb : V → V), component idPropName = some id →
      ∃ s1, mapAt s key component cb = .ok s1 ∧
        mappersAt s1 key id = .ok (cb (selectorsMap.get key (some id)))) := by
  rw [createSelectorsMap_eq] at hs
  obtain ⟨h1, h2, h3⟩ := registerAll_ok _ _ _ hs
  simp only [freshState] at h1 h2 h3
  have hk : key ∈ s.selectorsMap.keys := by rw [h1]; exact hkey
  refine ⟨?_, ?_, ?_⟩
  · intro hno
    have := h3 key id
    rw [lastOverride_none idPropName key id _ hno] at this
    simp only [mappersAt, hk, hkey, if_true, this, h1]
  · intro before after c hcalls hck hcc hafter
    have := h3 key id
    rw [hcalls, lastOverride_last idPropName key id before after c ⟨hck, hcc⟩ hafter] at this
    simp only [mappersAt, hk, hkey, if_true, this, h1]
  · intro component cb hc
    obtain ⟨s1, hs1⟩ := mapAt_defined s key component cb hk
    obtain ⟨_, g1, g2, g3⟩ := mapAt_ok s s1 key component cb hs1
    refine ⟨s1, hs1, ?_⟩
    have hk1 : key ∈ s1.selectorsMap.keys := by rw [g1]; exact hk
    have := g3 key id
    rw [h2] at this
    simp only [hc, and_self, if_true] at this
    simp only [mappersAt, hk1, hkey, if_true, this, g1, h1]

/-- A table with two keys and a callback `createSelectors` that registers two overrides
for `3f` under `root`: `item` keeps the value of the factory, `root` takes the second
callback for `3f` and the value of the factory for `a0`; a later call of `map.item`
overrides `item` for `3f`. -/
theorem mappersAt_createSelectorsMap_witness :
    ∃ s, createSelectorsMap sampleTable (some sampleInitializer) "id"
        (fun getSelector => getSelector none) () = .ok s ∧
      mappersAt s "item" id3f = .ok "item-3f" ∧
      mappersAt s "root" idA0 = .ok "root-a0" ∧
      mappersAt s "root" id3f = .ok "root-3f?" ∧
      ∃ s1, mapAt s "item" component3f (fun v => v ++ "#") = .ok s1 ∧
        mappersAt s1 "item" id3f = .ok "item-3f#" :=
  ⟨_, rfl,
    (mappersAt_createSelectorsMap sampleTable (some sampleInitializer) "id"
      (fun getSelector => getSelector none) () _ "item" id3f rfl (by decide)).1 (by decide),
    (mappersAt_createSelectorsMap sampleTable (some sampleInitializer) "id"
      (fun getSelector => getSelector none) () _ "root" idA0 rfl (by decide)).1 (by decide),
    (mappersAt_createSelectorsMap sampleTable (some sampleInitializer) "id"
      (fun getSelector => getSelector none) () _ "root" id3f rfl (by decide)).2.1
      [⟨"root", component3f, fun v => v ++ "!"⟩] [] ⟨"root", component3f, fun v => v ++ "?"⟩
      rfl rfl rfl (fun d hd => absurd hd (List.not_mem_nil d)),
    (mappersAt_createSelectorsMap sampleTable (some sampleInitializer) "id"
      (fun getSelector => getSelector none) () _ "item" id3f rfl (by decide)).2.2
      component3f (fun v => v ++ "#") rfl⟩

/-- C19 (as amended): for every key of the selector table, the default value that
`createSelectorsMap` hands to the callback `createSelectors` is its argument `build`
applied to the factory of that key; it is the factory invoked with no id when `build`
invokes its argument with no id. -/
theorem defaultSelectors_build {V R : Type} (selectorsMap : SelectorsTable V)
    (build : Factory V → V) :
    (∀ (initializer : Initializer V R) (idPropName : String) (resolveModule : R),
      createSelectorsMap selectorsMap (some initializer) idPropName build resolveModule =
        registerAll (freshState selectorsMap idPropName)
          (initializer selectorsMap.keys resolveModule (defaultSelectors selectorsMap build))) ∧
    (∀ key ∈ selectorsMap.keys,
      defaultSelectors selectorsMap build key = some (build (selectorsMap.get key))) ∧
    (∀ key ∈ selectorsMap.keys,
      defaultSelectors selectorsMap (fun getSelector => getSelector none) key =
        some (selectorsMap.get key none)) := by
  refine ⟨fun _ _ _ => rfl, ?_, ?_⟩
  · intro key hk
    simp only [defaultSelectors, hk, if_true]
  · intro key hk
    simp only [defaultSelectors, hk, if_true]

/-- The default value under `root` for a `build` that invokes the factory, and for one
that appends to what the factory gives. -/
theorem defaultSelectors_build_witness :
    defaultSelectors sampleTable (fun getSelector => getSelector none) "root" =
      some "root-default" ∧
    defaultSelectors sampleTable (fun getSelector => getSelector none ++ "*") "root" =
      some "root-default*" :=
  ⟨(@defaultSelectors_build String Unit sampleTable (fun getSelector => getSelector none)).2.2
      "root" (by decide),
    (@defaultSelectors_build String Unit sampleTable
      (fun getSelector => getSelector none ++ "*")).2.1 "root" (by decide)⟩

/-- C19 (as stated) fails: with a `build` that does not invoke the factory the default
value is what `build` returns, not the factory invoked with no id. -/
theorem defaultSelectors_counterexample :
    defaultSelectors sampleTable (fun _ => "built") "root" = some "built" ∧
    sampleTable.get "root" none = "root-default" :=
  ⟨rfl, rfl⟩

/-- C20: registering a callback for an identifier under a key changes the result of
resolving that key and identifier only: every other pair of key and identifier resolves
as before; and a second registration for the same key and identifier replaces the
first, so that resolving applies the latest callback only. -/
theorem mapAt_frame {V : Type} (s s1 : SelectorsState V) (key : String)
    (component : Component) (cb : V → V) (id : Identifier)
    (h : mapAt s key component cb = .ok s1) (hc : component s.idPropName = some id) :
    (∀ (key1 : String) (id1 : Identifier), ¬ (key1 = key ∧ id1 = id) →
      mappersAt s1 key1 id1 = mappersAt s key1 id1) ∧
    mappersAt s1 key id = .ok (cb (s.selectorsMap.get key (some id))) ∧
    (∀ (component2 : Component) (cb2 : V → V) (s2 : SelectorsState V),
      mapAt s1 key component2 cb2 = .ok s2 → component2 s1.idPropName = some id →
      mappersAt s2 key id = .ok (cb2 (s.selectorsMap.get key (some id)))) := by
  obtain ⟨hk, h1, h2, h3⟩ := mapAt_ok s s1 key component cb h
  have hk1 : key ∈ s1.selectorsMap.keys := by rw [h1]; exact hk
  refine ⟨?_, ?_, ?_⟩
  · intro key1 id1 hne
    have e := h3 key1 id1
    have hne' : ¬ (key1 = key ∧ component s.idPropName = some id1) := by
      rintro ⟨e1, e2⟩
      rw [hc] at e2
      exact hne ⟨e1, (Option.some.inj e2).symm⟩
    rw [if_neg hne'] at e
    simp only [mappersAt, h1, e]
  · have e := h3 key id
    rw [if_pos ⟨rfl, hc⟩] at e
    simp only [mappersAt, hk1, hk, if_true, e, h1]
  · intro component2 cb2 s2 h4 hc2
    obtain ⟨_, g1, g2, g3⟩ := mapAt_ok s1 s2 key component2 cb2 h4
    have hk2 : key ∈ s2.selectorsMap.keys := by rw [g1]; exact hk1
    have e := g3 key id
    rw [if_pos ⟨rfl, hc2⟩] at e
    simp only [mappersAt, hk2, hk1, hk, if_true, e, g1, h1]

/-- A registration for `3f` under `root` on the fresh objects of the sample table: the
other key and the other identifier resolve as before, and a second registration
replaces the first. -/
theorem mapAt_frame_witness :
    ∃ s1, mapAt (freshState sampleTable "id") "root" component3f (fun v => v ++ "!") = .ok s1 ∧
      mappersAt s1 "item" id3f = mappersAt (freshState sampleTable "id") "item" id3f ∧
      mappersAt s1 "root" idA0 = mappersAt (freshState sampleTable "id") "root" idA0 ∧
      mappersAt s1 "root" id3f = .ok "root-3f!" ∧
      ∃ s2, mapAt s1 "root" component3f (fun v => v ++ "?") = .ok s2 ∧
        mappersAt s2 "root" id3f = .ok "root-3f?" :=
  ⟨_, rfl,
    (mapAt_frame (freshState sampleTable "id") _ "root" component3f (fun v => v ++ "!") id3f
      rfl rfl).1 "item" id3f (by decide),
    (mapAt_frame (freshState sampleTable "id") _ "root" component3f (fun v => v ++ "!") id3f
      rfl rfl).1 "root" idA0 (by decide),
    (mapAt_frame (freshState sampleTable "id") _ "root" component3f (fun v => v ++ "!") id3f
      rfl rfl).2.1,
    _, rfl,
    (mapAt_frame (freshState sampleTable "id") _ "root" component3f (fun v => v ++ "!") id3f
      rfl rfl).2.2 component3f (fun v => v ++ "?") _ rfl rfl⟩

end Reselector
